import Mathlib

/-!
StepMania `NoteData`: the track grid and its row queries

A shallow embedding of the inline member functions of `class NoteData`
(`src/stepmania/src/NoteData.h`) and theorems about them.

Conventions of the embedding

* C++ `int` values are Lean `Int`s.  Every theorem below that quantifies over a
  row or a track count holds for all integers, hence for all 32-bit ones.
* `std::vector<TapNote>` is `List TapNote`; `v.size()` is `v.length`.
* The cast `(int) v.size()` is the conversion of an unsigned size to a 32-bit
  two's complement `int` (`castInt`), as every compiler StepMania is built with
  performs it.
* `GetTapNote` takes its track as `unsigned`; the row queries pass it the loop counter
  `t`, which runs over `0, ..., m_iNumTracks - 1` and is never negative, so the track is
  a `Nat` and the conversion is the identity.  A `for` loop over the tracks is a
  recursion on the number of iterations left, `m_iNumTracks.toNat` at the start (none
  when the count is zero or negative).
* Behaviour the C++ standard leaves undefined (indexing the array `m_TapNotes`
  at or beyond `MAX_NOTE_TRACKS`, indexing a vector at or beyond its size) is
  the value `none` of an `Option`.
-/

set_option autoImplicit false

/-- Modelled from the spec: the type `TapNote` and its constants are declared in
`NoteTypes.h`, which is not part of the slice.  The spec gives a tap event as one of
EMPTY, TAP, HOLD_BEGIN_MARKER, HOLD_END_MARKER; `NoteData.h` calls the first two
`TAP_EMPTY` and `TAP_TAP` and describes the markers as the characters 2 (hold note
begin) and 3 (hold note end). -/
inductive TapNote where
  | TAP_EMPTY
  | TAP_TAP
  | TAP_HOLD_HEAD
  | TAP_HOLD_TAIL
  deriving DecidableEq, Repr

/-- Modelled from the spec: the record `HoldNote` is declared in `NoteTypes.h`, which is
not part of the slice.  The spec gives a hold interval as a track, a start row and an
end row, spanning the rows from the start row up to the end row on that one track. -/
structure HoldNote where
  m_iTrack : Int
  m_iStartIndex : Int
  m_iEndIndex : Int
  deriving DecidableEq, Repr

/-- The data members of `class NoteData`.  The constant `MAX_NOTE_TRACKS` is declared
outside the slice and is a parameter of the embedding: `m_TapNotes` is an array of
exactly `MAX_NOTE_TRACKS` vectors. -/
structure NoteData (MAX_NOTE_TRACKS : Nat) where
  m_TapNotes : Fin MAX_NOTE_TRACKS → List TapNote
  m_iNumTracks : Int
  m_HoldNotes : List HoldNote

/-- The cast `(int) n` of an unsigned size `n` to a 32-bit signed `int`. -/
def castInt (n : Nat) : Int := ((n : Int) + 2 ^ 31) % 2 ^ 32 - 2 ^ 31

namespace NoteData

open TapNote

variable {MAX_NOTE_TRACKS : Nat}

/-- The declared track count, `GetNumTracks()`.  Its body is in `NoteData.cpp`, outside
the slice; it is the accessor of `m_iNumTracks`. -/
def GetNumTracks (nd : NoteData MAX_NOTE_TRACKS) : Int := nd.m_iNumTracks

/-- The function `GetTapNote(track, row)`:
`if(row < 0 || row >= (int) m_TapNotes[track].size()) return TapNote(TAP_EMPTY);`
`return m_TapNotes[track][row];`
The result is `none` where the C++ code indexes `m_TapNotes` or the vector out of
bounds. -/
def GetTapNote (nd : NoteData MAX_NOTE_TRACKS) (track : Nat) (row : Int) : Option TapNote :=
  if h : track < MAX_NOTE_TRACKS then
    if row < 0 ∨ row ≥ castInt (nd.m_TapNotes ⟨track, h⟩).length then some TAP_EMPTY
    else (nd.m_TapNotes ⟨track, h⟩)[row.toNat]?
  else none

/-- The loop of `IsRowEmpty` from track `t` on, with `k` iterations left:
`for( ; t<m_iNumTracks; t++ ) if( GetTapNote(t, index) != TAP_EMPTY ) return false;`
`return true;` -/
def IsRowEmptyFrom (nd : NoteData MAX_NOTE_TRACKS) (index : Int) : Nat → Nat → Option Bool
  | 0, _ => some true
  | k + 1, t =>
    match nd.GetTapNote t index with
    | none => none
    | some n => if n ≠ TAP_EMPTY then some false else IsRowEmptyFrom nd index k (t + 1)

/-- The function `IsRowEmpty(index)`: the loop runs for `t = 0, ..., m_iNumTracks - 1`. -/
def IsRowEmpty (nd : NoteData MAX_NOTE_TRACKS) (index : Int) : Option Bool :=
  IsRowEmptyFrom nd index nd.m_iNumTracks.toNat 0

/-- The loop of `GetNumTapNonEmptyTracks` from track `t` on, with `k` iterations left
and the counter at `iNum`:
`for( ; t<m_iNumTracks; t++ ) if( GetTapNote(t, index) != TAP_EMPTY ) iNum++;`
`return iNum;` -/
def GetNumTapNonEmptyTracksFrom (nd : NoteData MAX_NOTE_TRACKS) (index : Int) :
    Nat → Nat → Int → Option Int
  | 0, _, iNum => some iNum
  | k + 1, t, iNum =>
    match nd.GetTapNote t index with
    | none => none
    | some n =>
      if n ≠ TAP_EMPTY then GetNumTapNonEmptyTracksFrom nd index k (t + 1) (iNum + 1)
      else GetNumTapNonEmptyTracksFrom nd index k (t + 1) iNum

/-- The function `GetNumTapNonEmptyTracks(index)`. -/
def GetNumTapNonEmptyTracks (nd : NoteData MAX_NOTE_TRACKS) (index : Int) : Option Int :=
  GetNumTapNonEmptyTracksFrom nd index nd.m_iNumTracks.toNat 0 0

/-- The loop of `GetFirstNonEmptyTrack` from track `t` on, with `k` iterations left:
`for( ; t<m_iNumTracks; t++ ) if( GetTapNote(t, index) != TAP_EMPTY ) return t;`
`return -1;` -/
def GetFirstNonEmptyTrackFrom (nd : NoteData MAX_NOTE_TRACKS) (index : Int) :
    Nat → Nat → Option Int
  | 0, _ => some (-1)
  | k + 1, t =>
    match nd.GetTapNote t index with
    | none => none
    | some n =>
      if n ≠ TAP_EMPTY then some (t : Int) else GetFirstNonEmptyTrackFrom nd index k (t + 1)

/-- The function `GetFirstNonEmptyTrack(index)`. -/
def GetFirstNonEmptyTrack (nd : NoteData MAX_NOTE_TRACKS) (index : Int) : Option Int :=
  GetFirstNonEmptyTrackFrom nd index nd.m_iNumTracks.toNat 0

/-- The loop of `GetNumTracksWithTap` from track `t` on, with `k` iterations left and
the counter at `iNum`:
`for( ; t<m_iNumTracks; t++ ) if( GetTapNote(t, index) == TAP_TAP ) iNum++;`
`return iNum;` -/
def GetNumTracksWithTapFrom (nd : NoteData MAX_NOTE_TRACKS) (index : Int) :
    Nat → Nat → Int → Option Int
  | 0, _, iNum => some iNum
  | k + 1, t, iNum =>
    match nd.GetTapNote t index with
    | none => none
    | some n =>
      if n = TAP_TAP then GetNumTracksWithTapFrom nd index k (t + 1) (iNum + 1)
      else GetNumTracksWithTapFrom nd index k (t + 1) iNum

/-- The function `GetNumTracksWithTap(index)`. -/
def GetNumTracksWithTap (nd : NoteData MAX_NOTE_TRACKS) (index : Int) : Option Int :=
  GetNumTracksWithTapFrom nd index nd.m_iNumTracks.toNat 0 0

/-- The loop of `GetFirstTrackWithTap` from track `t` on, with `k` iterations left:
`for( ; t<m_iNumTracks; t++ ) if( GetTapNote(t, index) == TAP_TAP ) return t;`
`return -1;` -/
def GetFirstTrackWithTapFrom (nd : NoteData MAX_NOTE_TRACKS) (index : Int) :
    Nat → Nat → Option Int
  | 0, _ => some (-1)
  | k + 1, t =>
    match nd.GetTapNote t index with
    | none => none
    | some n =>
      if n = TAP_TAP then some (t : Int) else GetFirstTrackWithTapFrom nd index k (t + 1)

/-- The function `GetFirstTrackWithTap(index)`. -/
def GetFirstTrackWithTap (nd : NoteData MAX_NOTE_TRACKS) (index : Int) : Option Int :=
  GetFirstTrackWithTapFrom nd index nd.m_iNumTracks.toNat 0

/-- The function `GetMaxRow()`: `return int(m_TapNotes[0].size());`.  The result is `none` when the
array `m_TapNotes` has no element 0. -/
def GetMaxRow (nd : NoteData MAX_NOTE_TRACKS) : Option Int :=
  if h : 0 < MAX_NOTE_TRACKS then some (castInt (nd.m_TapNotes ⟨0, h⟩).length) else none

/-- A store given by the list of its first tracks; the remaining tracks are empty
vectors. -/
def ofTracks (tracks : List (List TapNote)) (numTracks : Int) (holds : List HoldNote) :
    NoteData MAX_NOTE_TRACKS :=
  { m_TapNotes := fun i => tracks.getD i.val []
    m_iNumTracks := numTracks
    m_HoldNotes := holds }

/-- The store the constructor leaves behind: zero-length tracks and no holds. -/
def emptyStore (numTracks : Int) : NoteData MAX_NOTE_TRACKS := ofTracks [] numTracks []

/-- The track indices that the loop of `IsRowEmpty` passes to `GetTapNote`, in call
order, from track `t` on with `k` iterations left. -/
def IsRowEmptyCallsFrom (nd : NoteData MAX_NOTE_TRACKS) (index : Int) : Nat → Nat → List Nat
  | 0, _ => []
  | k + 1, t =>
    t :: match nd.GetTapNote t index with
      | none => []
      | some n => if n ≠ TAP_EMPTY then [] else IsRowEmptyCallsFrom nd index k (t + 1)

/-- The track indices that `IsRowEmpty(index)` passes to `GetTapNote`. -/
def IsRowEmptyCalls (nd : NoteData MAX_NOTE_TRACKS) (index : Int) : List Nat :=
  IsRowEmptyCallsFrom nd index nd.m_iNumTracks.toNat 0

/-- The track indices that the loop of `GetNumTapNonEmptyTracks` passes to `GetTapNote`,
in call order, from track `t` on with `k` iterations left. -/
def GetNumTapNonEmptyTracksCallsFrom (nd : NoteData MAX_NOTE_TRACKS) (index : Int) :
    Nat → Nat → List Nat
  | 0, _ => []
  | k + 1, t =>
    t :: match nd.GetTapNote t index with
      | none => []
      | some _ => GetNumTapNonEmptyTracksCallsFrom nd index k (t + 1)

/-- The track indices that `GetNumTapNonEmptyTracks(index)` passes to `GetTapNote`. -/
def GetNumTapNonEmptyTracksCalls (nd : NoteData MAX_NOTE_TRACKS) (index : Int) : List Nat :=
  GetNumTapNonEmptyTracksCallsFrom nd index nd.m_iNumTracks.toNat 0

/-- The track indices that the loop of `GetFirstNonEmptyTrack` passes to `GetTapNote`, in
call order, from track `t` on with `k` iterations left. -/
def GetFirstNonEmptyTrackCallsFrom (nd : NoteData MAX_NOTE_TRACKS) (index : Int) :
    Nat → Nat → List Nat
  | 0, _ => []
  | k + 1, t =>
    t :: match nd.GetTapNote t index with
      | none => []
      | some n =>
        if n ≠ TAP_EMPTY then [] else GetFirstNonEmptyTrackCallsFrom nd index k (t + 1)

/-- The track indices that `GetFirstNonEmptyTrack(index)` passes to `GetTapNote`. -/
def GetFirstNonEmptyTrackCalls (nd : NoteData MAX_NOTE_TRACKS) (index : Int) : List Nat :=
  GetFirstNonEmptyTrackCallsFrom nd index nd.m_iNumTracks.toNat 0

/-- The track indices that the loop of `GetNumTracksWithTap` passes to `GetTapNote`, in
call order, from track `t` on with `k` iterations left. -/
def GetNumTracksWithTapCallsFrom (nd : NoteData MAX_NOTE_TRACKS) (index : Int) :
    Nat → Nat → List Nat
  | 0, _ => []
  | k + 1, t =>
    t :: match nd.GetTapNote t index with
      | none => []
      | some _ => GetNumTracksWithTapCallsFrom nd index k (t + 1)

/-- The track indices that `GetNumTracksWithTap(index)` passes to `GetTapNote`. -/
def GetNumTracksWithTapCalls (nd : NoteData MAX_NOTE_TRACKS) (index : Int) : List Nat :=
  GetNumTracksWithTapCallsFrom nd index nd.m_iNumTracks.toNat 0

/-- The track indices that the loop of `GetFirstTrackWithTap` passes to `GetTapNote`, in
call order, from track `t` on with `k` iterations left. -/
def GetFirstTrackWithTapCallsFrom (nd : NoteData MAX_NOTE_TRACKS) (index : Int) :
    Nat → Nat → List Nat
  | 0, _ => []
  | k + 1, t =>
    t :: match nd.GetTapNote t index with
      | none => []
      | some n =>
        if n = TAP_TAP then [] else GetFirstTrackWithTapCallsFrom nd index k (t + 1)

/-- The track indices that `GetFirstTrackWithTap(index)` passes to `GetTapNote`. -/
def GetFirstTrackWithTapCalls (nd : NoteData MAX_NOTE_TRACKS) (index : Int) : List Nat :=
  GetFirstTrackWithTapCallsFrom nd index nd.m_iNumTracks.toNat 0

/-- The accessor `const HoldNote &GetHoldNote( int index ) const { return m_HoldNotes[index]; }`: the
stored interval at `index`; `none` where the C++ code indexes the vector out of bounds. -/
def GetHoldNote (nd : NoteData MAX_NOTE_TRACKS) (index : Int) : Option HoldNote :=
  if 0 ≤ index then nd.m_HoldNotes[index.toNat]? else none

/-- The accessor `HoldNote &GetHoldNote( int index ) { return m_HoldNotes[index]; }`: the mutable
reference to the stored interval at `index`, as the value it refers to together with the
store that an assignment through the reference leaves behind; `none` where the C++ code
indexes the vector out of bounds. -/
def GetHoldNoteRef (nd : NoteData MAX_NOTE_TRACKS) (index : Int) :
    Option (HoldNote × (HoldNote → NoteData MAX_NOTE_TRACKS)) :=
  if 0 ≤ index then
    match nd.m_HoldNotes[index.toNat]? with
    | none => none
    | some cur =>
      some (cur, fun hn => { nd with m_HoldNotes := nd.m_HoldNotes.set index.toNat hn })
  else none

/-- Modelled from the spec: two hold intervals overlap when they are on the same track
and their spans, from the start row up to the end row, share a row.  (The predicate is
not named in the header.) -/
def Overlaps (a b : HoldNote) : Prop :=
  a.m_iTrack = b.m_iTrack ∧ a.m_iStartIndex < b.m_iEndIndex ∧
    b.m_iStartIndex < a.m_iEndIndex

instance (a b : HoldNote) : Decidable (Overlaps a b) := by
  unfold Overlaps
  infer_instance

/-- Modelled from the spec: the invariant "no two hold intervals on the same track
overlap" on the stored collection `m_HoldNotes`.  (The predicate is not named in the
header.) -/
def NoOverlap (nd : NoteData MAX_NOTE_TRACKS) : Prop :=
  ∀ (i : Nat) (hi : i < nd.m_HoldNotes.length) (j : Nat) (hj : j < nd.m_HoldNotes.length),
    i ≠ j → ¬ Overlaps (nd.m_HoldNotes.get ⟨i, hi⟩) (nd.m_HoldNotes.get ⟨j, hj⟩)

instance (nd : NoteData MAX_NOTE_TRACKS) : Decidable (NoOverlap nd) := by
  unfold NoOverlap
  infer_instance

/-- Modelled from the spec: a track's sequence with the rows from `lo` up to (not
including) `hi` cleared to EMPTY; `r` is the row of the first element.  The spec has `add`
"clear all plain TAP and marker events in the new interval's row range on that track"; the
code that does it is in `NoteData.cpp`, outside the slice.  Rows past the stored length
read EMPTY as they are. -/
def clearRowsFrom : List TapNote → Int → Int → Int → List TapNote
  | [], _, _, _ => []
  | n :: ns, r, lo, hi =>
    (if lo ≤ r ∧ r < hi then TAP_EMPTY else n) :: clearRowsFrom ns (r + 1) lo hi

/-- Modelled from the spec: the store with the rows from `lo` up to `hi` of one track
cleared (see `clearRowsFrom`). -/
def clearTrackRows (nd : NoteData MAX_NOTE_TRACKS) (track : Nat) (lo hi : Int) :
    NoteData MAX_NOTE_TRACKS :=
  { nd with
    m_TapNotes := fun i =>
      if i.val = track then clearRowsFrom (nd.m_TapNotes i) 0 lo hi else nd.m_TapNotes i }

/-- Modelled from the spec: the interval that `add` stores for a new interval and the
stored intervals that overlap it: "the resulting interval's span is the union of
overlapping spans", from the least start row to the greatest end row. -/
def mergeSpans (newNote : HoldNote) : List HoldNote → HoldNote
  | [] => newNote
  | hn :: rest =>
    mergeSpans
      { newNote with
        m_iStartIndex := min newNote.m_iStartIndex hn.m_iStartIndex
        m_iEndIndex := max newNote.m_iEndIndex hn.m_iEndIndex } rest

/-- Modelled from the spec: `AddHoldNote( HoldNote newNote )`, whose body is in
`NoteData.cpp`, outside the slice (the header says: "add note hold note merging overlapping
HoldNotes and destroying TapNotes underneath").  After the spec's `add`: every stored
interval on the same track that overlaps the new one is removed and merged with it into
one interval whose span is the union of the spans; the events in the new interval's row
range on its track are cleared.  The result is `none` for a track outside the array
`m_TapNotes` (a caller contract violation). -/
def AddHoldNote (nd : NoteData MAX_NOTE_TRACKS) (newNote : HoldNote) :
    Option (NoteData MAX_NOTE_TRACKS) :=
  if 0 ≤ newNote.m_iTrack ∧ newNote.m_iTrack < (MAX_NOTE_TRACKS : Int) then
    some
      { clearTrackRows nd newNote.m_iTrack.toNat newNote.m_iStartIndex newNote.m_iEndIndex with
        m_HoldNotes :=
          nd.m_HoldNotes.filter (fun hn => !decide (Overlaps newNote hn)) ++
            [mergeSpans newNote (nd.m_HoldNotes.filter (fun hn => decide (Overlaps newNote hn)))] }
  else none

/-- Modelled from the spec: `PadTapNotes(rows)`, declared in the header ("Pad m_TapNotes so
it includes the row rows") with its body in `NoteData.cpp`, outside the slice.  After the
spec's `set`: every track sequence grows to `rows + 1` events if it is shorter, the new
rows padded with EMPTY. -/
def PadTapNotes (nd : NoteData MAX_NOTE_TRACKS) (rows : Int) : NoteData MAX_NOTE_TRACKS :=
  { nd with
    m_TapNotes := fun i =>
      nd.m_TapNotes i ++
        List.replicate ((rows + 1).toNat - (nd.m_TapNotes i).length) TAP_EMPTY }

/-- Modelled from the spec: `SetTapNote(track, row, t)`, whose body is in `NoteData.cpp`,
outside the slice.  After the spec's `set`: it "grows all track sequences to row+1 if
needed (padding new rows with EMPTY) before writing".  The result is `none` for a track
outside the array `m_TapNotes` or a negative row (a caller contract violation). -/
def SetTapNote (nd : NoteData MAX_NOTE_TRACKS) (track row : Int) (t : TapNote) :
    Option (NoteData MAX_NOTE_TRACKS) :=
  if 0 ≤ track ∧ track < (MAX_NOTE_TRACKS : Int) ∧ 0 ≤ row then
    some
      { nd with
        m_TapNotes := fun i =>
          if i.val = track.toNat then ((nd.PadTapNotes row).m_TapNotes i).set row.toNat t
          else (nd.PadTapNotes row).m_TapNotes i }
  else none

/-- Modelled from the spec: what `ConvertHoldNotesTo2sAnd3s` does for one hold interval:
"conversion from intervals writes begin/end markers at interval boundaries, clearing
intermediate rows"; the spec's example puts the begin marker at the start row and the end
marker at the end row. -/
def HoldNoteTo2sAnd3s (nd : NoteData MAX_NOTE_TRACKS) (hn : HoldNote) :
    Option (NoteData MAX_NOTE_TRACKS) :=
  match nd.SetTapNote hn.m_iTrack hn.m_iStartIndex TAP_HOLD_HEAD with
  | none => none
  | some nd1 =>
    match nd1.SetTapNote hn.m_iTrack hn.m_iEndIndex TAP_HOLD_TAIL with
    | none => none
    | some nd2 =>
      some (clearTrackRows nd2 hn.m_iTrack.toNat (hn.m_iStartIndex + 1) hn.m_iEndIndex)

/-- Modelled from the spec: the loop of `ConvertHoldNotesTo2sAnd3s` over the stored hold
intervals, in their stored order. -/
def HoldNotesTo2sAnd3s (nd : NoteData MAX_NOTE_TRACKS) :
    List HoldNote → Option (NoteData MAX_NOTE_TRACKS)
  | [] => some nd
  | hn :: rest =>
    match HoldNoteTo2sAnd3s nd hn with
    | none => none
    | some nd1 => HoldNotesTo2sAnd3s nd1 rest

/-- Modelled from the spec: `ConvertHoldNotesTo2sAnd3s()`, whose body is in
`NoteData.cpp`, outside the slice: every stored hold interval is written into the grid as
a begin marker and an end marker, and the interval collection is left empty (the store
changes from the interval representation to the marker representation). -/
def ConvertHoldNotesTo2sAnd3s (nd : NoteData MAX_NOTE_TRACKS) :
    Option (NoteData MAX_NOTE_TRACKS) :=
  match HoldNotesTo2sAnd3s nd nd.m_HoldNotes with
  | none => none
  | some nd1 => some { nd1 with m_HoldNotes := [] }

/-- Modelled from the spec: the scan of one track of `Convert2sAnd3sToHoldNotes`, from
row `r` on, "tracking an open-hold-start per track": a begin marker starts a hold at its
row; the next end marker closes it, and so does a plain tap (the header: "1 can also end
a HoldNote"); an end marker or a tap with no hold open is ignored ("3 without a matching 2
is ignored").  The result is the list of the intervals found, in row order. -/
def scanTrack (track : Int) : List TapNote → Nat → Option Nat → List HoldNote
  | [], _, _ => []
  | TAP_HOLD_HEAD :: rest, r, _ => scanTrack track rest (r + 1) (some r)
  | TAP_EMPTY :: rest, r, start => scanTrack track rest (r + 1) start
  | _ :: rest, r, some s => ⟨track, (s : Int), (r : Int)⟩ :: scanTrack track rest (r + 1) none
  | _ :: rest, r, none => scanTrack track rest (r + 1) none

/-- Modelled from the spec: the events that the scan of one track leaves behind: the
begin markers and the events that closed a hold are taken out of the grid, now that
intervals stand for them; an end marker or a tap with no hold open stays. -/
def clearScanned : List TapNote → Bool → List TapNote
  | [], _ => []
  | TAP_HOLD_HEAD :: rest, _ => TAP_EMPTY :: clearScanned rest true
  | TAP_EMPTY :: rest, isOpen => TAP_EMPTY :: clearScanned rest isOpen
  | _ :: rest, true => TAP_EMPTY :: clearScanned rest false
  | n :: rest, false => n :: clearScanned rest false

/-- Modelled from the spec: the loop of `Convert2sAnd3sToHoldNotes` over the declared
tracks, from track `t` on with `k` tracks left: the intervals found, track by track. -/
def scanTracksFrom (nd : NoteData MAX_NOTE_TRACKS) : Nat → Nat → List HoldNote
  | 0, _ => []
  | k + 1, t =>
    (if h : t < MAX_NOTE_TRACKS then scanTrack (t : Int) (nd.m_TapNotes ⟨t, h⟩) 0 none
      else []) ++ scanTracksFrom nd k (t + 1)

/-- Modelled from the spec: `Convert2sAnd3sToHoldNotes()`, whose body is in
`NoteData.cpp`, outside the slice: "conversion to intervals scans each track once"; the
intervals found on the declared tracks join the interval collection and their markers
leave the grid.  The result is `none` when the declared track count exceeds
`MAX_NOTE_TRACKS` (the scan would index `m_TapNotes` out of bounds). -/
def Convert2sAnd3sToHoldNotes (nd : NoteData MAX_NOTE_TRACKS) :
    Option (NoteData MAX_NOTE_TRACKS) :=
  if nd.m_iNumTracks ≤ (MAX_NOTE_TRACKS : Int) then
    some
      { nd with
        m_TapNotes := fun i =>
          if (i.val : Int) < nd.m_iNumTracks then clearScanned (nd.m_TapNotes i) false
          else nd.m_TapNotes i
        m_HoldNotes := nd.m_HoldNotes ++ scanTracksFrom nd nd.m_iNumTracks.toNat 0 }
  else none

/-- The event at a track and row of the conceptually infinite grid: the stored event, or
EMPTY past the stored length and for a track outside the array. -/
def cell (nd : NoteData MAX_NOTE_TRACKS) (track row : Nat) : TapNote :=
  if h : track < MAX_NOTE_TRACKS then ((nd.m_TapNotes ⟨track, h⟩)[row]?).getD TAP_EMPTY
  else TAP_EMPTY

/-- Two hold intervals are apart: if they are on the same track, one ends on a row
before the row on which the other starts, so that no row is a boundary or an inner row of
both. -/
def Apart (a b : HoldNote) : Prop :=
  a.m_iTrack = b.m_iTrack →
    a.m_iEndIndex < b.m_iStartIndex ∨ b.m_iEndIndex < a.m_iStartIndex

instance (a b : HoldNote) : Decidable (Apart a b) := by
  unfold Apart
  infer_instance

/-- The hold intervals of a store can be written as markers: each lies on a declared
track, starts on a row that is not negative and ends on a later row, and any two of them
are apart. -/
def HoldNotesApart (nd : NoteData MAX_NOTE_TRACKS) : Prop :=
  (∀ hn ∈ nd.m_HoldNotes, 0 ≤ hn.m_iTrack ∧ hn.m_iTrack < nd.m_iNumTracks ∧
    0 ≤ hn.m_iStartIndex ∧ hn.m_iStartIndex < hn.m_iEndIndex) ∧
    nd.m_HoldNotes.Pairwise Apart

/-- The grid of a store holds no hold-begin marker. -/
def NoHoldHeads (nd : NoteData MAX_NOTE_TRACKS) : Prop :=
  ∀ i, TAP_HOLD_HEAD ∉ nd.m_TapNotes i

instance (nd : NoteData MAX_NOTE_TRACKS) : Decidable (HoldNotesApart nd) := by
  unfold HoldNotesApart
  infer_instance

instance (nd : NoteData MAX_NOTE_TRACKS) : Decidable (NoHoldHeads nd) := by
  unfold NoHoldHeads
  infer_instance

/-- A one-track store with the hold interval of the spec's example, rows 4 to 10 of track
0, a second interval on rows 12 to 14, and a plain tap on row 6. -/
def holdStore : NoteData 2 :=
  ofTracks [[TAP_EMPTY, TAP_EMPTY, TAP_EMPTY, TAP_EMPTY, TAP_EMPTY, TAP_EMPTY, TAP_TAP]] 1
    [⟨0, 12, 14⟩, ⟨0, 4, 10⟩]

/-- A one-track store with two hold intervals that touch: rows 4 to 10 and rows 10 to 15
of track 0. -/
def touchingStore : NoteData 2 :=
  ofTracks [] 1 [⟨0, 4, 10⟩, ⟨0, 10, 15⟩]

/-- A one-track store with no hold interval whose grid holds a begin marker and an end
marker. -/
def markerStore : NoteData 2 :=
  ofTracks [[TAP_HOLD_HEAD, TAP_HOLD_TAIL]] 1 []

/-- A one-track store with no hold interval whose grid holds an end marker and a tap but
no begin marker. -/
def strayTailStore : NoteData 2 :=
  ofTracks [[TAP_EMPTY, TAP_HOLD_TAIL, TAP_TAP]] 1 []

/-- A two-track store with a plain tap at row 3 of track 1 and no hold notes. -/
def tapStore : NoteData 4 :=
  ofTracks [[], [TAP_EMPTY, TAP_EMPTY, TAP_EMPTY, TAP_TAP, TAP_EMPTY]] 2 []

/-- A one-track store with two hold intervals on track 0: rows 0 to 4 and rows 8 to 12. -/
def twoHoldStore : NoteData 4 :=
  ofTracks [] 1 [⟨0, 0, 4⟩, ⟨0, 8, 12⟩]

/-- A one-track store whose track holds 2^31 plain taps: the shortest stored length that a
32-bit `int` cannot represent. -/
def longTrackStore : NoteData 1 :=
  { m_TapNotes := fun _ => List.replicate (2 ^ 31) TAP_TAP
    m_iNumTracks := 1
    m_HoldNotes := [] }

/-- A two-track store of three rows: a tap and a hold head in row 0, a hold tail in row 2
of track 1. -/
def sampleStore : NoteData 4 :=
  ofTracks [[TAP_TAP, TAP_EMPTY, TAP_EMPTY], [TAP_HOLD_HEAD, TAP_EMPTY, TAP_HOLD_TAIL],
    [TAP_EMPTY, TAP_EMPTY, TAP_EMPTY], [TAP_EMPTY, TAP_EMPTY, TAP_EMPTY]] 2 []

/-- A store that agrees with `sampleStore` in row 0 of tracks 0 and 1 and differs from it
in the other rows, in track 2 and in the hold notes. -/
def sampleStoreVariant : NoteData 4 :=
  ofTracks [[TAP_TAP, TAP_TAP], [TAP_HOLD_HEAD, TAP_HOLD_TAIL, TAP_EMPTY, TAP_TAP],
    [TAP_TAP], []] 2 [⟨1, 0, 1⟩]

end NoteData

/-! ## `ScreenPlayerOptions`: the selection table and the player options

A shallow embedding of `ImportOptions` and `ExportOptions`
(`src/stepmania/src/ScreenPlayerOptions.cpp`).

* A `float` is a rational number: the program only assigns the nine speed constants and
  compares with them, and all nine are exactly representable.  A speed that is no
  number compares unequal to every constant, as every rational other than the nine
  does.
* The enumerations `AppearanceType`, `TurnType` and `ColorType` are only converted to
  and from `int`; they are their integer values, and the conversions keep the value.
* The arrays `m_iSelectedOption[p][line]` and `m_PlayerOptions[p]` are functions of
  their indices; the loops visit `p = 0, ..., NUM_PLAYERS - 1`.
-/

/-- The effect types that `ScreenPlayerOptions.cpp` names.  The enumeration is declared in
`PlayerOptions.h`, outside the slice; `EFFECT_OTHER` stands for any value of the
enumeration that is none of the seven, which the `default:` branch of `ImportOptions`
receives. -/
inductive EffectType where
  | EFFECT_NONE
  | EFFECT_BOOST
  | EFFECT_WAVE
  | EFFECT_DRUNK
  | EFFECT_DIZZY
  | EFFECT_SPACE
  | EFFECT_MINI
  | EFFECT_OTHER (v : Int)
  deriving DecidableEq, Repr

/-- The members of `PlayerOptions` that `ScreenPlayerOptions.cpp` reads and writes.  The
class is declared in `PlayerOptions.h`, outside the slice. -/
structure PlayerOptions where
  m_fArrowScrollSpeed : ℚ
  m_EffectType : EffectType
  m_AppearanceType : Int
  m_TurnType : Int
  m_bLittle : Bool
  m_bReverseScroll : Bool
  m_ColorType : Int
  m_bHoldNotes : Bool
  m_bDark : Bool
  deriving DecidableEq

/-- One initialiser of `g_PlayerOptionsLines`: a title, the declared number of choices and
the labels of the choices.  The record `OptionLineData` is declared in `ScreenOptions.h`,
outside the slice; the fields are named after what the initialisers put in them. -/
structure OptionLineData where
  szTitle : String
  iNumOptions : Int
  szOptionsText : List String

namespace ScreenPlayerOptions

open EffectType

def PO_SPEED : Nat := 0
def PO_EFFECT : Nat := 1
def PO_APPEAR : Nat := 2
def PO_TURN : Nat := 3
def PO_LITTLE : Nat := 4
def PO_SCROLL : Nat := 5
def PO_COLOR : Nat := 6
def PO_HOLD_NOTES : Nat := 7
def PO_DARK : Nat := 8
def NUM_PLAYER_OPTIONS_LINES : Nat := 9

/-- The table `g_PlayerOptionsLines[NUM_PLAYER_OPTIONS_LINES]`. -/
def g_PlayerOptionsLines : List OptionLineData :=
  [ { szTitle := "Speed", iNumOptions := 9,
      szOptionsText := [ "x0.5", "x0.75", "x1", "x1.5", "x2", "x3", "x4", "x5", "x8" ] },
    { szTitle := "Effect", iNumOptions := 7,
      szOptionsText := [ "OFF", "BOOST", "WAVE", "DRUNK", "DIZZY", "SPACE", "MINI" ] },
    { szTitle := "Appear", iNumOptions := 4,
      szOptionsText := [ "VISIBLE", "HIDDEN", "SUDDEN", "STEALTH" ] },
    { szTitle := "Turn", iNumOptions := 5,
      szOptionsText := [ "OFF", "MIRROR", "LEFT", "RIGHT", "SHUFFLE" ] },
    { szTitle := "Little", iNumOptions := 2, szOptionsText := [ "OFF", "ON" ] },
    { szTitle := "Scroll", iNumOptions := 2, szOptionsText := [ "STANDARD", "REVERSE" ] },
    { szTitle := "Color", iNumOptions := 4,
      szOptionsText := [ "VIVID", "NOTE", "FLAT", "PLAIN" ] },
    { szTitle := "Holds", iNumOptions := 2, szOptionsText := [ "OFF", "ON" ] },
    { szTitle := "Dark", iNumOptions := 2, szOptionsText := [ "OFF", "ON" ] } ]

/-- The assignment `m_iSelectedOption[p][line] = v` on the row of player `p`. -/
def setLine (sel : Nat → Int) (line : Nat) (v : Int) : Nat → Int :=
  fun l => if l = line then v else sel l

/-- The first statement of the loop body of `ImportOptions`, the chain
`if( po.m_fArrowScrollSpeed == 0.5f ) m_iSelectedOption[p][PO_SPEED] = 0; else if ... else
m_iSelectedOption[p][PO_SPEED] = 2;`, on the row of player `p`. -/
def ImportSpeed (po : PlayerOptions) (sel : Nat → Int) : Nat → Int :=
  if po.m_fArrowScrollSpeed = 0.5 then setLine sel PO_SPEED 0
  else if po.m_fArrowScrollSpeed = 0.75 then setLine sel PO_SPEED 1
  else if po.m_fArrowScrollSpeed = 1.0 then setLine sel PO_SPEED 2
  else if po.m_fArrowScrollSpeed = 1.5 then setLine sel PO_SPEED 3
  else if po.m_fArrowScrollSpeed = 2.0 then setLine sel PO_SPEED 4
  else if po.m_fArrowScrollSpeed = 3.0 then setLine sel PO_SPEED 5
  else if po.m_fArrowScrollSpeed = 4.0 then setLine sel PO_SPEED 6
  else if po.m_fArrowScrollSpeed = 5.0 then setLine sel PO_SPEED 7
  else if po.m_fArrowScrollSpeed = 8.0 then setLine sel PO_SPEED 8
  else setLine sel PO_SPEED 2

/-- The second statement of the loop body of `ImportOptions`, `switch(po.m_EffectType)`,
on the row of player `p`; its `default:` branch assigns nothing. -/
def ImportEffect (po : PlayerOptions) (sel : Nat → Int) : Nat → Int :=
  match po.m_EffectType with
  | EFFECT_NONE => setLine sel PO_EFFECT 0
  | EFFECT_BOOST => setLine sel PO_EFFECT 1
  | EFFECT_WAVE => setLine sel PO_EFFECT 2
  | EFFECT_DRUNK => setLine sel PO_EFFECT 3
  | EFFECT_DIZZY => setLine sel PO_EFFECT 4
  | EFFECT_SPACE => setLine sel PO_EFFECT 5
  | EFFECT_MINI => setLine sel PO_EFFECT 6
  | EFFECT_OTHER _ => sel

/-- The body of the loop of `ImportOptions` for one player: the row
`m_iSelectedOption[p]` after the assignments, from the player's options `po`. -/
def ImportOptionsPlayer (po : PlayerOptions) (sel : Nat → Int) : Nat → Int :=
  let sel := ImportSpeed po sel
  let sel := ImportEffect po sel
  let sel := setLine sel PO_APPEAR po.m_AppearanceType
  let sel := setLine sel PO_TURN po.m_TurnType
  let sel := setLine sel PO_LITTLE (if po.m_bLittle then 1 else 0)
  let sel := setLine sel PO_SCROLL (if po.m_bReverseScroll then 1 else 0)
  let sel := setLine sel PO_COLOR po.m_ColorType
  let sel := setLine sel PO_HOLD_NOTES (if po.m_bHoldNotes then 1 else 0)
  setLine sel PO_DARK (if po.m_bDark then 1 else 0)

/-- The first statement of the loop body of `ExportOptions`,
`switch( m_iSelectedOption[p][PO_SPEED] )`.  A `switch` without `default:` leaves the
member as it is for a selection that no `case` names. -/
def ExportSpeed (sel : Nat → Int) (po : PlayerOptions) : PlayerOptions :=
  if sel PO_SPEED = 0 then { po with m_fArrowScrollSpeed := 0.5 }
  else if sel PO_SPEED = 1 then { po with m_fArrowScrollSpeed := 0.75 }
  else if sel PO_SPEED = 2 then { po with m_fArrowScrollSpeed := 1.0 }
  else if sel PO_SPEED = 3 then { po with m_fArrowScrollSpeed := 1.5 }
  else if sel PO_SPEED = 4 then { po with m_fArrowScrollSpeed := 2.0 }
  else if sel PO_SPEED = 5 then { po with m_fArrowScrollSpeed := 3.0 }
  else if sel PO_SPEED = 6 then { po with m_fArrowScrollSpeed := 4.0 }
  else if sel PO_SPEED = 7 then { po with m_fArrowScrollSpeed := 5.0 }
  else if sel PO_SPEED = 8 then { po with m_fArrowScrollSpeed := 8.0 }
  else po

/-- The second statement of the loop body of `ExportOptions`,
`switch(m_iSelectedOption[p][PO_EFFECT])`, again without `default:`. -/
def ExportEffect (sel : Nat → Int) (po : PlayerOptions) : PlayerOptions :=
  if sel PO_EFFECT = 0 then { po with m_EffectType := EFFECT_NONE }
  else if sel PO_EFFECT = 1 then { po with m_EffectType := EFFECT_BOOST }
  else if sel PO_EFFECT = 2 then { po with m_EffectType := EFFECT_WAVE }
  else if sel PO_EFFECT = 3 then { po with m_EffectType := EFFECT_DRUNK }
  else if sel PO_EFFECT = 4 then { po with m_EffectType := EFFECT_DIZZY }
  else if sel PO_EFFECT = 5 then { po with m_EffectType := EFFECT_SPACE }
  else if sel PO_EFFECT = 6 then { po with m_EffectType := EFFECT_MINI }
  else po

/-- The body of the loop of `ExportOptions` for one player: the player's options after
the assignments, from the row `m_iSelectedOption[p]`. -/
def ExportOptionsPlayer (sel : Nat → Int) (po : PlayerOptions) : PlayerOptions :=
  let po := ExportSpeed sel po
  let po := ExportEffect sel po
  { po with
    m_AppearanceType := sel PO_APPEAR
    m_TurnType := sel PO_TURN
    m_bLittle := decide (sel PO_LITTLE = 1)
    m_bReverseScroll := decide (sel PO_SCROLL = 1)
    m_ColorType := sel PO_COLOR
    m_bHoldNotes := decide (sel PO_HOLD_NOTES = 1)
    m_bDark := decide (sel PO_DARK = 1) }

/-- The loop of `ImportOptions` from player `p` on, with `k` iterations left:
`for( ; p<NUM_PLAYERS; p++ )`, on the table `m_iSelectedOption`, reading
`GAMESTATE->m_PlayerOptions`. -/
def ImportOptionsFrom (options : Nat → PlayerOptions) :
    Nat → Nat → (Nat → Nat → Int) → (Nat → Nat → Int)
  | 0, _, table => table
  | k + 1, p, table =>
    ImportOptionsFrom options k (p + 1)
      (fun q => if q = p then ImportOptionsPlayer (options p) (table p) else table q)

/-- The function `ImportOptions()`: the table `m_iSelectedOption` it leaves behind.  The
constant `NUM_PLAYERS` is declared outside the slice and is a parameter. -/
def ImportOptions (NUM_PLAYERS : Nat) (options : Nat → PlayerOptions)
    (table : Nat → Nat → Int) : Nat → Nat → Int :=
  ImportOptionsFrom options NUM_PLAYERS 0 table

/-- The loop of `ExportOptions` from player `p` on, with `k` iterations left:
`for( ; p<NUM_PLAYERS; p++ )`, on `GAMESTATE->m_PlayerOptions`, reading the table
`m_iSelectedOption`. -/
def ExportOptionsFrom (table : Nat → Nat → Int) :
    Nat → Nat → (Nat → PlayerOptions) → (Nat → PlayerOptions)
  | 0, _, options => options
  | k + 1, p, options =>
    ExportOptionsFrom table k (p + 1)
      (fun q => if q = p then ExportOptionsPlayer (table p) (options p) else options q)

/-- The function `ExportOptions()`: the array `GAMESTATE->m_PlayerOptions` it leaves
behind. -/
def ExportOptions (NUM_PLAYERS : Nat) (table : Nat → Nat → Int)
    (options : Nat → PlayerOptions) : Nat → PlayerOptions :=
  ExportOptionsFrom table NUM_PLAYERS 0 options

/-- A valid selection row: the Speed index is in 0..8, the Effect index in 0..6, and the
Little, Scroll, Holds and Dark indices are 0 or 1.  (The Appear, Turn and Color lines
hold the integer value of an enumeration; every value is carried over unchanged.) -/
def ValidSelection (sel : Nat → Int) : Prop :=
  (0 ≤ sel PO_SPEED ∧ sel PO_SPEED ≤ 8) ∧ (0 ≤ sel PO_EFFECT ∧ sel PO_EFFECT ≤ 6) ∧
    (sel PO_LITTLE = 0 ∨ sel PO_LITTLE = 1) ∧ (sel PO_SCROLL = 0 ∨ sel PO_SCROLL = 1) ∧
    (sel PO_HOLD_NOTES = 0 ∨ sel PO_HOLD_NOTES = 1) ∧ (sel PO_DARK = 0 ∨ sel PO_DARK = 1)

instance (sel : Nat → Int) : Decidable (ValidSelection sel) := by
  unfold ValidSelection
  infer_instance

/-- The nine scroll speeds that the Speed line offers. -/
def KnownSpeed (speed : ℚ) : Prop :=
  speed = 0.5 ∨ speed = 0.75 ∨ speed = 1.0 ∨ speed = 1.5 ∨ speed = 2.0 ∨ speed = 3.0 ∨
    speed = 4.0 ∨ speed = 5.0 ∨ speed = 8.0

/-- The seven effect types that the Effect line offers. -/
def KnownEffect (effect : EffectType) : Prop :=
  effect = EFFECT_NONE ∨ effect = EFFECT_BOOST ∨ effect = EFFECT_WAVE ∨
    effect = EFFECT_DRUNK ∨ effect = EFFECT_DIZZY ∨ effect = EFFECT_SPACE ∨
    effect = EFFECT_MINI

/-- The label of choice `i` of line `line` of `g_PlayerOptionsLines`. -/
def optionLabel (line i : Nat) : Option String :=
  match g_PlayerOptionsLines[line]? with
  | some data => data.szOptionsText[i]?
  | none => none

/-- The natural number that a list of decimal digits spells, read after the digits that
gave `acc`; `none` when a character is no decimal digit. -/
def readDigits : List Char → Nat → Option Nat
  | [], acc => some acc
  | c :: cs, acc =>
    if 48 ≤ c.toNat ∧ c.toNat ≤ 57 then readDigits cs (10 * acc + (c.toNat - 48)) else none

/-- The decimal numeral written in a label after its leading x, as the number that its
digits spell without the point and the count of digits after the point: the label x0.75
gives 75 and 2.  It is `none` for a label that is not an x followed by digits with at most
one point among them. -/
def decimalOfLabel (label : String) : Option (Nat × Nat) :=
  match label.data with
  | 'x' :: rest =>
    let whole := rest.takeWhile (fun c => c != '.')
    let frac := (rest.dropWhile (fun c => c != '.')).drop 1
    match whole, readDigits (whole ++ frac) 0 with
    | _ :: _, some m => some (m, frac.length)
    | _, _ => none
  | _ => none

/-- The number written after the x in a label of the Speed line. -/
def speedOfLabel (label : String) : Option ℚ :=
  match decimalOfLabel label with
  | some (m, e) => some ((m : ℚ) / 10 ^ e)
  | none => none

/-- The effect type that a label of the Effect line names: the enumerator called EFFECT_
and the label, where the label OFF names `EFFECT_NONE`. -/
def effectOfLabel (label : String) : Option EffectType :=
  if label = "OFF" then some EFFECT_NONE
  else if label = "BOOST" then some EFFECT_BOOST
  else if label = "WAVE" then some EFFECT_WAVE
  else if label = "DRUNK" then some EFFECT_DRUNK
  else if label = "DIZZY" then some EFFECT_DIZZY
  else if label = "SPACE" then some EFFECT_SPACE
  else if label = "MINI" then some EFFECT_MINI
  else none

/-- The first `switch` of `ExportOptions` handles the Speed index `v`: it assigns the
scroll speed, whatever the speed was before. -/
def HandlesSpeed (v : Int) : Prop :=
  ∀ (sel : Nat → Int) (po1 po2 : PlayerOptions), sel PO_SPEED = v →
    (ExportOptionsPlayer sel po1).m_fArrowScrollSpeed =
      (ExportOptionsPlayer sel po2).m_fArrowScrollSpeed

/-- The second `switch` of `ExportOptions` handles the Effect index `v`: it assigns the
effect type, whatever the effect type was before. -/
def HandlesEffect (v : Int) : Prop :=
  ∀ (sel : Nat → Int) (po1 po2 : PlayerOptions), sel PO_EFFECT = v →
    (ExportOptionsPlayer sel po1).m_EffectType = (ExportOptionsPlayer sel po2).m_EffectType

/-- A selection row given by the list of its first lines; the lines after them are 0. -/
def rowOf (l : List Int) : Nat → Int := fun line => l.getD line 0

/-- A player's options as the defaults of the table: speed x1 and everything off. -/
def defaultOptions : PlayerOptions :=
  { m_fArrowScrollSpeed := 1.0, m_EffectType := EFFECT_NONE, m_AppearanceType := 0,
    m_TurnType := 0, m_bLittle := false, m_bReverseScroll := false, m_ColorType := 0,
    m_bHoldNotes := true, m_bDark := false }

/-- A selection table for two players. -/
def sampleTable : Nat → Nat → Int := fun p =>
  if p = 0 then rowOf [3, 2, 1, 4, 1, 0, 2, 1, 0] else rowOf [7, 6, 3, 0, 0, 1, 0, 0, 1]

/-- Player options for two players: player 0 scrolls at x2.5, which the Speed line does
not offer, with the wave effect; player 1 has the defaults. -/
def sampleOptions : Nat → PlayerOptions := fun p =>
  if p = 0 then
    { defaultOptions with
      m_fArrowScrollSpeed := 2.5
      m_EffectType := EFFECT_WAVE
      m_bDark := true }
  else defaultOptions

end ScreenPlayerOptions

/-! ## The cast and `GetTapNote` -/

theorem castInt_le (n : Nat) : castInt n ≤ (n : Int) := by
  unfold castInt
  omega

theorem castInt_of_lt {n : Nat} (h : n < 2 ^ 31) : castInt n = (n : Int) := by
  unfold castInt
  omega

namespace NoteData

open TapNote

variable {MAX_NOTE_TRACKS : Nat}

/-- Inside the array, a read never reaches the out-of-bounds branch: the guard on `row`
keeps the vector access within the stored length. -/
theorem GetTapNote_isSome (nd : NoteData MAX_NOTE_TRACKS) {track : Nat}
    (ht : track < MAX_NOTE_TRACKS) (row : Int) : ∃ n, nd.GetTapNote track row = some n := by
  unfold GetTapNote
  rw [dif_pos ht]
  by_cases hg : row < 0 ∨ row ≥ castInt (nd.m_TapNotes ⟨track, ht⟩).length
  · exact ⟨TAP_EMPTY, if_pos hg⟩
  · rw [if_neg hg]
    have hlt : row.toNat < (nd.m_TapNotes ⟨track, ht⟩).length := by
      have := castInt_le (nd.m_TapNotes ⟨track, ht⟩).length
      omega
    exact ⟨(nd.m_TapNotes ⟨track, ht⟩)[row.toNat], List.getElem?_eq_getElem hlt⟩

theorem GetTapNote_eq_none_iff (nd : NoteData MAX_NOTE_TRACKS) (track : Nat) (row : Int) :
    nd.GetTapNote track row = none ↔ MAX_NOTE_TRACKS ≤ track := by
  constructor
  · intro h
    by_contra hc
    obtain ⟨n, hn⟩ := nd.GetTapNote_isSome (Nat.lt_of_not_le hc) row
    rw [hn] at h
    exact Option.noConfusion h
  · intro h
    unfold GetTapNote
    exact dif_neg (Nat.not_lt.mpr h)

theorem lt_of_GetTapNote_eq_some (nd : NoteData MAX_NOTE_TRACKS) {track : Nat} {row : Int}
    {n : TapNote} (h : nd.GetTapNote track row = some n) : track < MAX_NOTE_TRACKS := by
  by_contra hc
  rw [(nd.GetTapNote_eq_none_iff track row).mpr (Nat.le_of_not_lt hc)] at h
  exact Option.noConfusion h

/-! ## The search loops -/

theorem IsRowEmptyFrom_eq_true_iff (nd : NoteData MAX_NOTE_TRACKS) (index : Int) (k t : Nat) :
    IsRowEmptyFrom nd index k t = some true ↔
      ∀ i, t ≤ i → i < t + k → nd.GetTapNote i index = some TAP_EMPTY := by
  induction k generalizing t with
  | zero =>
    simp only [IsRowEmptyFrom, true_iff]
    intro i h1 h2
    omega
  | succ k ih =>
    rw [IsRowEmptyFrom]
    cases hg : nd.GetTapNote t index with
    | none =>
      constructor
      · intro h
        exact Option.noConfusion h
      · intro h
        have := h t (Nat.le_refl t) (by omega)
        rw [hg] at this
        exact Option.noConfusion this
    | some n =>
      by_cases hn : n = TAP_EMPTY
      · subst hn
        simp only [ne_eq, not_true_eq_false, if_false]
        rw [ih (t + 1)]
        constructor
        · intro h i h1 h2
          rcases Nat.eq_or_lt_of_le h1 with h3 | h3
          · rw [← h3]; exact hg
          · exact h i h3 (by omega)
        · intro h i h1 h2
          exact h i (by omega) (by omega)
      · simp only [ne_eq, hn, not_false_eq_true, if_true]
        constructor
        · intro h
          exact absurd (Option.some.inj h) (by decide)
        · intro h
          have := h t (Nat.le_refl t) (by omega)
          rw [hg] at this
          exact absurd (Option.some.inj this) hn

theorem IsRowEmptyFrom_eq_false_of (nd : NoteData MAX_NOTE_TRACKS) (index : Int) (k t i : Nat)
    (n : TapNote) (h1 : t ≤ i) (h2 : i < t + k) (hi : nd.GetTapNote i index = some n)
    (hn : n ≠ TAP_EMPTY) : IsRowEmptyFrom nd index k t = some false := by
  induction k generalizing t with
  | zero => omega
  | succ k ih =>
    rw [IsRowEmptyFrom]
    have hlt : t < MAX_NOTE_TRACKS := Nat.lt_of_le_of_lt h1 (nd.lt_of_GetTapNote_eq_some hi)
    obtain ⟨m, hm⟩ := nd.GetTapNote_isSome hlt index
    rw [hm]
    by_cases hme : m = TAP_EMPTY
    · subst hme
      simp only [ne_eq, not_true_eq_false, if_false]
      rcases Nat.eq_or_lt_of_le h1 with h3 | h3
      · subst h3
        rw [hm] at hi
        exact absurd (Option.some.inj hi).symm hn
      · exact ih (t + 1) h3 (by omega)
    · simp only [ne_eq, hme, not_false_eq_true, if_true]

theorem GetFirstNonEmptyTrackFrom_eq_index_iff (nd : NoteData MAX_NOTE_TRACKS) (index : Int)
    (k t r : Nat) :
    GetFirstNonEmptyTrackFrom nd index k t = some (r : Int) ↔
      t ≤ r ∧ r < t + k ∧ (∃ n, nd.GetTapNote r index = some n ∧ n ≠ TAP_EMPTY) ∧
        ∀ j, t ≤ j → j < r → ∃ n, nd.GetTapNote j index = some n ∧ ¬ n ≠ TAP_EMPTY := by
  induction k generalizing t with
  | zero =>
    rw [GetFirstNonEmptyTrackFrom]
    constructor
    · intro h
      have := Option.some.inj h
      omega
    · rintro ⟨h1, h2, -⟩
      omega
  | succ k ih =>
    rw [GetFirstNonEmptyTrackFrom]
    cases hg : nd.GetTapNote t index with
    | none =>
      constructor
      · intro h
        exact Option.noConfusion h
      · rintro ⟨h1, h2, ⟨n, hn, hp⟩, h4⟩
        rcases Nat.eq_or_lt_of_le h1 with h3 | h3
        · rw [← h3, hg] at hn
          exact Option.noConfusion hn
        · obtain ⟨m, hm, -⟩ := h4 t (Nat.le_refl t) h3
          rw [hg] at hm
          exact Option.noConfusion hm
    | some n =>
      by_cases hn : n ≠ TAP_EMPTY
      · simp only [if_pos hn]
        constructor
        · intro h
          have h0 : t = r := by
            have := Option.some.inj h
            omega
          subst h0
          refine ⟨Nat.le_refl t, by omega, ⟨n, hg, hn⟩, ?_⟩
          intro j h1 h2
          omega
        · rintro ⟨h1, h2, -, h4⟩
          rcases Nat.eq_or_lt_of_le h1 with h3 | h3
          · rw [h3]
          · obtain ⟨m, hm, hmp⟩ := h4 t (Nat.le_refl t) h3
            rw [hg] at hm
            have := Option.some.inj hm
            subst this
            exact absurd hn hmp
      · simp only [if_neg hn]
        rw [ih (t + 1)]
        constructor
        · rintro ⟨h1, h2, h3, h4⟩
          refine ⟨by omega, by omega, h3, ?_⟩
          intro j hj1 hj2
          rcases Nat.eq_or_lt_of_le hj1 with h5 | h5
          · rw [← h5]
            exact ⟨n, hg, hn⟩
          · exact h4 j h5 hj2
        · rintro ⟨h1, h2, ⟨m, hm, hmp⟩, h4⟩
          have hne : t ≠ r := by
            intro h0
            rw [← h0, hg] at hm
            have := Option.some.inj hm
            subst this
            exact hn hmp
          refine ⟨by omega, by omega, ⟨m, hm, hmp⟩, ?_⟩
          intro j hj1 hj2
          exact h4 j (by omega) hj2

theorem GetFirstNonEmptyTrackFrom_eq_neg_one_iff (nd : NoteData MAX_NOTE_TRACKS) (index : Int)
    (k t : Nat) :
    GetFirstNonEmptyTrackFrom nd index k t = some (-1) ↔
      ∀ i, t ≤ i → i < t + k → ∃ n, nd.GetTapNote i index = some n ∧ ¬ n ≠ TAP_EMPTY := by
  induction k generalizing t with
  | zero =>
    rw [GetFirstNonEmptyTrackFrom]
    constructor
    · intro _ i h1 h2
      omega
    · intro _
      rfl
  | succ k ih =>
    rw [GetFirstNonEmptyTrackFrom]
    cases hg : nd.GetTapNote t index with
    | none =>
      constructor
      · intro h
        exact Option.noConfusion h
      · intro h
        obtain ⟨m, hm, -⟩ := h t (Nat.le_refl t) (by omega)
        rw [hg] at hm
        exact Option.noConfusion hm
    | some n =>
      by_cases hn : n ≠ TAP_EMPTY
      · simp only [if_pos hn]
        constructor
        · intro h
          have := Option.some.inj h
          omega
        · intro h
          obtain ⟨m, hm, hmp⟩ := h t (Nat.le_refl t) (by omega)
          rw [hg] at hm
          have := Option.some.inj hm
          subst this
          exact absurd hn hmp
      · simp only [if_neg hn]
        rw [ih (t + 1)]
        constructor
        · intro h i h1 h2
          rcases Nat.eq_or_lt_of_le h1 with h3 | h3
          · rw [← h3]
            exact ⟨n, hg, hn⟩
          · exact h i h3 (by omega)
        · intro h i h1 h2
          exact h i (by omega) (by omega)

theorem GetFirstNonEmptyTrackFrom_range (nd : NoteData MAX_NOTE_TRACKS) (index : Int)
    (k t : Nat) (v : Int) (h : GetFirstNonEmptyTrackFrom nd index k t = some v) :
    v = -1 ∨ ∃ r : Nat, v = (r : Int) ∧ t ≤ r ∧ r < t + k := by
  induction k generalizing t with
  | zero =>
    rw [GetFirstNonEmptyTrackFrom] at h
    exact Or.inl (Option.some.inj h).symm
  | succ k ih =>
    rw [GetFirstNonEmptyTrackFrom] at h
    cases hg : nd.GetTapNote t index with
    | none =>
      rw [hg] at h
      exact Option.noConfusion h
    | some n =>
      rw [hg] at h
      by_cases hn : n ≠ TAP_EMPTY
      · simp only [if_pos hn] at h
        exact Or.inr ⟨t, (Option.some.inj h).symm, Nat.le_refl t, by omega⟩
      · simp only [if_neg hn] at h
        rcases ih (t + 1) h with h1 | ⟨r, h1, h2, h3⟩
        · exact Or.inl h1
        · exact Or.inr ⟨r, h1, by omega, by omega⟩

theorem GetFirstNonEmptyTrackFrom_isSome (nd : NoteData MAX_NOTE_TRACKS) (index : Int)
    (k t : Nat) (h : t + k ≤ MAX_NOTE_TRACKS) :
    ∃ v, GetFirstNonEmptyTrackFrom nd index k t = some v := by
  induction k generalizing t with
  | zero => exact ⟨-1, rfl⟩
  | succ k ih =>
    rw [GetFirstNonEmptyTrackFrom]
    obtain ⟨n, hn⟩ := nd.GetTapNote_isSome (show t < MAX_NOTE_TRACKS by omega) index
    rw [hn]
    by_cases hp : n ≠ TAP_EMPTY
    · exact ⟨(t : Int), by simp only [if_pos hp]⟩
    · simp only [if_neg hp]
      exact ih (t + 1) (by omega)

theorem GetFirstTrackWithTapFrom_eq_index_iff (nd : NoteData MAX_NOTE_TRACKS) (index : Int)
    (k t r : Nat) :
    GetFirstTrackWithTapFrom nd index k t = some (r : Int) ↔
      t ≤ r ∧ r < t + k ∧ (∃ n, nd.GetTapNote r index = some n ∧ n = TAP_TAP) ∧
        ∀ j, t ≤ j → j < r → ∃ n, nd.GetTapNote j index = some n ∧ ¬ n = TAP_TAP := by
  induction k generalizing t with
  | zero =>
    rw [GetFirstTrackWithTapFrom]
    constructor
    · intro h
      have := Option.some.inj h
      omega
    · rintro ⟨h1, h2, -⟩
      omega
  | succ k ih =>
    rw [GetFirstTrackWithTapFrom]
    cases hg : nd.GetTapNote t index with
    | none =>
      constructor
      · intro h
        exact Option.noConfusion h
      · rintro ⟨h1, h2, ⟨n, hn, hp⟩, h4⟩
        rcases Nat.eq_or_lt_of_le h1 with h3 | h3
        · rw [← h3, hg] at hn
          exact Option.noConfusion hn
        · obtain ⟨m, hm, -⟩ := h4 t (Nat.le_refl t) h3
          rw [hg] at hm
          exact Option.noConfusion hm
    | some n =>
      by_cases hn : n = TAP_TAP
      · simp only [if_pos hn]
        constructor
        · intro h
          have h0 : t = r := by
            have := Option.some.inj h
            omega
          subst h0
          refine ⟨Nat.le_refl t, by omega, ⟨n, hg, hn⟩, ?_⟩
          intro j h1 h2
          omega
        · rintro ⟨h1, h2, -, h4⟩
          rcases Nat.eq_or_lt_of_le h1 with h3 | h3
          · rw [h3]
          · obtain ⟨m, hm, hmp⟩ := h4 t (Nat.le_refl t) h3
            rw [hg] at hm
            have := Option.some.inj hm
            subst this
            exact absurd hn hmp
      · simp only [if_neg hn]
        rw [ih (t + 1)]
        constructor
        · rintro ⟨h1, h2, h3, h4⟩
          refine ⟨by omega, by omega, h3, ?_⟩
          intro j hj1 hj2
          rcases Nat.eq_or_lt_of_le hj1 with h5 | h5
          · rw [← h5]
            exact ⟨n, hg, hn⟩
          · exact h4 j h5 hj2
        · rintro ⟨h1, h2, ⟨m, hm, hmp⟩, h4⟩
          have hne : t ≠ r := by
            intro h0
            rw [← h0, hg] at hm
            have := Option.some.inj hm
            subst this
            exact hn hmp
          refine ⟨by omega, by omega, ⟨m, hm, hmp⟩, ?_⟩
          intro j hj1 hj2
          exact h4 j (by omega) hj2

theorem GetFirstTrackWithTapFrom_eq_neg_one_iff (nd : NoteData MAX_NOTE_TRACKS) (index : Int)
    (k t : Nat) :
    GetFirstTrackWithTapFrom nd index k t = some (-1) ↔
      ∀ i, t ≤ i → i < t + k → ∃ n, nd.GetTapNote i index = some n ∧ ¬ n = TAP_TAP := by
  induction k generalizing t with
  | zero =>
    rw [GetFirstTrackWithTapFrom]
    constructor
    · intro _ i h1 h2
      omega
    · intro _
      rfl
  | succ k ih =>
    rw [GetFirstTrackWithTapFrom]
    cases hg : nd.GetTapNote t index with
    | none =>
      constructor
      · intro h
        exact Option.noConfusion h
      · intro h
        obtain ⟨m, hm, -⟩ := h t (Nat.le_refl t) (by omega)
        rw [hg] at hm
        exact Option.noConfusion hm
    | some n =>
      by_cases hn : n = TAP_TAP
      · simp only [if_pos hn]
        constructor
        · intro h
          have := Option.some.inj h
          omega
        · intro h
          obtain ⟨m, hm, hmp⟩ := h t (Nat.le_refl t) (by omega)
          rw [hg] at hm
          have := Option.some.inj hm
          subst this
          exact absurd hn hmp
      · simp only [if_neg hn]
        rw [ih (t + 1)]
        constructor
        · intro h i h1 h2
          rcases Nat.eq_or_lt_of_le h1 with h3 | h3
          · rw [← h3]
            exact ⟨n, hg, hn⟩
          · exact h i h3 (by omega)
        · intro h i h1 h2
          exact h i (by omega) (by omega)

theorem GetFirstTrackWithTapFrom_range (nd : NoteData MAX_NOTE_TRACKS) (index : Int)
    (k t : Nat) (v : Int) (h : GetFirstTrackWithTapFrom nd index k t = some v) :
    v = -1 ∨ ∃ r : Nat, v = (r : Int) ∧ t ≤ r ∧ r < t + k := by
  induction k generalizing t with
  | zero =>
    rw [GetFirstTrackWithTapFrom] at h
    exact Or.inl (Option.some.inj h).symm
  | succ k ih =>
    rw [GetFirstTrackWithTapFrom] at h
    cases hg : nd.GetTapNote t index with
    | none =>
      rw [hg] at h
      exact Option.noConfusion h
    | some n =>
      rw [hg] at h
      by_cases hn : n = TAP_TAP
      · simp only [if_pos hn] at h
        exact Or.inr ⟨t, (Option.some.inj h).symm, Nat.le_refl t, by omega⟩
      · simp only [if_neg hn] at h
        rcases ih (t + 1) h with h1 | ⟨r, h1, h2, h3⟩
        · exact Or.inl h1
        · exact Or.inr ⟨r, h1, by omega, by omega⟩

theorem GetFirstTrackWithTapFrom_isSome (nd : NoteData MAX_NOTE_TRACKS) (index : Int)
    (k t : Nat) (h : t + k ≤ MAX_NOTE_TRACKS) :
    ∃ v, GetFirstTrackWithTapFrom nd index k t = some v := by
  induction k generalizing t with
  | zero => exact ⟨-1, rfl⟩
  | succ k ih =>
    rw [GetFirstTrackWithTapFrom]
    obtain ⟨n, hn⟩ := nd.GetTapNote_isSome (show t < MAX_NOTE_TRACKS by omega) index
    rw [hn]
    by_cases hp : n = TAP_TAP
    · exact ⟨(t : Int), by simp only [if_pos hp]⟩
    · simp only [if_neg hp]
      exact ih (t + 1) (by omega)

/-! ## The counting loops -/

theorem GetNumTapNonEmptyTracksFrom_eq (nd : NoteData MAX_NOTE_TRACKS) (index : Int) (k t : Nat)
    (iNum : Int) (h : t + k ≤ MAX_NOTE_TRACKS) :
    GetNumTapNonEmptyTracksFrom nd index k t iNum =
      some (iNum + ((List.range' t k).countP
        (fun i => decide (nd.GetTapNote i index ≠ some TAP_EMPTY)) : Nat)) := by
  induction k generalizing t iNum with
  | zero => simp [GetNumTapNonEmptyTracksFrom]
  | succ k ih =>
    rw [GetNumTapNonEmptyTracksFrom]
    obtain ⟨n, hn⟩ := nd.GetTapNote_isSome (show t < MAX_NOTE_TRACKS by omega) index
    rw [hn, List.range'_succ, List.countP_cons]
    by_cases hp : n ≠ TAP_EMPTY
    · have hd : decide (nd.GetTapNote t index ≠ some TAP_EMPTY) = true := by
        rw [hn]
        simpa using hp
      simp only [if_pos hp, hd, if_true]
      rw [ih (t + 1) (iNum + 1) (by omega)]
      congr 1
      push_cast
      ring
    · have hd : decide (nd.GetTapNote t index ≠ some TAP_EMPTY) = false := by
        rw [hn]
        simpa using hp
      simp only [if_neg hp, hd]
      rw [ih (t + 1) iNum (by omega)]
      simp

theorem GetNumTracksWithTapFrom_eq (nd : NoteData MAX_NOTE_TRACKS) (index : Int) (k t : Nat)
    (iNum : Int) (h : t + k ≤ MAX_NOTE_TRACKS) :
    GetNumTracksWithTapFrom nd index k t iNum =
      some (iNum + ((List.range' t k).countP
        (fun i => decide (nd.GetTapNote i index = some TAP_TAP)) : Nat)) := by
  induction k generalizing t iNum with
  | zero => simp [GetNumTracksWithTapFrom]
  | succ k ih =>
    rw [GetNumTracksWithTapFrom]
    obtain ⟨n, hn⟩ := nd.GetTapNote_isSome (show t < MAX_NOTE_TRACKS by omega) index
    rw [hn, List.range'_succ, List.countP_cons]
    by_cases hp : n = TAP_TAP
    · have hd : decide (nd.GetTapNote t index = some TAP_TAP) = true := by
        rw [hn]
        simpa using hp
      simp only [if_pos hp, hd, if_true]
      rw [ih (t + 1) (iNum + 1) (by omega)]
      congr 1
      push_cast
      ring
    · have hd : decide (nd.GetTapNote t index = some TAP_TAP) = false := by
        rw [hn]
        simpa using hp
      simp only [if_neg hp, hd]
      rw [ih (t + 1) iNum (by omega)]
      simp

theorem IsRowEmptyFrom_isSome (nd : NoteData MAX_NOTE_TRACKS) (index : Int) (k t : Nat)
    (h : t + k ≤ MAX_NOTE_TRACKS) : ∃ b, IsRowEmptyFrom nd index k t = some b := by
  induction k generalizing t with
  | zero => exact ⟨true, rfl⟩
  | succ k ih =>
    rw [IsRowEmptyFrom]
    obtain ⟨n, hn⟩ := nd.GetTapNote_isSome (show t < MAX_NOTE_TRACKS by omega) index
    rw [hn]
    by_cases hp : n ≠ TAP_EMPTY
    · exact ⟨false, by simp only [if_pos hp]⟩
    · simp only [if_neg hp]
      exact ih (t + 1) (by omega)

theorem IsRowEmpty_eq_true_iff (nd : NoteData MAX_NOTE_TRACKS) (row : Int) :
    nd.IsRowEmpty row = some true ↔
      ∀ t : Nat, (t : Int) < nd.GetNumTracks → nd.GetTapNote t row = some TAP_EMPTY := by
  unfold IsRowEmpty GetNumTracks
  rw [IsRowEmptyFrom_eq_true_iff]
  constructor
  · intro h t ht
    exact h t (Nat.zero_le t) (by omega)
  · intro h i _ hi
    exact h i (by omega)

/-! ## The calls of the row queries -/

theorem IsRowEmptyCallsFrom_bounds (nd : NoteData MAX_NOTE_TRACKS) (index : Int) (k t i : Nat)
    (hi : i ∈ IsRowEmptyCallsFrom nd index k t) : t ≤ i ∧ i < t + k := by
  induction k generalizing t with
  | zero => simp [IsRowEmptyCallsFrom] at hi
  | succ k ih =>
    rw [IsRowEmptyCallsFrom] at hi
    cases hg : nd.GetTapNote t index with
    | none =>
      rw [hg] at hi
      simp only [List.mem_singleton] at hi
      omega
    | some n =>
      rw [hg] at hi
      simp only [List.mem_cons] at hi
      rcases hi with hi | hi
      · omega
      · by_cases hp : n ≠ TAP_EMPTY
        · simp only [if_pos hp, List.not_mem_nil] at hi
        · simp only [if_neg hp] at hi
          have := ih (t + 1) hi
          omega

theorem GetNumTapNonEmptyTracksCallsFrom_bounds (nd : NoteData MAX_NOTE_TRACKS) (index : Int) (k t i : Nat)
    (hi : i ∈ GetNumTapNonEmptyTracksCallsFrom nd index k t) : t ≤ i ∧ i < t + k := by
  induction k generalizing t with
  | zero => simp [GetNumTapNonEmptyTracksCallsFrom] at hi
  | succ k ih =>
    rw [GetNumTapNonEmptyTracksCallsFrom] at hi
    cases hg : nd.GetTapNote t index with
    | none =>
      rw [hg] at hi
      simp only [List.mem_singleton] at hi
      omega
    | some n =>
      rw [hg] at hi
      simp only [List.mem_cons] at hi
      rcases hi with hi | hi
      · omega
      · have := ih (t + 1) hi
        omega

theorem GetFirstNonEmptyTrackCallsFrom_bounds (nd : NoteData MAX_NOTE_TRACKS) (index : Int) (k t i : Nat)
    (hi : i ∈ GetFirstNonEmptyTrackCallsFrom nd index k t) : t ≤ i ∧ i < t + k := by
  induction k generalizing t with
  | zero => simp [GetFirstNonEmptyTrackCallsFrom] at hi
  | succ k ih =>
    rw [GetFirstNonEmptyTrackCallsFrom] at hi
    cases hg : nd.GetTapNote t index with
    | none =>
      rw [hg] at hi
      simp only [List.mem_singleton] at hi
      omega
    | some n =>
      rw [hg] at hi
      simp only [List.mem_cons] at hi
      rcases hi with hi | hi
      · omega
      · by_cases hp : n ≠ TAP_EMPTY
        · simp only [if_pos hp, List.not_mem_nil] at hi
        · simp only [if_neg hp] at hi
          have := ih (t + 1) hi
          omega

theorem GetNumTracksWithTapCallsFrom_bounds (nd : NoteData MAX_NOTE_TRACKS) (index : Int) (k t i : Nat)
    (hi : i ∈ GetNumTracksWithTapCallsFrom nd index k t) : t ≤ i ∧ i < t + k := by
  induction k generalizing t with
  | zero => simp [GetNumTracksWithTapCallsFrom] at hi
  | succ k ih =>
    rw [GetNumTracksWithTapCallsFrom] at hi
    cases hg : nd.GetTapNote t index with
    | none =>
      rw [hg] at hi
      simp only [List.mem_singleton] at hi
      omega
    | some n =>
      rw [hg] at hi
      simp only [List.mem_cons] at hi
      rcases hi with hi | hi
      · omega
      · have := ih (t + 1) hi
        omega

theorem GetFirstTrackWithTapCallsFrom_bounds (nd : NoteData MAX_NOTE_TRACKS) (index : Int) (k t i : Nat)
    (hi : i ∈ GetFirstTrackWithTapCallsFrom nd index k t) : t ≤ i ∧ i < t + k := by
  induction k generalizing t with
  | zero => simp [GetFirstTrackWithTapCallsFrom] at hi
  | succ k ih =>
    rw [GetFirstTrackWithTapCallsFrom] at hi
    cases hg : nd.GetTapNote t index with
    | none =>
      rw [hg] at hi
      simp only [List.mem_singleton] at hi
      omega
    | some n =>
      rw [hg] at hi
      simp only [List.mem_cons] at hi
      rcases hi with hi | hi
      · omega
      · by_cases hp : n = TAP_TAP
        · simp only [if_pos hp, List.not_mem_nil] at hi
        · simp only [if_neg hp] at hi
          have := ih (t + 1) hi
          omega

/-! ## The hold intervals -/

theorem set_getElem_same {α : Type} (l : List α) (i : Nat) (h : i < l.length) :
    l.set i l[i] = l := by
  apply List.ext_getElem (List.length_set l i l[i])
  intro n h1 h2
  rw [List.getElem_set]
  by_cases hin : i = n
  · subst hin
    rw [if_pos rfl]
  · rw [if_neg hin]

theorem Overlaps_symm {a b : HoldNote} (h : Overlaps a b) : Overlaps b a :=
  ⟨h.1.symm, h.2.2, h.2.1⟩

theorem GetHoldNoteRef_eq_some (nd : NoteData MAX_NOTE_TRACKS) (index : Int)
    (ref : HoldNote × (HoldNote → NoteData MAX_NOTE_TRACKS))
    (href : nd.GetHoldNoteRef index = some ref) :
    ∃ h : index.toNat < nd.m_HoldNotes.length, 0 ≤ index ∧
      ref.1 = nd.m_HoldNotes.get ⟨index.toNat, h⟩ ∧
      ref.2 = fun hn => { nd with m_HoldNotes := nd.m_HoldNotes.set index.toNat hn } := by
  unfold GetHoldNoteRef at href
  by_cases h0 : 0 ≤ index
  · rw [if_pos h0] at href
    by_cases hlt : index.toNat < nd.m_HoldNotes.length
    · rw [List.getElem?_eq_getElem hlt] at href
      have := Option.some.inj href
      subst this
      exact ⟨hlt, h0, rfl, rfl⟩
    · rw [List.getElem?_eq_none (Nat.le_of_not_lt hlt)] at href
      exact Option.noConfusion href
  · rw [if_neg h0] at href
    exact Option.noConfusion href

theorem NoOverlap_set_iff (nd : NoteData MAX_NOTE_TRACKS) (k : Nat)
    (hk : k < nd.m_HoldNotes.length) (hn : HoldNote) (hinv : nd.NoOverlap) :
    NoOverlap { nd with m_HoldNotes := nd.m_HoldNotes.set k hn } ↔
      ∀ (j : Nat) (hj : j < nd.m_HoldNotes.length), j ≠ k →
        ¬ Overlaps hn (nd.m_HoldNotes.get ⟨j, hj⟩) := by
  unfold NoOverlap at hinv ⊢
  simp only [List.get_eq_getElem, List.length_set, List.getElem_set] at hinv ⊢
  constructor
  · intro h j hj hjk
    have := h k hk j hj (Ne.symm hjk)
    rw [if_pos rfl, if_neg (Ne.symm hjk)] at this
    exact this
  · intro h i hi j hj hij
    by_cases hik : k = i
    · have hjk : j ≠ k := fun e => hij (hik.symm.trans e.symm)
      rw [if_pos hik, if_neg (Ne.symm hjk)]
      exact h j hj hjk
    · by_cases hjk : k = j
      · rw [if_neg hik, if_pos hjk]
        intro ho
        exact h i hi (Ne.symm hik) (Overlaps_symm ho)
      · rw [if_neg hik, if_neg hjk]
        exact hinv i hi j hj hij

/-! ## The claims -/

/-- C1: for every store, every track index below `MAX_NOTE_TRACKS` and every row that is
negative or at least the stored length of that track, `GetTapNote(track, row)` returns
`TAP_EMPTY`, and it does return (the read is defined). -/
theorem C1_GetTapNote_out_of_range (nd : NoteData MAX_NOTE_TRACKS) (track : Nat)
    (ht : track < MAX_NOTE_TRACKS) (row : Int)
    (hrow : row < 0 ∨ row ≥ ((nd.m_TapNotes ⟨track, ht⟩).length : Int)) :
    nd.GetTapNote track row = some TAP_EMPTY := by
  unfold GetTapNote
  rw [dif_pos ht]
  apply if_pos
  rcases hrow with h | h
  · exact Or.inl h
  · exact Or.inr (le_trans (castInt_le _) h)

/-- Witness of C1: rows -1 and 1000000 of track 3 of an empty store. -/
theorem C1_GetTapNote_out_of_range_witness :
    (emptyStore 4 : NoteData 16).GetTapNote 3 (-1) = some TAP_EMPTY ∧
      (emptyStore 4 : NoteData 16).GetTapNote 3 1000000 = some TAP_EMPTY :=
  ⟨C1_GetTapNote_out_of_range (emptyStore 4) 3 (by decide) (-1) (Or.inl (by decide)),
    C1_GetTapNote_out_of_range (emptyStore 4) 3 (by decide) 1000000 (Or.inr (by decide))⟩

/-- C2: `IsRowEmpty(row)` returns true if and only if `GetTapNote(t, row)` is `TAP_EMPTY`
for every track `t` with `0 <= t < GetNumTracks()`; a row with a hold-begin or hold-end
marker on a declared track makes it return false; a store with zero tracks has every row
empty; and with a track count within `MAX_NOTE_TRACKS` the call returns a value. -/
theorem C2_IsRowEmpty_iff_all_empty (nd : NoteData MAX_NOTE_TRACKS) (row : Int) :
    (nd.IsRowEmpty row = some true ↔
        ∀ t : Nat, (t : Int) < nd.GetNumTracks → nd.GetTapNote t row = some TAP_EMPTY) ∧
      (∀ t : Nat, (t : Int) < nd.GetNumTracks →
        (nd.GetTapNote t row = some TAP_HOLD_HEAD ∨ nd.GetTapNote t row = some TAP_HOLD_TAIL) →
          nd.IsRowEmpty row = some false) ∧
      (nd.GetNumTracks = 0 → nd.IsRowEmpty row = some true) ∧
      (nd.GetNumTracks ≤ (MAX_NOTE_TRACKS : Int) → ∃ b, nd.IsRowEmpty row = some b) := by
  refine ⟨IsRowEmpty_eq_true_iff nd row, ?_, ?_, ?_⟩ <;> unfold IsRowEmpty GetNumTracks
  · intro t ht hm
    rcases hm with hm | hm
    · exact IsRowEmptyFrom_eq_false_of nd row _ 0 t _ (Nat.zero_le t) (by omega) hm (by decide)
    · exact IsRowEmptyFrom_eq_false_of nd row _ 0 t _ (Nat.zero_le t) (by omega) hm (by decide)
  · intro h
    rw [h]
    rfl
  · intro h
    exact IsRowEmptyFrom_isSome nd row _ 0 (by omega)

/-- Witness of C2: row 2 of the sample store holds only a hold-end marker and is not
empty; row 1 is empty, so both declared tracks read `TAP_EMPTY` there. -/
theorem C2_IsRowEmpty_iff_all_empty_witness :
    sampleStore.IsRowEmpty 2 = some false ∧
      ∀ t : Nat, (t : Int) < sampleStore.GetNumTracks →
        sampleStore.GetTapNote t 1 = some TAP_EMPTY :=
  ⟨(C2_IsRowEmpty_iff_all_empty sampleStore 2).2.1 1 (by decide) (Or.inr (by decide)),
    (C2_IsRowEmpty_iff_all_empty sampleStore 1).1.mp (by decide)⟩

/-- C3: `GetFirstNonEmptyTrack(row)` returns a track index `r` exactly when `r` is the
least track in `[0, numTracks)` whose event at that row is not `TAP_EMPTY` (track `r` is
non-empty and every track below it is empty); it returns -1 exactly when every track in
`[0, numTracks)` is empty at that row; it returns nothing else; and with a track count
within `MAX_NOTE_TRACKS` it returns a value. -/
theorem C3_GetFirstNonEmptyTrack_least (nd : NoteData MAX_NOTE_TRACKS) (row : Int) :
    (∀ r : Nat, nd.GetFirstNonEmptyTrack row = some (r : Int) ↔
        ((r : Int) < nd.GetNumTracks ∧
          (∃ n, nd.GetTapNote r row = some n ∧ n ≠ TAP_EMPTY) ∧
          ∀ j : Nat, j < r → nd.GetTapNote j row = some TAP_EMPTY)) ∧
      (nd.GetFirstNonEmptyTrack row = some (-1) ↔
        ∀ t : Nat, (t : Int) < nd.GetNumTracks → nd.GetTapNote t row = some TAP_EMPTY) ∧
      (∀ v : Int, nd.GetFirstNonEmptyTrack row = some v →
        v = -1 ∨ (0 ≤ v ∧ v < nd.GetNumTracks)) ∧
      (nd.GetNumTracks ≤ (MAX_NOTE_TRACKS : Int) →
        ∃ v, nd.GetFirstNonEmptyTrack row = some v) := by
  unfold GetFirstNonEmptyTrack GetNumTracks
  refine ⟨?_, ?_, ?_, ?_⟩
  · intro r
    rw [GetFirstNonEmptyTrackFrom_eq_index_iff]
    constructor
    · rintro ⟨-, h2, h3, h4⟩
      refine ⟨by omega, h3, ?_⟩
      intro j hj
      obtain ⟨n, hn, hne⟩ := h4 j (Nat.zero_le j) hj
      rw [hn, not_not.mp hne]
    · rintro ⟨h2, h3, h4⟩
      refine ⟨Nat.zero_le r, by omega, h3, ?_⟩
      intro j _ hj
      exact ⟨TAP_EMPTY, h4 j hj, by simp⟩
  · rw [GetFirstNonEmptyTrackFrom_eq_neg_one_iff]
    constructor
    · intro h t ht
      obtain ⟨n, hn, hne⟩ := h t (Nat.zero_le t) (by omega)
      rw [hn, not_not.mp hne]
    · intro h i _ hi
      exact ⟨TAP_EMPTY, h i (by omega), by simp⟩
  · intro v hv
    rcases GetFirstNonEmptyTrackFrom_range nd row _ 0 v hv with h | ⟨r, h1, -, h3⟩
    · exact Or.inl h
    · exact Or.inr (by omega)
  · intro h
    exact GetFirstNonEmptyTrackFrom_isSome nd row _ 0 (by omega)

/-- Witness of C3: at row 2 of the sample store the query returns track 1, which is
non-empty there while track 0 is empty; at row 1 it returns -1 and both declared tracks
are empty. -/
theorem C3_GetFirstNonEmptyTrack_least_witness :
    (((1 : Nat) : Int) < sampleStore.GetNumTracks ∧
        (∃ n, sampleStore.GetTapNote 1 2 = some n ∧ n ≠ TAP_EMPTY) ∧
        ∀ j : Nat, j < 1 → sampleStore.GetTapNote j 2 = some TAP_EMPTY) ∧
      ∀ t : Nat, (t : Int) < sampleStore.GetNumTracks →
        sampleStore.GetTapNote t 1 = some TAP_EMPTY :=
  ⟨((C3_GetFirstNonEmptyTrack_least sampleStore 2).1 1).mp (by decide),
    (C3_GetFirstNonEmptyTrack_least sampleStore 1).2.1.mp (by decide)⟩

/-- C4: `GetFirstTrackWithTap(row)` returns a track index `r` exactly when `r` is the
least track in `[0, numTracks)` whose event at that row is `TAP_TAP`; it returns -1
exactly when no track in `[0, numTracks)` holds `TAP_TAP` there; a row whose declared
tracks hold only hold-begin and hold-end markers (or nothing) yields -1; it returns
nothing else; and with a track count within `MAX_NOTE_TRACKS` it returns a value. -/
theorem C4_GetFirstTrackWithTap_least (nd : NoteData MAX_NOTE_TRACKS) (row : Int) :
    (∀ r : Nat, nd.GetFirstTrackWithTap row = some (r : Int) ↔
        ((r : Int) < nd.GetNumTracks ∧ nd.GetTapNote r row = some TAP_TAP ∧
          ∀ j : Nat, j < r → ∃ n, nd.GetTapNote j row = some n ∧ n ≠ TAP_TAP)) ∧
      (nd.GetFirstTrackWithTap row = some (-1) ↔
        ∀ t : Nat, (t : Int) < nd.GetNumTracks →
          ∃ n, nd.GetTapNote t row = some n ∧ n ≠ TAP_TAP) ∧
      ((∀ t : Nat, (t : Int) < nd.GetNumTracks →
          nd.GetTapNote t row = some TAP_HOLD_HEAD ∨ nd.GetTapNote t row = some TAP_HOLD_TAIL ∨
            nd.GetTapNote t row = some TAP_EMPTY) →
        nd.GetFirstTrackWithTap row = some (-1)) ∧
      (∀ v : Int, nd.GetFirstTrackWithTap row = some v →
        v = -1 ∨ (0 ≤ v ∧ v < nd.GetNumTracks)) ∧
      (nd.GetNumTracks ≤ (MAX_NOTE_TRACKS : Int) →
        ∃ v, nd.GetFirstTrackWithTap row = some v) := by
  unfold GetFirstTrackWithTap GetNumTracks
  have hneg : GetFirstTrackWithTapFrom nd row nd.m_iNumTracks.toNat 0 = some (-1) ↔
      ∀ t : Nat, (t : Int) < nd.m_iNumTracks →
        ∃ n, nd.GetTapNote t row = some n ∧ n ≠ TAP_TAP := by
    rw [GetFirstTrackWithTapFrom_eq_neg_one_iff]
    constructor
    · intro h t ht
      exact h t (Nat.zero_le t) (by omega)
    · intro h i _ hi
      exact h i (by omega)
  refine ⟨?_, hneg, ?_, ?_, ?_⟩
  · intro r
    rw [GetFirstTrackWithTapFrom_eq_index_iff]
    constructor
    · rintro ⟨-, h2, ⟨n, hn, hp⟩, h4⟩
      refine ⟨by omega, by rw [hn, hp], ?_⟩
      intro j hj
      exact h4 j (Nat.zero_le j) hj
    · rintro ⟨h2, h3, h4⟩
      refine ⟨Nat.zero_le r, by omega, ⟨TAP_TAP, h3, rfl⟩, ?_⟩
      intro j _ hj
      exact h4 j hj
  · intro h
    rw [hneg]
    intro t ht
    rcases h t ht with h1 | h1 | h1
    · exact ⟨_, h1, by decide⟩
    · exact ⟨_, h1, by decide⟩
    · exact ⟨_, h1, by decide⟩
  · intro v hv
    rcases GetFirstTrackWithTapFrom_range nd row _ 0 v hv with h | ⟨r, h1, -, h3⟩
    · exact Or.inl h
    · exact Or.inr (by omega)
  · intro h
    exact GetFirstTrackWithTapFrom_isSome nd row _ 0 (by omega)

/-- Witness of C4: at row 0 of the sample store the query returns track 0, the plain tap;
at row 2, where only a hold-end marker is stored, it returns -1. -/
theorem C4_GetFirstTrackWithTap_least_witness :
    ((((0 : Nat) : Int) < sampleStore.GetNumTracks ∧
        sampleStore.GetTapNote 0 0 = some TAP_TAP ∧
        ∀ j : Nat, j < 0 → ∃ n, sampleStore.GetTapNote j 0 = some n ∧ n ≠ TAP_TAP)) ∧
      ∀ t : Nat, (t : Int) < sampleStore.GetNumTracks →
        ∃ n, sampleStore.GetTapNote t 2 = some n ∧ n ≠ TAP_TAP :=
  ⟨((C4_GetFirstTrackWithTap_least sampleStore 0).1 0).mp (by decide),
    (C4_GetFirstTrackWithTap_least sampleStore 2).2.1.mp (by decide)⟩

/-- C5: in a store whose per-track sequences all have the same length and whose track
count is within `MAX_NOTE_TRACKS`, for every row at or above `GetMaxRow()` and every
negative row, every track below `numTracks` reads `TAP_EMPTY` and `IsRowEmpty(row)` is
true. -/
theorem C5_rows_from_GetMaxRow_empty (nd : NoteData MAX_NOTE_TRACKS)
    (hrect : ∀ i j, (nd.m_TapNotes i).length = (nd.m_TapNotes j).length)
    (hnum : nd.GetNumTracks ≤ (MAX_NOTE_TRACKS : Int))
    (maxRow : Int) (hmax : nd.GetMaxRow = some maxRow)
    (row : Int) (hrow : row ≥ maxRow ∨ row < 0) :
    (∀ t : Nat, (t : Int) < nd.GetNumTracks → nd.GetTapNote t row = some TAP_EMPTY) ∧
      nd.IsRowEmpty row = some true := by
  have hall : ∀ t : Nat, (t : Int) < nd.GetNumTracks →
      nd.GetTapNote t row = some TAP_EMPTY := by
    intro t ht
    have htm : t < MAX_NOTE_TRACKS := by omega
    unfold GetMaxRow at hmax
    have h0 : 0 < MAX_NOTE_TRACKS := by omega
    rw [dif_pos h0] at hmax
    have hm := Option.some.inj hmax
    unfold GetTapNote
    rw [dif_pos htm]
    apply if_pos
    rcases hrow with h | h
    · right
      rw [hrect ⟨t, htm⟩ ⟨0, h0⟩, hm]
      exact h
    · exact Or.inl h
  exact ⟨hall, (IsRowEmpty_eq_true_iff nd row).mpr hall⟩

/-- Witness of C5: the three-row sample store at row 3, its `GetMaxRow()`. -/
theorem C5_rows_from_GetMaxRow_empty_witness :
    sampleStore.GetMaxRow = some 3 ∧
      (∀ t : Nat, (t : Int) < sampleStore.GetNumTracks →
        sampleStore.GetTapNote t 3 = some TAP_EMPTY) ∧
      sampleStore.IsRowEmpty 3 = some true :=
  ⟨by decide,
    C5_rows_from_GetMaxRow_empty sampleStore (by decide) (by decide) 3 (by decide) 3
      (Or.inl (by decide))⟩

/-- C6, as amended: on a store without overlapping hold intervals, `GetHoldNote(index)`
with an index inside the collection hands out the stored interval; reading through it
(writing back the value read) leaves the store as it is; and an assignment through the
mutable reference leaves a store without overlapping intervals if and only if the
interval written overlaps no stored interval at another position.  The store itself does
not check the write. -/
theorem C6_GetHoldNote_write_keeps_NoOverlap_iff (nd : NoteData MAX_NOTE_TRACKS)
    (index : Int) (ref : HoldNote × (HoldNote → NoteData MAX_NOTE_TRACKS)) (hn : HoldNote)
    (hinv : nd.NoOverlap) (href : nd.GetHoldNoteRef index = some ref) :
    nd.GetHoldNote index = some ref.1 ∧ ref.2 ref.1 = nd ∧
      ((ref.2 hn).NoOverlap ↔
        ∀ (j : Nat) (hj : j < nd.m_HoldNotes.length), j ≠ index.toNat →
          ¬ Overlaps hn (nd.m_HoldNotes.get ⟨j, hj⟩)) := by
  obtain ⟨hlt, h0, h1, h2⟩ := GetHoldNoteRef_eq_some nd index ref href
  refine ⟨?_, ?_, ?_⟩
  · unfold GetHoldNote
    rw [if_pos h0, List.getElem?_eq_getElem hlt, h1]
    rfl
  · rw [h2, h1]
    show { nd with m_HoldNotes := nd.m_HoldNotes.set index.toNat nd.m_HoldNotes[index.toNat] } = nd
    rw [set_getElem_same]
  · rw [h2]
    exact NoOverlap_set_iff nd index.toNat hlt hn hinv

/-- Witness of C6 as amended: in `twoHoldStore`, moving the end of the first interval from
row 4 to row 6 through the reference keeps the intervals apart. -/
theorem C6_GetHoldNote_write_keeps_NoOverlap_iff_witness :
    twoHoldStore.NoOverlap ∧
      (NoOverlap { twoHoldStore with
          m_HoldNotes := twoHoldStore.m_HoldNotes.set 0 ⟨0, 0, 6⟩ } ↔
        ∀ (j : Nat) (hj : j < twoHoldStore.m_HoldNotes.length), j ≠ 0 →
          ¬ Overlaps ⟨0, 0, 6⟩ (twoHoldStore.m_HoldNotes.get ⟨j, hj⟩)) :=
  ⟨by decide,
    (C6_GetHoldNote_write_keeps_NoOverlap_iff twoHoldStore 0
      (⟨0, 0, 4⟩, fun hn =>
        { twoHoldStore with m_HoldNotes := twoHoldStore.m_HoldNotes.set 0 hn })
      ⟨0, 0, 6⟩ (by decide) rfl).2.2⟩

/-- C6, counterexample: `twoHoldStore` has no overlapping intervals (rows 0 to 4 and rows
8 to 12 of track 0); `GetHoldNote(0)` hands out a reference to the first, and moving its
end row to 10 through that reference leaves two intervals of track 0 that overlap. -/
theorem C6_GetHoldNote_write_breaks_NoOverlap_counterexample :
    twoHoldStore.NoOverlap ∧
      ∃ ref, twoHoldStore.GetHoldNoteRef 0 = some ref ∧
        ref.1 = ⟨0, 0, 4⟩ ∧ ¬ (ref.2 { ref.1 with m_iEndIndex := 10 }).NoOverlap :=
  ⟨by decide, _, rfl, rfl, by decide⟩

/-- C7: with a track count within `MAX_NOTE_TRACKS`, `GetNumTapNonEmptyTracks(row)` is
the number of tracks `t` in `[0, numTracks)` whose event at that row is not `TAP_EMPTY`;
a track holding a plain tap, a hold-begin or a hold-end marker at that row is among the
tracks counted. -/
theorem C7_GetNumTapNonEmptyTracks_count (nd : NoteData MAX_NOTE_TRACKS) (row : Int)
    (hnum : nd.GetNumTracks ≤ (MAX_NOTE_TRACKS : Int)) :
    nd.GetNumTapNonEmptyTracks row =
        some (((List.range nd.GetNumTracks.toNat).countP
          (fun t => decide (nd.GetTapNote t row ≠ some TAP_EMPTY)) : Nat) : Int) ∧
      ∀ t : Nat, nd.GetTapNote t row = some TAP_TAP ∨
          nd.GetTapNote t row = some TAP_HOLD_HEAD ∨ nd.GetTapNote t row = some TAP_HOLD_TAIL →
        decide (nd.GetTapNote t row ≠ some TAP_EMPTY) = true := by
  refine ⟨?_, ?_⟩
  · unfold GetNumTapNonEmptyTracks
    unfold GetNumTracks at hnum ⊢
    rw [GetNumTapNonEmptyTracksFrom_eq nd row _ 0 0 (by omega), List.range_eq_range', zero_add]
  · intro t h
    rcases h with h | h | h <;> rw [h] <;> decide

/-- Witness of C7: row 0 of the sample store holds a tap and a hold head, so two tracks
count. -/
theorem C7_GetNumTapNonEmptyTracks_count_witness :
    sampleStore.GetNumTapNonEmptyTracks 0 = some 2 :=
  ((C7_GetNumTapNonEmptyTracks_count sampleStore 0 (by decide)).1).trans (by decide)

/-- C8: with a track count within `MAX_NOTE_TRACKS`, `GetNumTracksWithTap(row)` is the
number of tracks `t` in `[0, numTracks)` whose event at that row is exactly `TAP_TAP`;
a track holding a hold-begin or hold-end marker (or nothing) at that row is not among the
tracks counted. -/
theorem C8_GetNumTracksWithTap_count (nd : NoteData MAX_NOTE_TRACKS) (row : Int)
    (hnum : nd.GetNumTracks ≤ (MAX_NOTE_TRACKS : Int)) :
    nd.GetNumTracksWithTap row =
        some (((List.range nd.GetNumTracks.toNat).countP
          (fun t => decide (nd.GetTapNote t row = some TAP_TAP)) : Nat) : Int) ∧
      ∀ t : Nat, nd.GetTapNote t row = some TAP_HOLD_HEAD ∨
          nd.GetTapNote t row = some TAP_HOLD_TAIL ∨ nd.GetTapNote t row = some TAP_EMPTY →
        decide (nd.GetTapNote t row = some TAP_TAP) = false := by
  refine ⟨?_, ?_⟩
  · unfold GetNumTracksWithTap
    unfold GetNumTracks at hnum ⊢
    rw [GetNumTracksWithTapFrom_eq nd row _ 0 0 (by omega), List.range_eq_range', zero_add]
  · intro t h
    rcases h with h | h | h <;> rw [h] <;> decide

/-- Witness of C8: row 0 of the sample store holds one tap and one hold head, so one
track counts. -/
theorem C8_GetNumTracksWithTap_count_witness :
    sampleStore.GetNumTracksWithTap 0 = some 1 :=
  ((C8_GetNumTracksWithTap_count sampleStore 0 (by decide)).1).trans (by decide)

/-- C9, as amended: for every track index below `MAX_NOTE_TRACKS` whose stored length is
representable as a 32-bit `int` (below 2^31) and every row with `0 <= row <` stored
length, `GetTapNote(track, row)` returns exactly the event stored at that position of
that track. -/
theorem C9_GetTapNote_in_range (nd : NoteData MAX_NOTE_TRACKS) (track : Nat)
    (ht : track < MAX_NOTE_TRACKS) (row : Int)
    (hlen : (nd.m_TapNotes ⟨track, ht⟩).length < 2 ^ 31)
    (h0 : 0 ≤ row) (h1 : row < ((nd.m_TapNotes ⟨track, ht⟩).length : Int)) :
    ∃ h : row.toNat < (nd.m_TapNotes ⟨track, ht⟩).length,
      nd.GetTapNote track row = some ((nd.m_TapNotes ⟨track, ht⟩).get ⟨row.toNat, h⟩) := by
  have hlt : row.toNat < (nd.m_TapNotes ⟨track, ht⟩).length := by omega
  refine ⟨hlt, ?_⟩
  unfold GetTapNote
  rw [dif_pos ht, if_neg, List.getElem?_eq_getElem hlt]
  · rfl
  · rw [castInt_of_lt hlen]
    omega

/-- Witness of C9 as amended: row 2 of track 1 of the sample store is the stored hold
tail. -/
theorem C9_GetTapNote_in_range_witness :
    sampleStore.GetTapNote 1 2 = some TAP_HOLD_TAIL := by
  obtain ⟨_, h⟩ := C9_GetTapNote_in_range sampleStore 1 (by decide) 2 (by decide) (by decide)
    (by decide)
  exact h

/-- C9, counterexample: track 0 of `longTrackStore` stores 2^31 events, row 0 is in range
and stores `TAP_TAP`, yet `GetTapNote(0, 0)` returns `TAP_EMPTY`: the cast of the size to
`int` is negative, so the range test fails for every row. -/
theorem C9_GetTapNote_long_track_counterexample :
    (0 : Int) ≤ 0 ∧ (0 : Int) < ((longTrackStore.m_TapNotes 0).length : Int) ∧
      (longTrackStore.m_TapNotes 0)[0]? = some TAP_TAP ∧
      longTrackStore.GetTapNote 0 0 = some TAP_EMPTY := by
  have hlen : (longTrackStore.m_TapNotes 0).length = 2 ^ 31 :=
    List.length_replicate _ _
  have hcast : castInt (2 ^ 31) = -(2 ^ 31) := by
    unfold castInt
    norm_num
  refine ⟨le_refl 0, ?_, ?_, ?_⟩
  · rw [hlen]
    norm_num
  · show (List.replicate (2 ^ 31) TAP_TAP)[0]? = some TAP_TAP
    rw [List.getElem?_replicate, if_pos (by norm_num)]
  · unfold GetTapNote
    rw [dif_pos Nat.zero_lt_one]
    apply if_pos
    right
    show (0 : Int) ≥ castInt (longTrackStore.m_TapNotes 0).length
    rw [hlen, hcast]
    norm_num

/-- C10: with a track count within `MAX_NOTE_TRACKS` (negative counts included: the loops
then do not run), for every integer row each of the five row queries only calls
`GetTapNote` with a track index below `numTracks`; for such a track the array access is
within `MAX_NOTE_TRACKS`, the vector access happens only behind the range test and then
at an index within the stored length, and `GetTapNote` returns a value; and each of the
five queries returns a value: the out-of-bounds branch is never reached. -/
theorem C10_row_queries_stay_in_bounds (nd : NoteData MAX_NOTE_TRACKS)
    (hnum : nd.GetNumTracks ≤ (MAX_NOTE_TRACKS : Int)) (row : Int) :
    ((∀ t ∈ nd.IsRowEmptyCalls row, (t : Int) < nd.GetNumTracks) ∧
      (∀ t ∈ nd.GetNumTapNonEmptyTracksCalls row, (t : Int) < nd.GetNumTracks) ∧
      (∀ t ∈ nd.GetFirstNonEmptyTrackCalls row, (t : Int) < nd.GetNumTracks) ∧
      (∀ t ∈ nd.GetNumTracksWithTapCalls row, (t : Int) < nd.GetNumTracks) ∧
      (∀ t ∈ nd.GetFirstTrackWithTapCalls row, (t : Int) < nd.GetNumTracks)) ∧
    (∀ t : Nat, (t : Int) < nd.GetNumTracks →
      ∃ h : t < MAX_NOTE_TRACKS,
        ((row < 0 ∨ row ≥ castInt (nd.m_TapNotes ⟨t, h⟩).length) ∨
          row.toNat < (nd.m_TapNotes ⟨t, h⟩).length) ∧
        ∃ n, nd.GetTapNote t row = some n) ∧
    ((∃ b, nd.IsRowEmpty row = some b) ∧
      (∃ v, nd.GetNumTapNonEmptyTracks row = some v) ∧
      (∃ v, nd.GetFirstNonEmptyTrack row = some v) ∧
      (∃ v, nd.GetNumTracksWithTap row = some v) ∧
      (∃ v, nd.GetFirstTrackWithTap row = some v)) := by
  unfold GetNumTracks at hnum ⊢
  refine ⟨⟨?_, ?_, ?_, ?_, ?_⟩, ?_, ⟨?_, ?_, ?_, ?_, ?_⟩⟩
  · intro t ht
    have := IsRowEmptyCallsFrom_bounds nd row _ 0 t ht
    omega
  · intro t ht
    have := GetNumTapNonEmptyTracksCallsFrom_bounds nd row _ 0 t ht
    omega
  · intro t ht
    have := GetFirstNonEmptyTrackCallsFrom_bounds nd row _ 0 t ht
    omega
  · intro t ht
    have := GetNumTracksWithTapCallsFrom_bounds nd row _ 0 t ht
    omega
  · intro t ht
    have := GetFirstTrackWithTapCallsFrom_bounds nd row _ 0 t ht
    omega
  · intro t ht
    have htm : t < MAX_NOTE_TRACKS := by omega
    refine ⟨htm, ?_, nd.GetTapNote_isSome htm row⟩
    by_cases hg : row < 0 ∨ row ≥ castInt (nd.m_TapNotes ⟨t, htm⟩).length
    · exact Or.inl hg
    · right
      have := castInt_le (nd.m_TapNotes ⟨t, htm⟩).length
      omega
  · exact IsRowEmptyFrom_isSome nd row _ 0 (by omega)
  · exact ⟨_, GetNumTapNonEmptyTracksFrom_eq nd row _ 0 0 (by omega)⟩
  · exact GetFirstNonEmptyTrackFrom_isSome nd row _ 0 (by omega)
  · exact ⟨_, GetNumTracksWithTapFrom_eq nd row _ 0 0 (by omega)⟩
  · exact GetFirstTrackWithTapFrom_isSome nd row _ 0 (by omega)

/-- Witness of C10: the sample store (two declared tracks of four) at row 0; the counting
query calls `GetTapNote` for tracks 0 and 1 only. -/
theorem C10_row_queries_stay_in_bounds_witness :
    sampleStore.GetNumTracks ≤ 4 ∧ sampleStore.GetNumTracksWithTapCalls 0 = [0, 1] ∧
      (∀ t ∈ sampleStore.GetNumTracksWithTapCalls 0, (t : Int) < sampleStore.GetNumTracks) ∧
      ∃ v, sampleStore.GetNumTracksWithTap 0 = some v :=
  ⟨by decide, by decide,
    (C10_row_queries_stay_in_bounds sampleStore (by decide) 0).1.2.2.2.1,
    (C10_row_queries_stay_in_bounds sampleStore (by decide) 0).2.2.2.2.2.1⟩

/-! ## Hold notes: `AddHoldNote` -/

theorem clearRowsFrom_length (v : List TapNote) (r lo hi : Int) :
    (clearRowsFrom v r lo hi).length = v.length := by
  induction v generalizing r with
  | nil => rfl
  | cons n ns ih => simp only [clearRowsFrom, List.length_cons, ih]

theorem clearRowsFrom_getElem? (v : List TapNote) (r lo hi : Int) (i : Nat) :
    (clearRowsFrom v r lo hi)[i]? =
      (v[i]?).map (fun n => if lo ≤ r + i ∧ r + i < hi then TAP_EMPTY else n) := by
  induction v generalizing r i with
  | nil => simp [clearRowsFrom]
  | cons n ns ih =>
    cases i with
    | zero => simp [clearRowsFrom]
    | succ i =>
      simp only [clearRowsFrom, List.getElem?_cons_succ, ih]
      have : r + 1 + (i : Int) = r + ((i + 1 : Nat) : Int) := by push_cast; ring
      rw [this]

theorem GetTapNote_clearTrackRows_other (nd : NoteData MAX_NOTE_TRACKS) (track : Nat)
    (lo hi : Int) (t : Nat) (row : Int) (h : t ≠ track ∨ row < lo ∨ hi ≤ row) :
    (clearTrackRows nd track lo hi).GetTapNote t row = nd.GetTapNote t row := by
  unfold GetTapNote clearTrackRows
  by_cases ht : t < MAX_NOTE_TRACKS
  · rw [dif_pos ht, dif_pos ht]
    by_cases htt : t = track
    · subst htt
      simp only [if_true, clearRowsFrom_length]
      by_cases hg : row < 0 ∨ row ≥ castInt (nd.m_TapNotes ⟨t, ht⟩).length
      · rw [if_pos hg, if_pos hg]
      · rw [if_neg hg, if_neg hg, clearRowsFrom_getElem?]
        have hrow : ¬ (lo ≤ 0 + ((row.toNat : Nat) : Int) ∧ 0 + ((row.toNat : Nat) : Int) < hi) := by
          rcases h with h | h | h
          · exact absurd rfl h
          · omega
          · omega
        simp only [hrow, if_false]
        cases (nd.m_TapNotes ⟨t, ht⟩)[row.toNat]? <;> rfl
    · simp only [htt, if_false]
  · rw [dif_neg ht, dif_neg ht]

theorem GetTapNote_clearTrackRows_cleared (nd : NoteData MAX_NOTE_TRACKS) (track : Nat)
    (lo hi : Int) (row : Int) (ht : track < MAX_NOTE_TRACKS) (h1 : lo ≤ row) (h2 : row < hi) :
    (clearTrackRows nd track lo hi).GetTapNote track row = some TAP_EMPTY := by
  unfold GetTapNote clearTrackRows
  rw [dif_pos ht]
  simp only [if_true, clearRowsFrom_length]
  by_cases hg : row < 0 ∨ row ≥ castInt (nd.m_TapNotes ⟨track, ht⟩).length
  · rw [if_pos hg]
  · rw [if_neg hg, clearRowsFrom_getElem?]
    have hrow : lo ≤ 0 + ((row.toNat : Nat) : Int) ∧ 0 + ((row.toNat : Nat) : Int) < hi := by
      omega
    simp only [hrow, and_self, if_true]
    have hlt : row.toNat < (nd.m_TapNotes ⟨track, ht⟩).length := by
      have := castInt_le (nd.m_TapNotes ⟨track, ht⟩).length
      omega
    rw [List.getElem?_eq_getElem hlt]
    rfl

theorem mergeSpans_track (newNote : HoldNote) (l : List HoldNote) :
    (mergeSpans newNote l).m_iTrack = newNote.m_iTrack := by
  induction l generalizing newNote with
  | nil => rfl
  | cons hn rest ih =>
    rw [mergeSpans, ih]

theorem mergeSpans_span (newNote : HoldNote) (l : List HoldNote)
    (hov : ∀ hn ∈ l, newNote.m_iStartIndex < hn.m_iEndIndex ∧
      hn.m_iStartIndex < newNote.m_iEndIndex) (row : Int) :
    ((mergeSpans newNote l).m_iStartIndex ≤ row ∧ row < (mergeSpans newNote l).m_iEndIndex) ↔
      ((newNote.m_iStartIndex ≤ row ∧ row < newNote.m_iEndIndex) ∨
        ∃ hn ∈ l, hn.m_iStartIndex ≤ row ∧ row < hn.m_iEndIndex) := by
  induction l generalizing newNote with
  | nil => simp [mergeSpans]
  | cons hn rest ih =>
    rw [mergeSpans, ih]
    · have h0 := hov hn (List.mem_cons_self _ _)
      simp only [List.mem_cons, exists_eq_or_imp]
      constructor
      · rintro (h | h)
        · simp only [min_le_iff, lt_max_iff] at h
          omega
        · exact Or.inr (Or.inr h)
      · rintro (h | h | h)
        · left
          simp only [min_le_iff, lt_max_iff]
          omega
        · left
          simp only [min_le_iff, lt_max_iff]
          omega
        · exact Or.inr h
    · intro h hmem
      have h0 := hov hn (List.mem_cons_self _ _)
      have h1 := hov h (List.mem_cons_of_mem _ hmem)
      simp only [min_lt_iff, lt_max_iff]
      omega

theorem AddHoldNote_eq_some (nd : NoteData MAX_NOTE_TRACKS) (newNote : HoldNote)
    (h0 : 0 ≤ newNote.m_iTrack) (h1 : newNote.m_iTrack < (MAX_NOTE_TRACKS : Int)) :
    nd.AddHoldNote newNote =
      some
        { clearTrackRows nd newNote.m_iTrack.toNat newNote.m_iStartIndex
            newNote.m_iEndIndex with
          m_HoldNotes :=
            nd.m_HoldNotes.filter (fun hn => !decide (Overlaps newNote hn)) ++
              [mergeSpans newNote
                (nd.m_HoldNotes.filter (fun hn => decide (Overlaps newNote hn)))] } := by
  unfold AddHoldNote
  rw [if_pos ⟨h0, h1⟩]

theorem filter_Overlaps_other_track (holds : List HoldNote) (newNote : HoldNote)
    (h : ∀ hn ∈ holds, hn.m_iTrack ≠ newNote.m_iTrack) :
    holds.filter (fun hn => !decide (Overlaps newNote hn)) = holds ∧
      holds.filter (fun hn => decide (Overlaps newNote hn)) = [] := by
  constructor
  · rw [List.filter_eq_self]
    intro hn hmem
    have hno : ¬ Overlaps newNote hn := fun ho => h hn hmem ho.1.symm
    simp [hno]
  · rw [List.filter_eq_nil_iff]
    intro hn hmem
    have hno : ¬ Overlaps newNote hn := fun ho => h hn hmem ho.1.symm
    simp [hno]

/-- C11, on `AddHoldNote` as modelled from the spec: from a store with no hold note on
track 1 (and track 1 inside the array), adding the intervals track 1 rows 2 to 6 and then
track 1 rows 4 to 8 succeeds and leaves the stored intervals of the other tracks and the
single interval track 1 rows 2 to 8, and row 3 of track 1 reads `TAP_EMPTY` afterwards
whatever it held; in general, adding an interval on a track inside the array removes the
stored intervals that overlap it and stores one interval on its track whose span is the
union of the new span and the overlapping spans, and clears the new interval's rows. -/
theorem C11_AddHoldNote_merges_and_clears (nd : NoteData MAX_NOTE_TRACKS) :
    ((1 : Int) < (MAX_NOTE_TRACKS : Int) → (∀ hn ∈ nd.m_HoldNotes, hn.m_iTrack ≠ 1) →
      ∃ nd1 nd2, nd.AddHoldNote ⟨1, 2, 6⟩ = some nd1 ∧ nd1.AddHoldNote ⟨1, 4, 8⟩ = some nd2 ∧
        nd2.m_HoldNotes = nd.m_HoldNotes ++ [⟨1, 2, 8⟩] ∧
        nd2.m_HoldNotes.filter (fun hn => decide (hn.m_iTrack = 1)) = [⟨1, 2, 8⟩] ∧
        nd2.GetTapNote 1 3 = some TAP_EMPTY) ∧
      ∀ newNote : HoldNote, 0 ≤ newNote.m_iTrack →
        newNote.m_iTrack < (MAX_NOTE_TRACKS : Int) →
        ∃ nd2 merged, nd.AddHoldNote newNote = some nd2 ∧
          nd2.m_HoldNotes =
            nd.m_HoldNotes.filter (fun hn => !decide (Overlaps newNote hn)) ++ [merged] ∧
          merged.m_iTrack = newNote.m_iTrack ∧
          (∀ row : Int, (merged.m_iStartIndex ≤ row ∧ row < merged.m_iEndIndex) ↔
            ((newNote.m_iStartIndex ≤ row ∧ row < newNote.m_iEndIndex) ∨
              ∃ hn ∈ nd.m_HoldNotes, Overlaps newNote hn ∧
                hn.m_iStartIndex ≤ row ∧ row < hn.m_iEndIndex)) ∧
          ∀ row : Int, newNote.m_iStartIndex ≤ row → row < newNote.m_iEndIndex →
            nd2.GetTapNote newNote.m_iTrack.toNat row = some TAP_EMPTY := by
  constructor
  · intro hmax hno
    have hf := filter_Overlaps_other_track nd.m_HoldNotes ⟨1, 2, 6⟩ hno
    have hg := filter_Overlaps_other_track nd.m_HoldNotes ⟨1, 4, 8⟩ hno
    have e1 : mergeSpans ⟨1, 2, 6⟩ [] = ⟨1, 2, 6⟩ := rfl
    have e2 : List.filter (fun hn => !decide (Overlaps ⟨1, 4, 8⟩ hn)) [⟨1, 2, 6⟩] = [] := by
      decide
    have e3 : List.filter (fun hn => decide (Overlaps ⟨1, 4, 8⟩ hn)) [⟨1, 2, 6⟩] =
        [⟨1, 2, 6⟩] := by
      decide
    have e4 : mergeSpans ⟨1, 4, 8⟩ [⟨1, 2, 6⟩] = ⟨1, 2, 8⟩ := by decide
    have hholds : List.filter (fun hn => !decide (Overlaps ⟨1, 4, 8⟩ hn))
          (nd.m_HoldNotes.filter (fun hn => !decide (Overlaps ⟨1, 2, 6⟩ hn)) ++
            [mergeSpans ⟨1, 2, 6⟩
              (nd.m_HoldNotes.filter (fun hn => decide (Overlaps ⟨1, 2, 6⟩ hn)))]) ++
          [mergeSpans ⟨1, 4, 8⟩ (List.filter (fun hn => decide (Overlaps ⟨1, 4, 8⟩ hn))
            (nd.m_HoldNotes.filter (fun hn => !decide (Overlaps ⟨1, 2, 6⟩ hn)) ++
              [mergeSpans ⟨1, 2, 6⟩
                (nd.m_HoldNotes.filter (fun hn => decide (Overlaps ⟨1, 2, 6⟩ hn)))]))] =
        nd.m_HoldNotes ++ [⟨1, 2, 8⟩] := by
      rw [hf.1, hf.2, List.filter_append, List.filter_append, hg.1, hg.2, e1, e2, e3,
        List.append_nil, List.nil_append, e4]
    refine ⟨_, _, AddHoldNote_eq_some nd ⟨1, 2, 6⟩ (by decide) hmax,
      AddHoldNote_eq_some _ ⟨1, 4, 8⟩ (by decide) hmax, hholds, ?_, ?_⟩
    · have hnone : nd.m_HoldNotes.filter (fun hn => decide (hn.m_iTrack = 1)) = [] := by
        rw [List.filter_eq_nil_iff]
        intro hn hmem
        simp [hno hn hmem]
      have e5 : List.filter (fun hn => decide (hn.m_iTrack = 1)) [(⟨1, 2, 8⟩ : HoldNote)] =
          [⟨1, 2, 8⟩] := by
        decide
      exact (congrArg (List.filter (fun hn => decide (hn.m_iTrack = 1))) hholds).trans
        (by rw [List.filter_append, hnone, e5, List.nil_append])
    · show (clearTrackRows (clearTrackRows nd 1 2 6) 1 4 8).GetTapNote 1 3 = some TAP_EMPTY
      rw [GetTapNote_clearTrackRows_other _ 1 4 8 1 3 (Or.inr (Or.inl (by decide)))]
      exact GetTapNote_clearTrackRows_cleared nd 1 2 6 3 (by omega) (by decide) (by decide)
  · intro newNote h0 h1
    refine ⟨_, _, AddHoldNote_eq_some nd newNote h0 h1, rfl, mergeSpans_track _ _, ?_, ?_⟩
    · intro row
      rw [mergeSpans_span]
      · constructor
        · rintro (h | ⟨hn, hmem, h⟩)
          · exact Or.inl h
          · rw [List.mem_filter] at hmem
            exact Or.inr ⟨hn, hmem.1, of_decide_eq_true hmem.2, h⟩
        · rintro (h | ⟨hn, hmem, ho, h⟩)
          · exact Or.inl h
          · exact Or.inr ⟨hn, List.mem_filter.mpr ⟨hmem, decide_eq_true ho⟩, h⟩
      · intro hn hmem
        rw [List.mem_filter] at hmem
        have ho : Overlaps newNote hn := of_decide_eq_true hmem.2
        exact ⟨ho.2.1, ho.2.2⟩
    · intro row hlo hhi
      exact GetTapNote_clearTrackRows_cleared nd _ _ _ row (by omega) hlo hhi

/-- Witness of C11: `tapStore` holds a plain tap at row 3 of track 1; after the two
additions its hold notes are the single interval track 1 rows 2 to 8 and the tap is
gone. -/
theorem C11_AddHoldNote_merges_and_clears_witness :
    tapStore.GetTapNote 1 3 = some TAP_TAP ∧
      ∃ nd1 nd2, tapStore.AddHoldNote ⟨1, 2, 6⟩ = some nd1 ∧
        nd1.AddHoldNote ⟨1, 4, 8⟩ = some nd2 ∧
        nd2.m_HoldNotes = tapStore.m_HoldNotes ++ [⟨1, 2, 8⟩] ∧
        nd2.m_HoldNotes.filter (fun hn => decide (hn.m_iTrack = 1)) = [⟨1, 2, 8⟩] ∧
        nd2.GetTapNote 1 3 = some TAP_EMPTY :=
  ⟨by decide,
    (C11_AddHoldNote_merges_and_clears tapStore).1 (by decide) (by
      intro hn hmem
      exact absurd hmem (List.not_mem_nil hn))⟩

/-! ## Hold notes: the 2s and 3s markers -/

/-! ### The scan of one track -/

theorem scanTrack_head (track : Int) (rest : List TapNote) (r : Nat) (start : Option Nat) :
    scanTrack track (TAP_HOLD_HEAD :: rest) r start = scanTrack track rest (r + 1) (some r) := by
  cases start <;> rfl

theorem scanTrack_empty (track : Int) (rest : List TapNote) (r : Nat) (start : Option Nat) :
    scanTrack track (TAP_EMPTY :: rest) r start = scanTrack track rest (r + 1) start := by
  cases start <;> rfl

theorem scanTrack_close (track : Int) (n : TapNote) (rest : List TapNote) (r s : Nat)
    (hn : n = TAP_HOLD_TAIL ∨ n = TAP_TAP) :
    scanTrack track (n :: rest) r (some s) =
      ⟨track, (s : Int), (r : Int)⟩ :: scanTrack track rest (r + 1) none := by
  rcases hn with h | h <;> subst h <;> rfl

theorem scanTrack_ignore (track : Int) (n : TapNote) (rest : List TapNote) (r : Nat)
    (hn : n = TAP_HOLD_TAIL ∨ n = TAP_TAP) :
    scanTrack track (n :: rest) r none = scanTrack track rest (r + 1) none := by
  rcases hn with h | h <;> subst h <;> rfl

theorem TapNote_cases (n : TapNote) :
    n = TAP_HOLD_HEAD ∨ n = TAP_EMPTY ∨ (n = TAP_HOLD_TAIL ∨ n = TAP_TAP) := by
  cases n <;> simp

theorem scanTrack_mem_bounds (track : Int) (v : List TapNote) (r : Nat) (start : Option Nat)
    (hn : HoldNote) (h : hn ∈ scanTrack track v r start) :
    hn.m_iTrack = track ∧ (r : Int) ≤ hn.m_iEndIndex := by
  induction v generalizing r start with
  | nil => simp [scanTrack] at h
  | cons n rest ih =>
    rcases TapNote_cases n with hc | hc | hc
    · subst hc
      rw [scanTrack_head] at h
      have := ih _ _ h
      exact ⟨this.1, by omega⟩
    · subst hc
      rw [scanTrack_empty] at h
      have := ih _ _ h
      exact ⟨this.1, by omega⟩
    · cases start with
      | none =>
        rw [scanTrack_ignore track n rest r hc] at h
        have := ih _ _ h
        exact ⟨this.1, by omega⟩
      | some s =>
        rw [scanTrack_close track n rest r s hc, List.mem_cons] at h
        rcases h with h | h
        · subst h
          exact ⟨rfl, le_refl _⟩
        · have := ih _ _ h
          exact ⟨this.1, by omega⟩

theorem scanTrack_pairwise (track : Int) (v : List TapNote) (r : Nat) (start : Option Nat) :
    (scanTrack track v r start).Pairwise (fun a b => a.m_iEndIndex < b.m_iEndIndex) := by
  induction v generalizing r start with
  | nil => simp [scanTrack]
  | cons n rest ih =>
    rcases TapNote_cases n with hc | hc | hc
    · subst hc
      rw [scanTrack_head]
      exact ih _ _
    · subst hc
      rw [scanTrack_empty]
      exact ih _ _
    · cases start with
      | none =>
        rw [scanTrack_ignore track n rest r hc]
        exact ih _ _
      | some s =>
        rw [scanTrack_close track n rest r s hc, List.pairwise_cons]
        refine ⟨?_, ih _ _⟩
        intro b hb
        have := (scanTrack_mem_bounds track rest (r + 1) none b hb).2
        show (r : Int) < b.m_iEndIndex
        omega

theorem scanTrack_nodup (track : Int) (v : List TapNote) (r : Nat) (start : Option Nat) :
    (scanTrack track v r start).Nodup := by
  apply (scanTrack_pairwise track v r start).imp
  intro a b hab heq
  rw [heq] at hab
  exact lt_irrefl _ hab

theorem scanTrack_complete_open (track : Int) (v : List TapNote) (r s0 e : Nat)
    (hempty : ∀ k, k < e → v[k]? = some TAP_EMPTY)
    (hclose : v[e]? = some TAP_HOLD_TAIL ∨ v[e]? = some TAP_TAP) :
    (⟨track, (s0 : Int), ((r + e : Nat) : Int)⟩ : HoldNote) ∈ scanTrack track v r (some s0) := by
  induction v generalizing r e with
  | nil => simp at hclose
  | cons n rest ih =>
    cases e with
    | zero =>
      simp only [List.getElem?_cons_zero, Option.some.injEq] at hclose
      rw [scanTrack_close track n rest r s0 hclose]
      exact List.mem_cons_self _ _
    | succ e =>
      have h0 := hempty 0 (Nat.succ_pos e)
      simp only [List.getElem?_cons_zero, Option.some.injEq] at h0
      subst h0
      rw [scanTrack_empty]
      have := ih (r + 1) e (fun k hk => by
        have := hempty (k + 1) (by omega)
        simpa using this) (by simpa using hclose)
      have he : r + 1 + e = r + (e + 1) := by omega
      rw [he] at this
      exact this

theorem scanTrack_complete (track : Int) (v : List TapNote) (r : Nat) (start : Option Nat)
    (s e : Nat) (hse : s < e) (hhead : v[s]? = some TAP_HOLD_HEAD)
    (hempty : ∀ k, s < k → k < e → v[k]? = some TAP_EMPTY)
    (hclose : v[e]? = some TAP_HOLD_TAIL ∨ v[e]? = some TAP_TAP) :
    (⟨track, ((r + s : Nat) : Int), ((r + e : Nat) : Int)⟩ : HoldNote) ∈
      scanTrack track v r start := by
  induction v generalizing r start s e with
  | nil => simp at hhead
  | cons n rest ih =>
    cases e with
    | zero => omega
    | succ e =>
      cases s with
      | zero =>
        simp only [List.getElem?_cons_zero, Option.some.injEq] at hhead
        subst hhead
        rw [scanTrack_head]
        have := scanTrack_complete_open track rest (r + 1) r e (fun k hk => by
          have := hempty (k + 1) (by omega) (by omega)
          simpa using this) (by simpa using hclose)
        have he : r + 1 + e = r + (e + 1) := by omega
        rw [he] at this
        exact this
      | succ s =>
        have key : ∀ st, (⟨track, ((r + (s + 1) : Nat) : Int), ((r + (e + 1) : Nat) : Int)⟩ :
            HoldNote) ∈ scanTrack track rest (r + 1) st := by
          intro st
          have := ih (r + 1) st s e (by omega) (by simpa using hhead) (fun k hk1 hk2 => by
            have := hempty (k + 1) (by omega) (by omega)
            simpa using this) (by simpa using hclose)
          have he : r + 1 + e = r + (e + 1) := by omega
          have hs : r + 1 + s = r + (s + 1) := by omega
          rw [he, hs] at this
          exact this
        rcases TapNote_cases n with hc | hc | hc
        · subst hc
          rw [scanTrack_head]
          exact key _
        · subst hc
          rw [scanTrack_empty]
          exact key _
        · cases start with
          | none =>
            rw [scanTrack_ignore track n rest r hc]
            exact key _
          | some s0 =>
            rw [scanTrack_close track n rest r s0 hc]
            exact List.mem_cons_of_mem _ (key _)

theorem scanTrack_sound_shift (n : TapNote) (rest : List TapNote) (r : Nat) (hn : HoldNote)
    (h : ∃ e : Nat, hn.m_iEndIndex = ((r + 1 + e : Nat) : Int) ∧
      (rest[e]? = some TAP_HOLD_TAIL ∨ rest[e]? = some TAP_TAP) ∧
      ∃ s : Nat, s < e ∧ hn.m_iStartIndex = ((r + 1 + s : Nat) : Int) ∧
        rest[s]? = some TAP_HOLD_HEAD ∧ ∀ k, s < k → k < e → rest[k]? = some TAP_EMPTY) :
    ∃ e : Nat, hn.m_iEndIndex = ((r + e : Nat) : Int) ∧
      ((n :: rest)[e]? = some TAP_HOLD_TAIL ∨ (n :: rest)[e]? = some TAP_TAP) ∧
      ∃ s : Nat, s < e ∧ hn.m_iStartIndex = ((r + s : Nat) : Int) ∧
        (n :: rest)[s]? = some TAP_HOLD_HEAD ∧
        ∀ k, s < k → k < e → (n :: rest)[k]? = some TAP_EMPTY := by
  obtain ⟨e, he, hc, s, hse, hs, hh, hb⟩ := h
  refine ⟨e + 1, ?_, by simpa using hc, s + 1, by omega, ?_, by simpa using hh, ?_⟩
  · rw [he]
    congr 1
    omega
  · rw [hs]
    congr 1
    omega
  · intro k hk1 hk2
    cases k with
    | zero => omega
    | succ k =>
      rw [List.getElem?_cons_succ]
      exact hb k (by omega) (by omega)

theorem scanTrack_sound (track : Int) (v : List TapNote) (r : Nat) (start : Option Nat)
    (hn : HoldNote) (h : hn ∈ scanTrack track v r start) :
    ∃ e : Nat, hn.m_iEndIndex = ((r + e : Nat) : Int) ∧
      (v[e]? = some TAP_HOLD_TAIL ∨ v[e]? = some TAP_TAP) ∧
      ((∃ s : Nat, s < e ∧ hn.m_iStartIndex = ((r + s : Nat) : Int) ∧
          v[s]? = some TAP_HOLD_HEAD ∧ ∀ k, s < k → k < e → v[k]? = some TAP_EMPTY) ∨
        (∃ s0 : Nat, start = some s0 ∧ hn.m_iStartIndex = (s0 : Int) ∧
          ∀ k, k < e → v[k]? = some TAP_EMPTY)) := by
  induction v generalizing r start with
  | nil => simp [scanTrack] at h
  | cons n rest ih =>
    rcases TapNote_cases n with hc | hc | hc
    · subst hc
      rw [scanTrack_head] at h
      obtain ⟨e, he, hcl, hs | ⟨s0, hs0, hst, hb⟩⟩ := ih _ _ h
      · obtain ⟨e2, h1, h2, h3⟩ := scanTrack_sound_shift TAP_HOLD_HEAD rest r hn ⟨e, he, hcl, hs⟩
        exact ⟨e2, h1, h2, Or.inl h3⟩
      · have hr : s0 = r := (Option.some.inj hs0).symm
        subst hr
        refine ⟨e + 1, ?_, by simpa using hcl, Or.inl ⟨0, by omega, ?_, List.getElem?_cons_zero, ?_⟩⟩
        · rw [he]
          congr 1
          omega
        · rw [hst]
          rfl
        · intro k hk1 hk2
          cases k with
          | zero => omega
          | succ k =>
            rw [List.getElem?_cons_succ]
            exact hb k (by omega)
    · subst hc
      rw [scanTrack_empty] at h
      obtain ⟨e, he, hcl, hs | ⟨s0, hs0, hst, hb⟩⟩ := ih _ _ h
      · obtain ⟨e2, h1, h2, h3⟩ := scanTrack_sound_shift TAP_EMPTY rest r hn ⟨e, he, hcl, hs⟩
        exact ⟨e2, h1, h2, Or.inl h3⟩
      · refine ⟨e + 1, ?_, by simpa using hcl, Or.inr ⟨s0, hs0, hst, ?_⟩⟩
        · rw [he]
          congr 1
          omega
        · intro k hk
          cases k with
          | zero => exact List.getElem?_cons_zero
          | succ k =>
            rw [List.getElem?_cons_succ]
            exact hb k (by omega)
    · have tail_case : hn ∈ scanTrack track rest (r + 1) none →
          ∃ e : Nat, hn.m_iEndIndex = ((r + e : Nat) : Int) ∧
            ((n :: rest)[e]? = some TAP_HOLD_TAIL ∨ (n :: rest)[e]? = some TAP_TAP) ∧
            ((∃ s : Nat, s < e ∧ hn.m_iStartIndex = ((r + s : Nat) : Int) ∧
                (n :: rest)[s]? = some TAP_HOLD_HEAD ∧
                ∀ k, s < k → k < e → (n :: rest)[k]? = some TAP_EMPTY) ∨
              (∃ s0 : Nat, start = some s0 ∧ hn.m_iStartIndex = (s0 : Int) ∧
                ∀ k, k < e → (n :: rest)[k]? = some TAP_EMPTY)) := by
        intro h2
        obtain ⟨e, he, hcl, hs | ⟨s0, hs0, -⟩⟩ := ih _ _ h2
        · obtain ⟨e2, h1, h2, h3⟩ := scanTrack_sound_shift n rest r hn ⟨e, he, hcl, hs⟩
          exact ⟨e2, h1, h2, Or.inl h3⟩
        · exact Option.noConfusion hs0
      cases start with
      | none =>
        rw [scanTrack_ignore track n rest r hc] at h
        exact tail_case h
      | some s =>
        rw [scanTrack_close track n rest r s hc, List.mem_cons] at h
        rcases h with h | h
        · subst h
          refine ⟨0, rfl, ?_, Or.inr ⟨s, rfl, rfl, ?_⟩⟩
          · rcases hc with hc | hc <;> subst hc <;> simp
          · intro k hk
            omega
        · exact tail_case h

/-! ### The grid under the writes of the conversion -/

theorem cell_eq_of_lt (nd : NoteData MAX_NOTE_TRACKS) (t r : Nat) (ht : t < MAX_NOTE_TRACKS)
    (hr : r < (nd.m_TapNotes ⟨t, ht⟩).length) :
    (nd.m_TapNotes ⟨t, ht⟩)[r]? = some (nd.cell t r) := by
  unfold cell
  rw [dif_pos ht, List.getElem?_eq_getElem hr]
  rfl

theorem cell_eq_empty_of_ge (nd : NoteData MAX_NOTE_TRACKS) (t r : Nat)
    (ht : t < MAX_NOTE_TRACKS) (hr : (nd.m_TapNotes ⟨t, ht⟩).length ≤ r) :
    nd.cell t r = TAP_EMPTY := by
  unfold cell
  rw [dif_pos ht, List.getElem?_eq_none hr]
  rfl

theorem cell_of_getElem? (nd : NoteData MAX_NOTE_TRACKS) (t r : Nat)
    (ht : t < MAX_NOTE_TRACKS) (n : TapNote) (h : (nd.m_TapNotes ⟨t, ht⟩)[r]? = some n) :
    nd.cell t r = n := by
  unfold cell
  rw [dif_pos ht, h]
  rfl

theorem cell_eq_getD (nd : NoteData MAX_NOTE_TRACKS) (t r : Nat) (ht : t < MAX_NOTE_TRACKS) :
    nd.cell t r = (nd.m_TapNotes ⟨t, ht⟩)[r]?.getD TAP_EMPTY := by
  unfold cell
  rw [dif_pos ht]

theorem cell_PadTapNotes (nd : NoteData MAX_NOTE_TRACKS) (rows : Int) (t r : Nat) :
    (nd.PadTapNotes rows).cell t r = nd.cell t r := by
  unfold cell PadTapNotes
  by_cases ht : t < MAX_NOTE_TRACKS
  · rw [dif_pos ht, dif_pos ht]
    simp only
    rw [List.getElem?_append]
    by_cases hr : r < (nd.m_TapNotes ⟨t, ht⟩).length
    · rw [if_pos hr]
    · rw [if_neg hr, List.getElem?_replicate, List.getElem?_eq_none (Nat.le_of_not_lt hr)]
      split <;> rfl
  · rw [dif_neg ht, dif_neg ht]

theorem length_PadTapNotes (nd : NoteData MAX_NOTE_TRACKS) (rows : Int)
    (i : Fin MAX_NOTE_TRACKS) :
    ((nd.PadTapNotes rows).m_TapNotes i).length =
      max (nd.m_TapNotes i).length (rows + 1).toNat := by
  unfold PadTapNotes
  simp only [List.length_append, List.length_replicate]
  omega

theorem SetTapNote_spec (nd : NoteData MAX_NOTE_TRACKS) (track row : Int) (v : TapNote)
    (h0 : 0 ≤ track) (h1 : track < (MAX_NOTE_TRACKS : Int)) (h2 : 0 ≤ row) :
    ∃ nd2, nd.SetTapNote track row v = some nd2 ∧ nd2.m_iNumTracks = nd.m_iNumTracks ∧
      nd2.m_HoldNotes = nd.m_HoldNotes ∧
      (∀ i, (nd2.m_TapNotes i).length = max (nd.m_TapNotes i).length (row + 1).toNat) ∧
      ∀ t r, nd2.cell t r = if t = track.toNat ∧ r = row.toNat then v else nd.cell t r := by
  unfold SetTapNote
  rw [if_pos ⟨h0, h1, h2⟩]
  refine ⟨_, rfl, rfl, rfl, ?_, ?_⟩
  · intro i
    simp only
    split
    · rw [List.length_set, length_PadTapNotes]
    · rw [length_PadTapNotes]
  · intro t r
    by_cases ht : t < MAX_NOTE_TRACKS
    · have hpad : ((nd.PadTapNotes row).m_TapNotes ⟨t, ht⟩)[r]?.getD TAP_EMPTY = nd.cell t r := by
        rw [← cell_PadTapNotes nd row t r, cell_eq_getD _ t r ht]
      rw [cell_eq_getD _ t r ht]
      simp only
      by_cases htt : t = track.toNat
      · rw [if_pos htt, List.getElem?_set]
        by_cases hrr : row.toNat = r
        · have hlen : row.toNat < ((nd.PadTapNotes row).m_TapNotes ⟨t, ht⟩).length := by
            rw [length_PadTapNotes]
            omega
          rw [if_pos hrr, if_pos (And.intro htt hrr.symm), if_pos hlen]
          rfl
        · rw [if_neg hrr, if_neg (fun h => hrr h.2.symm)]
          exact hpad
      · rw [if_neg htt, if_neg (fun h => htt h.1)]
        exact hpad
    · unfold cell
      rw [dif_neg ht, dif_neg ht, if_neg]
      intro h
      omega

theorem clearTrackRows_spec (nd : NoteData MAX_NOTE_TRACKS) (track : Nat) (lo hi : Int) :
    (clearTrackRows nd track lo hi).m_iNumTracks = nd.m_iNumTracks ∧
      (clearTrackRows nd track lo hi).m_HoldNotes = nd.m_HoldNotes ∧
      (∀ i, ((clearTrackRows nd track lo hi).m_TapNotes i).length = (nd.m_TapNotes i).length) ∧
      ∀ t r, (clearTrackRows nd track lo hi).cell t r =
        if t = track ∧ lo ≤ (r : Int) ∧ (r : Int) < hi then TAP_EMPTY else nd.cell t r := by
  refine ⟨rfl, rfl, ?_, ?_⟩
  · intro i
    unfold clearTrackRows
    simp only
    split
    · rw [clearRowsFrom_length]
    · rfl
  · intro t r
    unfold cell clearTrackRows
    by_cases ht : t < MAX_NOTE_TRACKS
    · rw [dif_pos ht, dif_pos ht]
      simp only
      by_cases htt : t = track
      · rw [if_pos htt, clearRowsFrom_getElem?]
        by_cases hr : lo ≤ (r : Int) ∧ (r : Int) < hi
        · rw [if_pos ⟨htt, hr⟩]
          have hr2 : lo ≤ 0 + (r : Int) ∧ 0 + (r : Int) < hi := by omega
          simp only [hr2, and_self, if_true]
          cases (nd.m_TapNotes ⟨t, ht⟩)[r]? <;> rfl
        · rw [if_neg (fun h => hr h.2)]
          have hr2 : ¬ (lo ≤ 0 + (r : Int) ∧ 0 + (r : Int) < hi) := by omega
          simp only [hr2, if_false]
          cases (nd.m_TapNotes ⟨t, ht⟩)[r]? <;> rfl
      · rw [if_neg htt, if_neg (fun h => htt h.1)]
    · rw [dif_neg ht, dif_neg ht]
      split <;> rfl

theorem HoldNoteTo2sAnd3s_spec (nd : NoteData MAX_NOTE_TRACKS) (hn : HoldNote)
    (h0 : 0 ≤ hn.m_iTrack) (h1 : hn.m_iTrack < (MAX_NOTE_TRACKS : Int))
    (h2 : 0 ≤ hn.m_iStartIndex) (h3 : hn.m_iStartIndex < hn.m_iEndIndex) :
    ∃ nd2, HoldNoteTo2sAnd3s nd hn = some nd2 ∧ nd2.m_iNumTracks = nd.m_iNumTracks ∧
      nd2.m_HoldNotes = nd.m_HoldNotes ∧
      (∀ i, (nd.m_TapNotes i).length ≤ (nd2.m_TapNotes i).length ∧
        hn.m_iEndIndex.toNat < (nd2.m_TapNotes i).length) ∧
      ∀ t r, nd2.cell t r =
        if t = hn.m_iTrack.toNat ∧ hn.m_iStartIndex.toNat ≤ r ∧ r ≤ hn.m_iEndIndex.toNat then
          (if r = hn.m_iStartIndex.toNat then TAP_HOLD_HEAD
            else if r = hn.m_iEndIndex.toNat then TAP_HOLD_TAIL else TAP_EMPTY)
        else nd.cell t r := by
  obtain ⟨nd1, e1, n1, hh1, l1, c1⟩ :=
    SetTapNote_spec nd hn.m_iTrack hn.m_iStartIndex TAP_HOLD_HEAD h0 h1 h2
  obtain ⟨nd2, e2, n2, hh2, l2, c2⟩ :=
    SetTapNote_spec nd1 hn.m_iTrack hn.m_iEndIndex TAP_HOLD_TAIL h0 h1 (by omega)
  obtain ⟨n3, hh3, l3, c3⟩ :=
    clearTrackRows_spec nd2 hn.m_iTrack.toNat (hn.m_iStartIndex + 1) hn.m_iEndIndex
  refine ⟨clearTrackRows nd2 hn.m_iTrack.toNat (hn.m_iStartIndex + 1) hn.m_iEndIndex,
    ?_, by rw [n3, n2, n1], by rw [hh3, hh2, hh1], ?_, ?_⟩
  · unfold HoldNoteTo2sAnd3s
    rw [e1]
    simp only
    rw [e2]
  · intro i
    rw [l3, l2, l1]
    omega
  · intro t r
    rw [c3, c2, c1]
    by_cases ht : t = hn.m_iTrack.toNat
    · by_cases hs : r = hn.m_iStartIndex.toNat
      · rw [if_neg (by omega), if_neg (by omega), if_pos ⟨ht, hs⟩, if_pos (by omega), if_pos hs]
      · by_cases he : r = hn.m_iEndIndex.toNat
        · rw [if_neg (by omega), if_pos ⟨ht, he⟩, if_pos (by omega), if_neg hs, if_pos he]
        · by_cases hin : hn.m_iStartIndex.toNat ≤ r ∧ r ≤ hn.m_iEndIndex.toNat
          · rw [if_pos (by omega), if_pos ⟨ht, hin⟩, if_neg hs, if_neg he]
          · rw [if_neg (by omega), if_neg (by omega), if_neg (by omega), if_neg (by omega)]
    · rw [if_neg (fun h => ht h.1), if_neg (fun h => ht h.1), if_neg (fun h => ht h.1),
        if_neg (fun h => ht h.1)]

/-- What the loop of the conversion to markers leaves in the grid, for hold intervals that
are pairwise apart. -/
theorem HoldNotesTo2sAnd3s_spec (holds : List HoldNote) (nd : NoteData MAX_NOTE_TRACKS)
    (hvalid : ∀ hn ∈ holds, 0 ≤ hn.m_iTrack ∧ hn.m_iTrack < (MAX_NOTE_TRACKS : Int) ∧
      0 ≤ hn.m_iStartIndex ∧ hn.m_iStartIndex < hn.m_iEndIndex)
    (hapart : holds.Pairwise Apart) :
    ∃ nd2, HoldNotesTo2sAnd3s nd holds = some nd2 ∧ nd2.m_iNumTracks = nd.m_iNumTracks ∧
      nd2.m_HoldNotes = nd.m_HoldNotes ∧
      (∀ i, (nd.m_TapNotes i).length ≤ (nd2.m_TapNotes i).length) ∧
      (∀ hn ∈ holds, ∀ i, hn.m_iEndIndex.toNat < (nd2.m_TapNotes i).length) ∧
      (∀ t r, (∀ hn ∈ holds, hn.m_iTrack.toNat = t →
          r < hn.m_iStartIndex.toNat ∨ hn.m_iEndIndex.toNat < r) →
        nd2.cell t r = nd.cell t r) ∧
      ∀ hn ∈ holds,
        nd2.cell hn.m_iTrack.toNat hn.m_iStartIndex.toNat = TAP_HOLD_HEAD ∧
        nd2.cell hn.m_iTrack.toNat hn.m_iEndIndex.toNat = TAP_HOLD_TAIL ∧
        ∀ r, hn.m_iStartIndex.toNat < r → r < hn.m_iEndIndex.toNat →
          nd2.cell hn.m_iTrack.toNat r = TAP_EMPTY := by
  induction holds generalizing nd with
  | nil =>
    exact ⟨nd, rfl, rfl, rfl, fun _ => le_refl _, fun hn h => absurd h (List.not_mem_nil hn),
      fun _ _ _ => rfl, fun hn h => absurd h (List.not_mem_nil hn)⟩
  | cons h0 rest ih =>
    obtain ⟨v0, v1, v2, v3⟩ := hvalid h0 (List.mem_cons_self _ _)
    rw [List.pairwise_cons] at hapart
    obtain ⟨nd1, e1, n1, hh1, l1, c1⟩ := HoldNoteTo2sAnd3s_spec nd h0 v0 v1 v2 v3
    obtain ⟨nd2, e2, n2, hh2, l2, le2, out2, in2⟩ :=
      ih nd1 (fun hn hm => hvalid hn (List.mem_cons_of_mem _ hm)) hapart.2
    have hout0 : ∀ r, h0.m_iStartIndex.toNat ≤ r → r ≤ h0.m_iEndIndex.toNat →
        nd2.cell h0.m_iTrack.toNat r = nd1.cell h0.m_iTrack.toNat r := by
      intro r hr1 hr2
      apply out2
      intro hn hm htr
      have hv := hvalid hn (List.mem_cons_of_mem _ hm)
      have hap := hapart.1 hn hm (by omega)
      omega
    refine ⟨nd2, ?_, by rw [n2, n1], by rw [hh2, hh1], ?_, ?_, ?_, ?_⟩
    · rw [HoldNotesTo2sAnd3s, e1]
      exact e2
    · intro i
      exact le_trans (l1 i).1 (l2 i)
    · intro hn hm i
      rw [List.mem_cons] at hm
      rcases hm with hm | hm
      · subst hm
        exact lt_of_lt_of_le (l1 i).2 (l2 i)
      · exact le2 hn hm i
    · intro t r hout
      rw [out2 t r (fun hn hm => hout hn (List.mem_cons_of_mem _ hm)), c1, if_neg]
      intro hin
      have := hout h0 (List.mem_cons_self _ _) hin.1.symm
      omega
    · intro hn hm
      rw [List.mem_cons] at hm
      rcases hm with hm | hm
      · subst hm
        refine ⟨?_, ?_, ?_⟩
        · rw [hout0 _ (le_refl _) (by omega), c1, if_pos ⟨rfl, le_refl _, by omega⟩, if_pos rfl]
        · rw [hout0 _ (by omega) (le_refl _), c1, if_pos ⟨rfl, by omega, le_refl _⟩,
            if_neg (by omega), if_pos rfl]
        · intro r hr1 hr2
          rw [hout0 _ (by omega) (by omega), c1, if_pos ⟨rfl, by omega, by omega⟩,
            if_neg (by omega), if_neg (by omega)]
      · exact in2 hn hm

/-! ### The scan of the declared tracks -/

theorem mem_scanTracksFrom (nd : NoteData MAX_NOTE_TRACKS) (k t : Nat) (hn : HoldNote) :
    hn ∈ scanTracksFrom nd k t ↔
      ∃ t2, t ≤ t2 ∧ t2 < t + k ∧ ∃ h : t2 < MAX_NOTE_TRACKS,
        hn ∈ scanTrack (t2 : Int) (nd.m_TapNotes ⟨t2, h⟩) 0 none := by
  induction k generalizing t with
  | zero =>
    rw [scanTracksFrom]
    constructor
    · intro h
      exact absurd h (List.not_mem_nil hn)
    · rintro ⟨t2, h1, h2, -⟩
      omega
  | succ k ih =>
    rw [scanTracksFrom, List.mem_append, ih]
    constructor
    · rintro (h | ⟨t2, h1, h2, h3⟩)
      · by_cases ht : t < MAX_NOTE_TRACKS
        · rw [dif_pos ht] at h
          exact ⟨t, le_refl t, by omega, ht, h⟩
        · rw [dif_neg ht] at h
          exact absurd h (List.not_mem_nil hn)
      · exact ⟨t2, by omega, by omega, h3⟩
    · rintro ⟨t2, h1, h2, ht2, h3⟩
      rcases Nat.eq_or_lt_of_le h1 with h4 | h4
      · subst h4
        left
        rw [dif_pos ht2]
        exact h3
      · exact Or.inr ⟨t2, h4, by omega, ht2, h3⟩

theorem scanTracksFrom_nodup (nd : NoteData MAX_NOTE_TRACKS) (k t : Nat) :
    (scanTracksFrom nd k t).Nodup := by
  induction k generalizing t with
  | zero =>
    rw [scanTracksFrom]
    exact List.nodup_nil
  | succ k ih =>
    rw [scanTracksFrom, List.nodup_append]
    refine ⟨?_, ih (t + 1), ?_⟩
    · by_cases ht : t < MAX_NOTE_TRACKS
      · rw [dif_pos ht]
        exact scanTrack_nodup _ _ _ _
      · rw [dif_neg ht]
        exact List.nodup_nil
    · intro a ha hb
      by_cases ht : t < MAX_NOTE_TRACKS
      · rw [dif_pos ht] at ha
        have h1 := (scanTrack_mem_bounds _ _ _ _ a ha).1
        obtain ⟨t2, h2, -, ht2, h3⟩ := (mem_scanTracksFrom nd k (t + 1) a).mp hb
        have h4 := (scanTrack_mem_bounds _ _ _ _ a h3).1
        omega
      · rw [dif_neg ht] at ha
        exact absurd ha (List.not_mem_nil a)

theorem cell_ne_head_of_NoHoldHeads (nd : NoteData MAX_NOTE_TRACKS) (hgrid : nd.NoHoldHeads)
    (t r : Nat) : nd.cell t r ≠ TAP_HOLD_HEAD := by
  unfold cell
  by_cases ht : t < MAX_NOTE_TRACKS
  · rw [dif_pos ht]
    by_cases hr : r < (nd.m_TapNotes ⟨t, ht⟩).length
    · rw [List.getElem?_eq_getElem hr]
      intro h
      apply hgrid ⟨t, ht⟩
      have hmem := List.getElem_mem hr
      have h2 : (nd.m_TapNotes ⟨t, ht⟩)[r] = TAP_HOLD_HEAD := h
      rw [h2] at hmem
      exact hmem
    · rw [List.getElem?_eq_none (Nat.le_of_not_lt hr)]
      intro h
      exact absurd h (by decide)
  · rw [dif_neg ht]
    decide

theorem scanTracksFrom_eq_nil_of_NoHoldHeads (nd : NoteData MAX_NOTE_TRACKS)
    (hgrid : nd.NoHoldHeads) (k t : Nat) : scanTracksFrom nd k t = [] := by
  rw [List.eq_nil_iff_forall_not_mem]
  intro hn hmem
  obtain ⟨t2, -, -, ht2, h3⟩ := (mem_scanTracksFrom nd k t hn).mp hmem
  obtain ⟨e, -, -, ⟨s, -, -, hs, -⟩ | ⟨s0, hs0, -⟩⟩ := scanTrack_sound _ _ _ _ hn h3
  · exact cell_ne_head_of_NoHoldHeads nd hgrid t2 s (cell_of_getElem? nd t2 s ht2 _ hs)
  · exact Option.noConfusion hs0

theorem HoldNote_eq_of_members (a b : HoldNote) (h1 : a.m_iTrack = b.m_iTrack)
    (h2 : a.m_iStartIndex = b.m_iStartIndex) (h3 : a.m_iEndIndex = b.m_iEndIndex) : a = b := by
  cases a
  cases b
  simp only [HoldNote.mk.injEq]
  exact ⟨h1, h2, h3⟩

theorem nodup_of_HoldNotesApart (nd : NoteData MAX_NOTE_TRACKS) (hwf : nd.HoldNotesApart) :
    nd.m_HoldNotes.Nodup := by
  apply hwf.2.imp_of_mem
  intro a b ha _ hab heq
  subst heq
  have hv := hwf.1 a ha
  have := hab rfl
  omega

/-! ### Markers written, then read back -/

theorem mem_scan_of_mem_holds (nd nd1 : NoteData MAX_NOTE_TRACKS)
    (hmax : nd.m_iNumTracks ≤ (MAX_NOTE_TRACKS : Int)) (hwf : nd.HoldNotesApart)
    (hlen : ∀ hn ∈ nd.m_HoldNotes, ∀ i, hn.m_iEndIndex.toNat < (nd1.m_TapNotes i).length)
    (hin : ∀ hn ∈ nd.m_HoldNotes,
      nd1.cell hn.m_iTrack.toNat hn.m_iStartIndex.toNat = TAP_HOLD_HEAD ∧
      nd1.cell hn.m_iTrack.toNat hn.m_iEndIndex.toNat = TAP_HOLD_TAIL ∧
      ∀ r, hn.m_iStartIndex.toNat < r → r < hn.m_iEndIndex.toNat →
        nd1.cell hn.m_iTrack.toNat r = TAP_EMPTY)
    (hn : HoldNote) (hmem : hn ∈ nd.m_HoldNotes) :
    hn ∈ scanTracksFrom nd1 nd.m_iNumTracks.toNat 0 := by
  obtain ⟨v0, v1, v2, v3⟩ := hwf.1 hn hmem
  obtain ⟨c1, c2, c3⟩ := hin hn hmem
  have ht : hn.m_iTrack.toNat < MAX_NOTE_TRACKS := by omega
  have hl := hlen hn hmem ⟨hn.m_iTrack.toNat, ht⟩
  rw [mem_scanTracksFrom]
  refine ⟨hn.m_iTrack.toNat, Nat.zero_le _, by omega, ht, ?_⟩
  have key := scanTrack_complete (hn.m_iTrack.toNat : Int)
    (nd1.m_TapNotes ⟨hn.m_iTrack.toNat, ht⟩) 0 none hn.m_iStartIndex.toNat
    hn.m_iEndIndex.toNat (by omega)
    (by rw [cell_eq_of_lt nd1 _ _ ht (by omega), c1])
    (fun k hk1 hk2 => by rw [cell_eq_of_lt nd1 _ _ ht (by omega), c3 k hk1 hk2])
    (Or.inl (by rw [cell_eq_of_lt nd1 _ _ ht hl, c2]))
  have heq : (⟨(hn.m_iTrack.toNat : Int), ((0 + hn.m_iStartIndex.toNat : Nat) : Int),
      ((0 + hn.m_iEndIndex.toNat : Nat) : Int)⟩ : HoldNote) = hn := by
    apply HoldNote_eq_of_members
    · show (hn.m_iTrack.toNat : Int) = hn.m_iTrack
      omega
    · show ((0 + hn.m_iStartIndex.toNat : Nat) : Int) = hn.m_iStartIndex
      omega
    · show ((0 + hn.m_iEndIndex.toNat : Nat) : Int) = hn.m_iEndIndex
      omega
  rw [heq] at key
  exact key

theorem mem_holds_of_mem_scan (nd nd1 : NoteData MAX_NOTE_TRACKS) (hwf : nd.HoldNotesApart)
    (hgrid : nd.NoHoldHeads)
    (hout : ∀ t r, (∀ hn ∈ nd.m_HoldNotes, hn.m_iTrack.toNat = t →
        r < hn.m_iStartIndex.toNat ∨ hn.m_iEndIndex.toNat < r) →
      nd1.cell t r = nd.cell t r)
    (hin : ∀ hn ∈ nd.m_HoldNotes,
      nd1.cell hn.m_iTrack.toNat hn.m_iStartIndex.toNat = TAP_HOLD_HEAD ∧
      nd1.cell hn.m_iTrack.toNat hn.m_iEndIndex.toNat = TAP_HOLD_TAIL ∧
      ∀ r, hn.m_iStartIndex.toNat < r → r < hn.m_iEndIndex.toNat →
        nd1.cell hn.m_iTrack.toNat r = TAP_EMPTY)
    (k : Nat) (hn : HoldNote) (hmem : hn ∈ scanTracksFrom nd1 k 0) :
    hn ∈ nd.m_HoldNotes := by
  obtain ⟨t, -, -, ht, hscan⟩ := (mem_scanTracksFrom nd1 k 0 hn).mp hmem
  have htrack := (scanTrack_mem_bounds _ _ _ _ hn hscan).1
  obtain ⟨e, hend, hclose, ⟨s, hse, hstart, hhead, hbetween⟩ | ⟨s0, hs0, -⟩⟩ :=
    scanTrack_sound _ _ _ _ hn hscan
  · have chead : nd1.cell t s = TAP_HOLD_HEAD := cell_of_getElem? nd1 t s ht _ hhead
    have cbetween : ∀ r, s < r → r < e → nd1.cell t r = TAP_EMPTY :=
      fun r h1 h2 => cell_of_getElem? nd1 t r ht _ (hbetween r h1 h2)
    have cclose : nd1.cell t e = TAP_HOLD_TAIL ∨ nd1.cell t e = TAP_TAP := by
      rcases hclose with h | h
      · exact Or.inl (cell_of_getElem? nd1 t e ht _ h)
      · exact Or.inr (cell_of_getElem? nd1 t e ht _ h)
    have hex : ∃ h0 ∈ nd.m_HoldNotes, h0.m_iTrack.toNat = t ∧
        h0.m_iStartIndex.toNat ≤ s ∧ s ≤ h0.m_iEndIndex.toNat := by
      by_contra hc
      have hall : ∀ h0 ∈ nd.m_HoldNotes, h0.m_iTrack.toNat = t →
          s < h0.m_iStartIndex.toNat ∨ h0.m_iEndIndex.toNat < s := by
        intro h0 hm0 ht0
        by_contra hc2
        exact hc ⟨h0, hm0, ht0, by omega, by omega⟩
      have := hout t s hall
      rw [chead] at this
      exact cell_ne_head_of_NoHoldHeads nd hgrid t s this.symm
    obtain ⟨h0, hm0, ht0, hs1, hs2⟩ := hex
    obtain ⟨v0, v1, v2, v3⟩ := hwf.1 h0 hm0
    obtain ⟨c1, c2, c3⟩ := hin h0 hm0
    rw [ht0] at c1 c2 c3
    have hs : s = h0.m_iStartIndex.toNat := by
      by_contra hne
      by_cases hse2 : s = h0.m_iEndIndex.toNat
      · rw [hse2, c2] at chead
        exact absurd chead (by decide)
      · rw [c3 s (by omega) (by omega)] at chead
        exact absurd chead (by decide)
    have he : e = h0.m_iEndIndex.toNat := by
      by_contra hne
      by_cases hlt : h0.m_iEndIndex.toNat < e
      · have := cbetween h0.m_iEndIndex.toNat (by omega) hlt
        rw [c2] at this
        exact absurd this (by decide)
      · have := c3 e (by omega) (by omega)
        rw [this] at cclose
        rcases cclose with h | h <;> exact absurd h (by decide)
    have heq : hn = h0 := by
      apply HoldNote_eq_of_members
      · rw [htrack]
        omega
      · rw [hstart]
        omega
      · rw [hend]
        omega
    rw [heq]
    exact hm0
  · exact Option.noConfusion hs0

theorem clearScanned_of_no_head (v : List TapNote) (h : TAP_HOLD_HEAD ∉ v) :
    clearScanned v false = v := by
  induction v with
  | nil => rfl
  | cons n rest ih =>
    have hn : n ≠ TAP_HOLD_HEAD := fun e => h (by rw [e]; exact List.mem_cons_self _ _)
    have hr : TAP_HOLD_HEAD ∉ rest := fun e => h (List.mem_cons_of_mem _ e)
    cases n with
    | TAP_HOLD_HEAD => exact absurd rfl hn
    | TAP_EMPTY => show TAP_EMPTY :: clearScanned rest false = _; rw [ih hr]
    | TAP_TAP => show TAP_TAP :: clearScanned rest false = _; rw [ih hr]
    | TAP_HOLD_TAIL => show TAP_HOLD_TAIL :: clearScanned rest false = _; rw [ih hr]

theorem Convert2sAnd3sToHoldNotes_of_NoHoldHeads (nd : NoteData MAX_NOTE_TRACKS)
    (hmax : nd.m_iNumTracks ≤ (MAX_NOTE_TRACKS : Int)) (hgrid : nd.NoHoldHeads) :
    nd.Convert2sAnd3sToHoldNotes = some nd := by
  unfold Convert2sAnd3sToHoldNotes
  rw [if_pos hmax, scanTracksFrom_eq_nil_of_NoHoldHeads nd hgrid, List.append_nil]
  have hfun : (fun i : Fin MAX_NOTE_TRACKS =>
      if (i.val : Int) < nd.m_iNumTracks then clearScanned (nd.m_TapNotes i) false
      else nd.m_TapNotes i) = nd.m_TapNotes := by
    funext i
    rw [clearScanned_of_no_head _ (hgrid i), ite_self]
  rw [hfun]

/-- Claim C12, amended: in a store whose declared track count is within
`MAX_NOTE_TRACKS`, whose hold intervals are on declared tracks with `0 ≤ start < end` and
pairwise apart (on one track, one ends on a row before the row where the other starts),
and whose grid holds no begin marker, `ConvertHoldNotesTo2sAnd3s` followed by
`Convert2sAnd3sToHoldNotes` gives back the same intervals up to order.  In between, the
interval collection is empty and each interval stands in the grid as a begin marker at its
start row, an end marker at its end row and EMPTY on the rows between.  An end marker with
no begin marker is ignored: decoding a store without begin markers returns it unchanged. -/
theorem C12_markers_round_trip (nd : NoteData MAX_NOTE_TRACKS)
    (hmax : nd.m_iNumTracks ≤ (MAX_NOTE_TRACKS : Int)) (hwf : nd.HoldNotesApart)
    (hgrid : nd.NoHoldHeads) :
    (∀ nd3 : NoteData MAX_NOTE_TRACKS, nd3.m_iNumTracks ≤ (MAX_NOTE_TRACKS : Int) →
      nd3.NoHoldHeads → nd3.Convert2sAnd3sToHoldNotes = some nd3) ∧
    ∃ nd1 nd2, nd.ConvertHoldNotesTo2sAnd3s = some nd1 ∧
      nd1.Convert2sAnd3sToHoldNotes = some nd2 ∧ nd1.m_HoldNotes = [] ∧
      (∀ hn ∈ nd.m_HoldNotes,
        nd1.cell hn.m_iTrack.toNat hn.m_iStartIndex.toNat = TAP_HOLD_HEAD ∧
        nd1.cell hn.m_iTrack.toNat hn.m_iEndIndex.toNat = TAP_HOLD_TAIL ∧
        ∀ r, hn.m_iStartIndex.toNat < r → r < hn.m_iEndIndex.toNat →
          nd1.cell hn.m_iTrack.toNat r = TAP_EMPTY) ∧
      nd2.m_HoldNotes.Perm nd.m_HoldNotes := by
  refine ⟨fun nd3 h3 g3 => Convert2sAnd3sToHoldNotes_of_NoHoldHeads nd3 h3 g3, ?_⟩
  obtain ⟨ndL, e1, n1, -, -, hlen, hout, hin⟩ :=
    HoldNotesTo2sAnd3s_spec nd.m_HoldNotes nd
      (fun hn hm => by
        obtain ⟨v0, v1, v2, v3⟩ := hwf.1 hn hm
        exact ⟨v0, by omega, v2, v3⟩) hwf.2
  have hdec : Convert2sAnd3sToHoldNotes { ndL with m_HoldNotes := [] } =
      some
        { ndL with
          m_TapNotes := fun i =>
            if (i.val : Int) < ndL.m_iNumTracks then clearScanned (ndL.m_TapNotes i) false
            else ndL.m_TapNotes i
          m_HoldNotes := [] ++ scanTracksFrom { ndL with m_HoldNotes := [] }
            ndL.m_iNumTracks.toNat 0 } := by
    unfold Convert2sAnd3sToHoldNotes
    rw [if_pos (show ndL.m_iNumTracks ≤ (MAX_NOTE_TRACKS : Int) by rw [n1]; exact hmax)]
  refine ⟨{ ndL with m_HoldNotes := [] }, _, ?_, hdec, rfl, hin, ?_⟩
  · unfold ConvertHoldNotesTo2sAnd3s
    rw [e1]
  · show ([] ++ scanTracksFrom { ndL with m_HoldNotes := [] } ndL.m_iNumTracks.toNat 0).Perm
      nd.m_HoldNotes
    have hk : ndL.m_iNumTracks.toNat = nd.m_iNumTracks.toNat := by rw [n1]
    rw [List.nil_append, hk]
    rw [List.perm_ext_iff_of_nodup (scanTracksFrom_nodup _ _ _) (nodup_of_HoldNotesApart nd hwf)]
    intro hn
    constructor
    · intro hmem
      exact mem_holds_of_mem_scan nd { ndL with m_HoldNotes := [] } hwf hgrid hout hin _ hn hmem
    · intro hmem
      exact mem_scan_of_mem_holds nd { ndL with m_HoldNotes := [] } hmax hwf hlen hin hn hmem

/-- The store with the interval {track 0, start 4, end 10} and a second one on rows 12 to
14 meets the hypotheses of C12: it encodes to a begin marker at row 4 and an end marker at
row 10 of track 0 with rows 5 to 9 EMPTY (the tap at row 6 is gone), and decoding gives
back both intervals; an end marker without a begin marker is ignored. -/
theorem C12_markers_round_trip_witness :
    (holdStore.m_iNumTracks ≤ ((2 : Nat) : Int) ∧ holdStore.HoldNotesApart ∧
      holdStore.NoHoldHeads) ∧
    ((∀ nd3 : NoteData 2, nd3.m_iNumTracks ≤ ((2 : Nat) : Int) →
      nd3.NoHoldHeads → nd3.Convert2sAnd3sToHoldNotes = some nd3) ∧
    ∃ nd1 nd2, holdStore.ConvertHoldNotesTo2sAnd3s = some nd1 ∧
      nd1.Convert2sAnd3sToHoldNotes = some nd2 ∧ nd1.m_HoldNotes = [] ∧
      (∀ hn ∈ holdStore.m_HoldNotes,
        nd1.cell hn.m_iTrack.toNat hn.m_iStartIndex.toNat = TAP_HOLD_HEAD ∧
        nd1.cell hn.m_iTrack.toNat hn.m_iEndIndex.toNat = TAP_HOLD_TAIL ∧
        ∀ r, hn.m_iStartIndex.toNat < r → r < hn.m_iEndIndex.toNat →
          nd1.cell hn.m_iTrack.toNat r = TAP_EMPTY) ∧
      nd2.m_HoldNotes.Perm holdStore.m_HoldNotes) ∧
    (holdStore.ConvertHoldNotesTo2sAnd3s.bind fun nd1 => nd1.GetTapNote 0 4) =
      some TAP_HOLD_HEAD ∧
    (holdStore.ConvertHoldNotesTo2sAnd3s.bind fun nd1 => nd1.GetTapNote 0 6) =
      some TAP_EMPTY ∧
    (holdStore.ConvertHoldNotesTo2sAnd3s.bind fun nd1 => nd1.GetTapNote 0 10) =
      some TAP_HOLD_TAIL ∧
    ((holdStore.ConvertHoldNotesTo2sAnd3s.bind Convert2sAnd3sToHoldNotes).map
      fun nd2 => nd2.m_HoldNotes) = some [⟨0, 4, 10⟩, ⟨0, 12, 14⟩] ∧
    strayTailStore.Convert2sAnd3sToHoldNotes = some strayTailStore :=
  ⟨⟨by decide, by decide, by decide⟩,
    C12_markers_round_trip holdStore (by decide) (by decide) (by decide),
    by decide, by decide, by decide, by decide,
    Convert2sAnd3sToHoldNotes_of_NoHoldHeads strayTailStore (by decide) (by decide)⟩

/-- Claim C12 as stated fails on two stores.  The intervals {track 0, start 4, end 10} and
{track 0, start 10, end 15} do not overlap (their spans [4, 10) and [10, 15) share no row)
and each has start < end, but both markers of row 10 cannot stand in one place: after
encoding and decoding only {track 0, start 10, end 15} is left.  And a store with no
interval at all whose grid holds a begin marker followed by an end marker comes back from
the round trip with the interval {track 0, start 0, end 1}. -/
theorem C12_round_trip_counterexample :
    (touchingStore.NoOverlap ∧
      (∀ hn ∈ touchingStore.m_HoldNotes, 0 ≤ hn.m_iTrack ∧
        hn.m_iTrack < touchingStore.m_iNumTracks ∧ 0 ≤ hn.m_iStartIndex ∧
        hn.m_iStartIndex < hn.m_iEndIndex) ∧
      touchingStore.NoHoldHeads ∧
      touchingStore.m_HoldNotes = [⟨0, 4, 10⟩, ⟨0, 10, 15⟩] ∧
      ∃ nd1 nd2, touchingStore.ConvertHoldNotesTo2sAnd3s = some nd1 ∧
        nd1.Convert2sAnd3sToHoldNotes = some nd2 ∧ nd2.m_HoldNotes = [⟨0, 10, 15⟩] ∧
        ¬ nd2.m_HoldNotes.Perm touchingStore.m_HoldNotes) ∧
    (markerStore.NoOverlap ∧ markerStore.m_HoldNotes = [] ∧
      ∃ nd1 nd2, markerStore.ConvertHoldNotesTo2sAnd3s = some nd1 ∧
        nd1.Convert2sAnd3sToHoldNotes = some nd2 ∧ nd2.m_HoldNotes = [⟨0, 0, 1⟩] ∧
        ¬ nd2.m_HoldNotes.Perm markerStore.m_HoldNotes) :=
  ⟨⟨by decide, by decide, by decide, rfl, _, _, rfl, rfl, by decide,
      fun h => absurd h.length_eq (by decide)⟩,
    by decide, rfl, _, _, rfl, rfl, by decide, fun h => absurd h.length_eq (by decide)⟩

/-! ## The row queries read the queried row of the declared tracks only -/

theorem IsRowEmptyFrom_congr (nd1 nd2 : NoteData MAX_NOTE_TRACKS) (index : Int) (k t : Nat)
    (h : ∀ i, t ≤ i → i < t + k → nd1.GetTapNote i index = nd2.GetTapNote i index) :
    IsRowEmptyFrom nd1 index k t = IsRowEmptyFrom nd2 index k t := by
  induction k generalizing t with
  | zero => rfl
  | succ k ih =>
    rw [IsRowEmptyFrom, IsRowEmptyFrom, ← h t (Nat.le_refl t) (by omega)]
    cases nd1.GetTapNote t index with
    | none => rfl
    | some n =>
      by_cases hp : n ≠ TAP_EMPTY
      · simp only [if_pos hp]
      · simp only [if_neg hp]
        exact ih (t + 1) (fun i h1 h2 => h i (by omega) (by omega))

theorem GetNumTapNonEmptyTracksFrom_congr (nd1 nd2 : NoteData MAX_NOTE_TRACKS) (index : Int) (k t : Nat) (iNum : Int)
    (h : ∀ i, t ≤ i → i < t + k → nd1.GetTapNote i index = nd2.GetTapNote i index) :
    GetNumTapNonEmptyTracksFrom nd1 index k t iNum = GetNumTapNonEmptyTracksFrom nd2 index k t iNum := by
  induction k generalizing t iNum with
  | zero => rfl
  | succ k ih =>
    rw [GetNumTapNonEmptyTracksFrom, GetNumTapNonEmptyTracksFrom, ← h t (Nat.le_refl t) (by omega)]
    cases nd1.GetTapNote t index with
    | none => rfl
    | some n =>
      by_cases hp : n ≠ TAP_EMPTY
      · simp only [if_pos hp]
        exact ih (t + 1) (iNum + 1) (fun i h1 h2 => h i (by omega) (by omega))
      · simp only [if_neg hp]
        exact ih (t + 1) iNum (fun i h1 h2 => h i (by omega) (by omega))

theorem GetFirstNonEmptyTrackFrom_congr (nd1 nd2 : NoteData MAX_NOTE_TRACKS) (index : Int) (k t : Nat)
    (h : ∀ i, t ≤ i → i < t + k → nd1.GetTapNote i index = nd2.GetTapNote i index) :
    GetFirstNonEmptyTrackFrom nd1 index k t = GetFirstNonEmptyTrackFrom nd2 index k t := by
  induction k generalizing t with
  | zero => rfl
  | succ k ih =>
    rw [GetFirstNonEmptyTrackFrom, GetFirstNonEmptyTrackFrom, ← h t (Nat.le_refl t) (by omega)]
    cases nd1.GetTapNote t index with
    | none => rfl
    | some n =>
      by_cases hp : n ≠ TAP_EMPTY
      · simp only [if_pos hp]
      · simp only [if_neg hp]
        exact ih (t + 1) (fun i h1 h2 => h i (by omega) (by omega))

theorem GetNumTracksWithTapFrom_congr (nd1 nd2 : NoteData MAX_NOTE_TRACKS) (index : Int) (k t : Nat) (iNum : Int)
    (h : ∀ i, t ≤ i → i < t + k → nd1.GetTapNote i index = nd2.GetTapNote i index) :
    GetNumTracksWithTapFrom nd1 index k t iNum = GetNumTracksWithTapFrom nd2 index k t iNum := by
  induction k generalizing t iNum with
  | zero => rfl
  | succ k ih =>
    rw [GetNumTracksWithTapFrom, GetNumTracksWithTapFrom, ← h t (Nat.le_refl t) (by omega)]
    cases nd1.GetTapNote t index with
    | none => rfl
    | some n =>
      by_cases hp : n = TAP_TAP
      · simp only [if_pos hp]
        exact ih (t + 1) (iNum + 1) (fun i h1 h2 => h i (by omega) (by omega))
      · simp only [if_neg hp]
        exact ih (t + 1) iNum (fun i h1 h2 => h i (by omega) (by omega))

theorem GetFirstTrackWithTapFrom_congr (nd1 nd2 : NoteData MAX_NOTE_TRACKS) (index : Int) (k t : Nat)
    (h : ∀ i, t ≤ i → i < t + k → nd1.GetTapNote i index = nd2.GetTapNote i index) :
    GetFirstTrackWithTapFrom nd1 index k t = GetFirstTrackWithTapFrom nd2 index k t := by
  induction k generalizing t with
  | zero => rfl
  | succ k ih =>
    rw [GetFirstTrackWithTapFrom, GetFirstTrackWithTapFrom, ← h t (Nat.le_refl t) (by omega)]
    cases nd1.GetTapNote t index with
    | none => rfl
    | some n =>
      by_cases hp : n = TAP_TAP
      · simp only [if_pos hp]
      · simp only [if_neg hp]
        exact ih (t + 1) (fun i h1 h2 => h i (by omega) (by omega))

/-- C13: for any two stores with the same declared track count whose `GetTapNote(t, row)`
agree for every track `t` below that count, each of `IsRowEmpty`,
`GetNumTapNonEmptyTracks`, `GetFirstNonEmptyTrack`, `GetNumTracksWithTap` and
`GetFirstTrackWithTap` returns the same result at that row in both stores, whatever the
other rows, the tracks at or above the count and the hold-note collections hold. -/
theorem C13_row_queries_depend_on_row_only (nd1 nd2 : NoteData MAX_NOTE_TRACKS) (row : Int)
    (hnum : nd1.GetNumTracks = nd2.GetNumTracks)
    (hrow : ∀ t : Nat, (t : Int) < nd1.GetNumTracks →
      nd1.GetTapNote t row = nd2.GetTapNote t row) :
    nd1.IsRowEmpty row = nd2.IsRowEmpty row ∧
      nd1.GetNumTapNonEmptyTracks row = nd2.GetNumTapNonEmptyTracks row ∧
      nd1.GetFirstNonEmptyTrack row = nd2.GetFirstNonEmptyTrack row ∧
      nd1.GetNumTracksWithTap row = nd2.GetNumTracksWithTap row ∧
      nd1.GetFirstTrackWithTap row = nd2.GetFirstTrackWithTap row := by
  unfold GetNumTracks at hnum hrow
  have h : ∀ i, 0 ≤ i → i < 0 + nd1.m_iNumTracks.toNat →
      nd1.GetTapNote i row = nd2.GetTapNote i row :=
    fun i _ hi => hrow i (by omega)
  unfold IsRowEmpty GetNumTapNonEmptyTracks GetFirstNonEmptyTrack GetNumTracksWithTap
    GetFirstTrackWithTap
  rw [← hnum]
  exact ⟨IsRowEmptyFrom_congr nd1 nd2 row _ 0 h,
    GetNumTapNonEmptyTracksFrom_congr nd1 nd2 row _ 0 0 h,
    GetFirstNonEmptyTrackFrom_congr nd1 nd2 row _ 0 h,
    GetNumTracksWithTapFrom_congr nd1 nd2 row _ 0 0 h,
    GetFirstTrackWithTapFrom_congr nd1 nd2 row _ 0 h⟩

/-- Witness of C13: `sampleStore` and `sampleStoreVariant` differ in rows 1 and 2, in
track 2 and in their hold notes, and agree in row 0 of the two declared tracks. -/
theorem C13_row_queries_depend_on_row_only_witness :
    sampleStore.m_HoldNotes ≠ sampleStoreVariant.m_HoldNotes ∧
      sampleStore.GetTapNote 2 0 ≠ sampleStoreVariant.GetTapNote 2 0 ∧
      sampleStore.GetTapNote 0 1 ≠ sampleStoreVariant.GetTapNote 0 1 ∧
      (sampleStore.IsRowEmpty 0 = sampleStoreVariant.IsRowEmpty 0 ∧
        sampleStore.GetNumTapNonEmptyTracks 0 = sampleStoreVariant.GetNumTapNonEmptyTracks 0 ∧
        sampleStore.GetFirstNonEmptyTrack 0 = sampleStoreVariant.GetFirstNonEmptyTrack 0 ∧
        sampleStore.GetNumTracksWithTap 0 = sampleStoreVariant.GetNumTracksWithTap 0 ∧
        sampleStore.GetFirstTrackWithTap 0 = sampleStoreVariant.GetFirstTrackWithTap 0) :=
  ⟨by decide, by decide, by decide,
    C13_row_queries_depend_on_row_only sampleStore sampleStoreVariant 0 rfl (by
      intro t ht
      have h2 : t < 2 := by
        have : sampleStore.GetNumTracks = 2 := rfl
        omega
      interval_cases t <;> decide)⟩

/-! ## Relations between the row queries -/

theorem GetNumTapNonEmptyTracksFrom_ge (nd : NoteData MAX_NOTE_TRACKS) (index : Int)
    (k t : Nat) (iNum v : Int)
    (h : GetNumTapNonEmptyTracksFrom nd index k t iNum = some v) : iNum ≤ v := by
  induction k generalizing t iNum with
  | zero =>
    rw [GetNumTapNonEmptyTracksFrom] at h
    exact le_of_eq (Option.some.inj h)
  | succ k ih =>
    rw [GetNumTapNonEmptyTracksFrom] at h
    cases hg : nd.GetTapNote t index with
    | none =>
      rw [hg] at h
      exact Option.noConfusion h
    | some n =>
      rw [hg] at h
      by_cases hp : n ≠ TAP_EMPTY
      · simp only [if_pos hp] at h
        have := ih (t + 1) (iNum + 1) h
        omega
      · simp only [if_neg hp] at h
        exact ih (t + 1) iNum h

theorem GetNumTracksWithTapFrom_ge (nd : NoteData MAX_NOTE_TRACKS) (index : Int)
    (k t : Nat) (iNum v : Int)
    (h : GetNumTracksWithTapFrom nd index k t iNum = some v) : iNum ≤ v := by
  induction k generalizing t iNum with
  | zero =>
    rw [GetNumTracksWithTapFrom] at h
    exact le_of_eq (Option.some.inj h)
  | succ k ih =>
    rw [GetNumTracksWithTapFrom] at h
    cases hg : nd.GetTapNote t index with
    | none =>
      rw [hg] at h
      exact Option.noConfusion h
    | some n =>
      rw [hg] at h
      by_cases hp : n = TAP_TAP
      · simp only [if_pos hp] at h
        have := ih (t + 1) (iNum + 1) h
        omega
      · simp only [if_neg hp] at h
        exact ih (t + 1) iNum h

theorem GetNumTapNonEmptyTracksFrom_eq_self_iff (nd : NoteData MAX_NOTE_TRACKS) (index : Int)
    (k t : Nat) (iNum : Int) :
    GetNumTapNonEmptyTracksFrom nd index k t iNum = some iNum ↔
      ∀ i, t ≤ i → i < t + k → nd.GetTapNote i index = some TAP_EMPTY := by
  induction k generalizing t with
  | zero =>
    rw [GetNumTapNonEmptyTracksFrom]
    constructor
    · intro _ i h1 h2
      omega
    · intro _
      rfl
  | succ k ih =>
    rw [GetNumTapNonEmptyTracksFrom]
    cases hg : nd.GetTapNote t index with
    | none =>
      constructor
      · intro h
        exact Option.noConfusion h
      · intro h
        have := h t (Nat.le_refl t) (by omega)
        rw [hg] at this
        exact Option.noConfusion this
    | some n =>
      by_cases hp : n ≠ TAP_EMPTY
      · simp only [if_pos hp]
        constructor
        · intro h
          have := GetNumTapNonEmptyTracksFrom_ge nd index k (t + 1) (iNum + 1) iNum h
          omega
        · intro h
          have := h t (Nat.le_refl t) (by omega)
          rw [hg] at this
          exact absurd (Option.some.inj this) hp
      · simp only [if_neg hp]
        rw [ih (t + 1)]
        constructor
        · intro h i h1 h2
          rcases Nat.eq_or_lt_of_le h1 with h3 | h3
          · rw [← h3, hg, not_not.mp hp]
          · exact h i h3 (by omega)
        · intro h i h1 h2
          exact h i (by omega) (by omega)

theorem GetNumTracksWithTapFrom_eq_self_iff (nd : NoteData MAX_NOTE_TRACKS) (index : Int)
    (k t : Nat) (iNum : Int) :
    GetNumTracksWithTapFrom nd index k t iNum = some iNum ↔
      ∀ i, t ≤ i → i < t + k → ∃ n, nd.GetTapNote i index = some n ∧ ¬ n = TAP_TAP := by
  induction k generalizing t with
  | zero =>
    rw [GetNumTracksWithTapFrom]
    constructor
    · intro _ i h1 h2
      omega
    · intro _
      rfl
  | succ k ih =>
    rw [GetNumTracksWithTapFrom]
    cases hg : nd.GetTapNote t index with
    | none =>
      constructor
      · intro h
        exact Option.noConfusion h
      · intro h
        obtain ⟨m, hm, -⟩ := h t (Nat.le_refl t) (by omega)
        rw [hg] at hm
        exact Option.noConfusion hm
    | some n =>
      by_cases hp : n = TAP_TAP
      · simp only [if_pos hp]
        constructor
        · intro h
          have := GetNumTracksWithTapFrom_ge nd index k (t + 1) (iNum + 1) iNum h
          omega
        · intro h
          obtain ⟨m, hm, hmp⟩ := h t (Nat.le_refl t) (by omega)
          rw [hg] at hm
          have := Option.some.inj hm
          subst this
          exact absurd hp hmp
      · simp only [if_neg hp]
        rw [ih (t + 1)]
        constructor
        · intro h i h1 h2
          rcases Nat.eq_or_lt_of_le h1 with h3 | h3
          · rw [← h3]
            exact ⟨n, hg, hp⟩
          · exact h i h3 (by omega)
        · intro h i h1 h2
          exact h i (by omega) (by omega)

theorem GetNumTapNonEmptyTracks_eq_zero_iff (nd : NoteData MAX_NOTE_TRACKS) (row : Int) :
    nd.GetNumTapNonEmptyTracks row = some 0 ↔
      ∀ t : Nat, (t : Int) < nd.GetNumTracks → nd.GetTapNote t row = some TAP_EMPTY := by
  unfold GetNumTapNonEmptyTracks GetNumTracks
  rw [GetNumTapNonEmptyTracksFrom_eq_self_iff]
  constructor
  · intro h t ht
    exact h t (Nat.zero_le t) (by omega)
  · intro h i _ hi
    exact h i (by omega)

theorem GetFirstNonEmptyTrack_eq_neg_one_iff (nd : NoteData MAX_NOTE_TRACKS) (row : Int) :
    nd.GetFirstNonEmptyTrack row = some (-1) ↔
      ∀ t : Nat, (t : Int) < nd.GetNumTracks → nd.GetTapNote t row = some TAP_EMPTY := by
  unfold GetFirstNonEmptyTrack GetNumTracks
  rw [GetFirstNonEmptyTrackFrom_eq_neg_one_iff]
  constructor
  · intro h t ht
    obtain ⟨n, hn, hne⟩ := h t (Nat.zero_le t) (by omega)
    rw [hn, not_not.mp hne]
  · intro h i _ hi
    exact ⟨TAP_EMPTY, h i (by omega), by simp⟩

/-- C14: for every store and every row, `IsRowEmpty(row)` is true iff
`GetNumTapNonEmptyTracks(row)` is 0 iff `GetFirstNonEmptyTrack(row)` is -1; and
`GetNumTracksWithTap(row)` is 0 iff `GetFirstTrackWithTap(row)` is -1. -/
theorem C14_emptiness_views_agree (nd : NoteData MAX_NOTE_TRACKS) (row : Int) :
    (nd.IsRowEmpty row = some true ↔ nd.GetNumTapNonEmptyTracks row = some 0) ∧
      (nd.GetNumTapNonEmptyTracks row = some 0 ↔ nd.GetFirstNonEmptyTrack row = some (-1)) ∧
      (nd.IsRowEmpty row = some true ↔ nd.GetFirstNonEmptyTrack row = some (-1)) ∧
      (nd.GetNumTracksWithTap row = some 0 ↔ nd.GetFirstTrackWithTap row = some (-1)) := by
  refine ⟨?_, ?_, ?_, ?_⟩
  · rw [IsRowEmpty_eq_true_iff, GetNumTapNonEmptyTracks_eq_zero_iff]
  · rw [GetNumTapNonEmptyTracks_eq_zero_iff, GetFirstNonEmptyTrack_eq_neg_one_iff]
  · rw [IsRowEmpty_eq_true_iff, GetFirstNonEmptyTrack_eq_neg_one_iff]
  · unfold GetNumTracksWithTap GetFirstTrackWithTap
    rw [GetNumTracksWithTapFrom_eq_self_iff, GetFirstTrackWithTapFrom_eq_neg_one_iff]

/-- Witness of C14: row 1 of the sample store is empty in all three views and has no tap
in both; row 2 holds a hold-end marker only, so it is non-empty but has no tap. -/
theorem C14_emptiness_views_agree_witness :
    (sampleStore.IsRowEmpty 1 = some true ∧ sampleStore.GetNumTapNonEmptyTracks 1 = some 0 ∧
        sampleStore.GetFirstNonEmptyTrack 1 = some (-1)) ∧
      (sampleStore.GetNumTapNonEmptyTracks 2 = some 1 ∧
        sampleStore.GetNumTracksWithTap 2 = some 0 ∧
        sampleStore.GetFirstTrackWithTap 2 = some (-1)) :=
  ⟨⟨by decide, (C14_emptiness_views_agree sampleStore 1).1.mp (by decide),
      (C14_emptiness_views_agree sampleStore 1).2.2.1.mp (by decide)⟩,
    by decide, by decide, (C14_emptiness_views_agree sampleStore 2).2.2.2.mp (by decide)⟩

theorem GetFirstNonEmptyTrackFrom_le_of (nd : NoteData MAX_NOTE_TRACKS) (index : Int)
    (k t i : Nat) (n : TapNote) (h1 : t ≤ i) (h2 : i < t + k)
    (hi : nd.GetTapNote i index = some n) (hn : n ≠ TAP_EMPTY) :
    ∃ g : Nat, GetFirstNonEmptyTrackFrom nd index k t = some (g : Int) ∧ t ≤ g ∧ g ≤ i := by
  induction k generalizing t with
  | zero => omega
  | succ k ih =>
    rw [GetFirstNonEmptyTrackFrom]
    have hlt : t < MAX_NOTE_TRACKS := Nat.lt_of_le_of_lt h1 (nd.lt_of_GetTapNote_eq_some hi)
    obtain ⟨m, hm⟩ := nd.GetTapNote_isSome hlt index
    rw [hm]
    by_cases hme : m ≠ TAP_EMPTY
    · simp only [if_pos hme]
      exact ⟨t, rfl, Nat.le_refl t, h1⟩
    · simp only [if_neg hme]
      rcases Nat.eq_or_lt_of_le h1 with h3 | h3
      · subst h3
        rw [hm] at hi
        have := Option.some.inj hi
        subst this
        exact absurd hn hme
      · obtain ⟨g, hg1, hg2, hg3⟩ := ih (t + 1) h3 (by omega)
        exact ⟨g, hg1, by omega, hg3⟩

/-- C15: for every store with `0 <= numTracks <= MAX_NOTE_TRACKS` and every row, the two
counts exist and `0 <= GetNumTracksWithTap(row) <= GetNumTapNonEmptyTracks(row) <=
GetNumTracks()`; and (for any track count) whenever `GetFirstTrackWithTap(row)` returns a
value other than -1, `GetFirstNonEmptyTrack(row)` returns a value other than -1 with
`GetFirstNonEmptyTrack(row) <= GetFirstTrackWithTap(row) < GetNumTracks()`. -/
theorem C15_counts_and_first_indices_ordered (nd : NoteData MAX_NOTE_TRACKS) (row : Int)
    (h0 : 0 ≤ nd.GetNumTracks) (hmax : nd.GetNumTracks ≤ (MAX_NOTE_TRACKS : Int)) :
    (∃ a b : Int, nd.GetNumTracksWithTap row = some a ∧
        nd.GetNumTapNonEmptyTracks row = some b ∧ 0 ≤ a ∧ a ≤ b ∧ b ≤ nd.GetNumTracks) ∧
      ∀ f : Int, nd.GetFirstTrackWithTap row = some f → f ≠ -1 →
        ∃ g : Int, nd.GetFirstNonEmptyTrack row = some g ∧ g ≠ -1 ∧ 0 ≤ g ∧ g ≤ f ∧
          f < nd.GetNumTracks := by
  unfold GetNumTracks at h0 hmax ⊢
  refine ⟨?_, ?_⟩
  · refine ⟨_, _, GetNumTracksWithTapFrom_eq nd row _ 0 0 (by omega),
      GetNumTapNonEmptyTracksFrom_eq nd row _ 0 0 (by omega), ?_, ?_, ?_⟩
    · simp
    · simp only [zero_add, Nat.cast_le]
      apply List.countP_mono_left
      intro t _ ht
      simp only [decide_eq_true_eq] at ht ⊢
      rw [ht]
      decide
    · simp only [zero_add]
      have h := List.countP_le_length (fun i => decide (nd.GetTapNote i row ≠ some TAP_EMPTY))
        (l := List.range' 0 nd.m_iNumTracks.toNat)
      rw [List.length_range'] at h
      omega
  · intro f hf hne
    unfold GetFirstTrackWithTap at hf
    unfold GetFirstNonEmptyTrack
    rcases GetFirstTrackWithTapFrom_range nd row _ 0 f hf with h | ⟨r, h1, -, h3⟩
    · exact absurd h hne
    · subst h1
      obtain ⟨-, -, ⟨n, hn, hp⟩, -⟩ :=
        (GetFirstTrackWithTapFrom_eq_index_iff nd row _ 0 r).mp hf
      subst hp
      obtain ⟨g, hg1, -, hg3⟩ := GetFirstNonEmptyTrackFrom_le_of nd row _ 0 r TAP_TAP
        (Nat.zero_le r) h3 hn (by decide)
      exact ⟨(g : Int), hg1, by omega, by omega, by omega, by omega⟩

/-- Witness of C15: at row 0 of the sample store one track holds a tap, two tracks are
non-empty and two are declared; the first track with a tap is track 0, and so is the
first non-empty track. -/
theorem C15_counts_and_first_indices_ordered_witness :
    (∃ a b : Int, sampleStore.GetNumTracksWithTap 0 = some a ∧
        sampleStore.GetNumTapNonEmptyTracks 0 = some b ∧ 0 ≤ a ∧ a ≤ b ∧
        b ≤ sampleStore.GetNumTracks) ∧
      ∃ g : Int, sampleStore.GetFirstNonEmptyTrack 0 = some g ∧ g ≠ -1 ∧ 0 ≤ g ∧ g ≤ 0 ∧
        (0 : Int) < sampleStore.GetNumTracks :=
  ⟨(C15_counts_and_first_indices_ordered sampleStore 0 (by decide) (by decide)).1,
    (C15_counts_and_first_indices_ordered sampleStore 0 (by decide) (by decide)).2 0
      (by decide) (by decide)⟩

end NoteData

/-! ## `ImportOptions` and `ExportOptions` -/

namespace ScreenPlayerOptions

open EffectType

theorem ImportOptionsFrom_apply (options : Nat → PlayerOptions) (k p : Nat)
    (table : Nat → Nat → Int) (q : Nat) :
    ImportOptionsFrom options k p table q =
      if p ≤ q ∧ q < p + k then ImportOptionsPlayer (options q) (table q) else table q := by
  induction k generalizing p table with
  | zero =>
    rw [ImportOptionsFrom, if_neg (by omega)]
  | succ k ih =>
    rw [ImportOptionsFrom, ih]
    by_cases hq : q = p
    · subst hq
      rw [if_neg (show ¬ (q + 1 ≤ q ∧ q < q + 1 + k) by omega),
        if_pos (show q ≤ q ∧ q < q + (k + 1) by omega), if_pos rfl]
    · by_cases h : p + 1 ≤ q ∧ q < p + 1 + k
      · rw [if_pos h, if_pos (show p ≤ q ∧ q < p + (k + 1) by omega), if_neg hq]
      · rw [if_neg h, if_neg (show ¬ (p ≤ q ∧ q < p + (k + 1)) by omega), if_neg hq]

theorem ExportOptionsFrom_apply (table : Nat → Nat → Int) (k p : Nat)
    (options : Nat → PlayerOptions) (q : Nat) :
    ExportOptionsFrom table k p options q =
      if p ≤ q ∧ q < p + k then ExportOptionsPlayer (table q) (options q) else options q := by
  induction k generalizing p options with
  | zero =>
    rw [ExportOptionsFrom, if_neg (by omega)]
  | succ k ih =>
    rw [ExportOptionsFrom, ih]
    by_cases hq : q = p
    · subst hq
      rw [if_neg (show ¬ (q + 1 ≤ q ∧ q < q + 1 + k) by omega),
        if_pos (show q ≤ q ∧ q < q + (k + 1) by omega), if_pos rfl]
    · by_cases h : p + 1 ≤ q ∧ q < p + 1 + k
      · rw [if_pos h, if_pos (show p ≤ q ∧ q < p + (k + 1) by omega), if_neg hq]
      · rw [if_neg h, if_neg (show ¬ (p ≤ q ∧ q < p + (k + 1)) by omega), if_neg hq]

theorem ImportOptions_apply (NUM_PLAYERS : Nat) (options : Nat → PlayerOptions)
    (table : Nat → Nat → Int) (q : Nat) :
    ImportOptions NUM_PLAYERS options table q =
      if q < NUM_PLAYERS then ImportOptionsPlayer (options q) (table q) else table q := by
  unfold ImportOptions
  rw [ImportOptionsFrom_apply]
  by_cases h : q < NUM_PLAYERS
  · rw [if_pos h, if_pos (show 0 ≤ q ∧ q < 0 + NUM_PLAYERS by omega)]
  · rw [if_neg h, if_neg (show ¬ (0 ≤ q ∧ q < 0 + NUM_PLAYERS) by omega)]

theorem ExportOptions_apply (NUM_PLAYERS : Nat) (table : Nat → Nat → Int)
    (options : Nat → PlayerOptions) (q : Nat) :
    ExportOptions NUM_PLAYERS table options q =
      if q < NUM_PLAYERS then ExportOptionsPlayer (table q) (options q) else options q := by
  unfold ExportOptions
  rw [ExportOptionsFrom_apply]
  by_cases h : q < NUM_PLAYERS
  · rw [if_pos h, if_pos (show 0 ≤ q ∧ q < 0 + NUM_PLAYERS by omega)]
  · rw [if_neg h, if_neg (show ¬ (0 ≤ q ∧ q < 0 + NUM_PLAYERS) by omega)]

/-! ### What `ImportOptionsPlayer` leaves in each line -/

theorem setLine_same (s : Nat → Int) (l : Nat) (v : Int) : setLine s l v l = v := by
  unfold setLine
  rw [if_pos rfl]

theorem setLine_other (s : Nat → Int) (l l2 : Nat) (v : Int) (h : l2 ≠ l) :
    setLine s l v l2 = s l2 := by
  unfold setLine
  rw [if_neg h]

theorem ite_apply_eq {c : Prop} [Decidable c] (f g : Nat → Int) (l : Nat) (v : Int)
    (hf : f l = v) (hg : g l = v) : (if c then f else g) l = v := by
  by_cases h : c
  · rw [if_pos h]
    exact hf
  · rw [if_neg h]
    exact hg

theorem ite_apply_congr {c : Prop} [Decidable c] (f g : Nat → Int) (l : Nat) (a b : Int)
    (hf : f l = a) (hg : g l = b) : (if c then f else g) l = if c then a else b := by
  by_cases h : c
  · rw [if_pos h, if_pos h]
    exact hf
  · rw [if_neg h, if_neg h]
    exact hg

theorem ImportSpeed_speed (po : PlayerOptions) (sel : Nat → Int) :
    ImportSpeed po sel PO_SPEED =
      if po.m_fArrowScrollSpeed = 0.5 then 0
      else if po.m_fArrowScrollSpeed = 0.75 then 1
      else if po.m_fArrowScrollSpeed = 1.0 then 2
      else if po.m_fArrowScrollSpeed = 1.5 then 3
      else if po.m_fArrowScrollSpeed = 2.0 then 4
      else if po.m_fArrowScrollSpeed = 3.0 then 5
      else if po.m_fArrowScrollSpeed = 4.0 then 6
      else if po.m_fArrowScrollSpeed = 5.0 then 7
      else if po.m_fArrowScrollSpeed = 8.0 then 8
      else 2 := by
  unfold ImportSpeed
  repeat' apply ite_apply_congr
  all_goals exact setLine_same _ _ _

theorem ImportSpeed_other (po : PlayerOptions) (sel : Nat → Int) (line : Nat)
    (h : line ≠ PO_SPEED) : ImportSpeed po sel line = sel line := by
  unfold ImportSpeed
  repeat' apply ite_apply_eq
  all_goals exact setLine_other _ _ _ _ h

theorem ImportEffect_effect (po : PlayerOptions) (sel : Nat → Int) :
    ImportEffect po sel PO_EFFECT =
      match po.m_EffectType with
      | EFFECT_NONE => 0
      | EFFECT_BOOST => 1
      | EFFECT_WAVE => 2
      | EFFECT_DRUNK => 3
      | EFFECT_DIZZY => 4
      | EFFECT_SPACE => 5
      | EFFECT_MINI => 6
      | EFFECT_OTHER _ => sel PO_EFFECT := by
  unfold ImportEffect
  cases po.m_EffectType <;> rfl

theorem ImportEffect_other (po : PlayerOptions) (sel : Nat → Int) (line : Nat)
    (h : line ≠ PO_EFFECT) : ImportEffect po sel line = sel line := by
  unfold ImportEffect
  cases po.m_EffectType <;> first | rfl | exact setLine_other _ _ _ _ h

theorem ImportOptionsPlayer_speed (po : PlayerOptions) (sel : Nat → Int) :
    ImportOptionsPlayer po sel PO_SPEED = ImportSpeed po sel PO_SPEED := by
  unfold ImportOptionsPlayer
  rw [setLine_other _ _ _ _ (by decide), setLine_other _ _ _ _ (by decide),
    setLine_other _ _ _ _ (by decide), setLine_other _ _ _ _ (by decide),
    setLine_other _ _ _ _ (by decide), setLine_other _ _ _ _ (by decide),
    setLine_other _ _ _ _ (by decide), ImportEffect_other _ _ _ (by decide)]

theorem ImportOptionsPlayer_effect (po : PlayerOptions) (sel : Nat → Int) :
    ImportOptionsPlayer po sel PO_EFFECT =
      ImportEffect po (ImportSpeed po sel) PO_EFFECT := by
  unfold ImportOptionsPlayer
  rw [setLine_other _ _ _ _ (by decide), setLine_other _ _ _ _ (by decide),
    setLine_other _ _ _ _ (by decide), setLine_other _ _ _ _ (by decide),
    setLine_other _ _ _ _ (by decide), setLine_other _ _ _ _ (by decide),
    setLine_other _ _ _ _ (by decide)]

theorem ImportOptionsPlayer_rest (po : PlayerOptions) (sel : Nat → Int) :
    ImportOptionsPlayer po sel PO_APPEAR = po.m_AppearanceType ∧
      ImportOptionsPlayer po sel PO_TURN = po.m_TurnType ∧
      ImportOptionsPlayer po sel PO_LITTLE = (if po.m_bLittle then 1 else 0) ∧
      ImportOptionsPlayer po sel PO_SCROLL = (if po.m_bReverseScroll then 1 else 0) ∧
      ImportOptionsPlayer po sel PO_COLOR = po.m_ColorType ∧
      ImportOptionsPlayer po sel PO_HOLD_NOTES = (if po.m_bHoldNotes then 1 else 0) ∧
      ImportOptionsPlayer po sel PO_DARK = (if po.m_bDark then 1 else 0) := by
  unfold ImportOptionsPlayer
  refine ⟨?_, ?_, ?_, ?_, ?_, ?_, ?_⟩
  · rw [setLine_other _ _ _ _ (by decide), setLine_other _ _ _ _ (by decide),
      setLine_other _ _ _ _ (by decide), setLine_other _ _ _ _ (by decide),
      setLine_other _ _ _ _ (by decide), setLine_other _ _ _ _ (by decide), setLine_same]
  · rw [setLine_other _ _ _ _ (by decide), setLine_other _ _ _ _ (by decide),
      setLine_other _ _ _ _ (by decide), setLine_other _ _ _ _ (by decide),
      setLine_other _ _ _ _ (by decide), setLine_same]
  · rw [setLine_other _ _ _ _ (by decide), setLine_other _ _ _ _ (by decide),
      setLine_other _ _ _ _ (by decide), setLine_other _ _ _ _ (by decide), setLine_same]
  · rw [setLine_other _ _ _ _ (by decide), setLine_other _ _ _ _ (by decide),
      setLine_other _ _ _ _ (by decide), setLine_same]
  · rw [setLine_other _ _ _ _ (by decide), setLine_other _ _ _ _ (by decide), setLine_same]
  · rw [setLine_other _ _ _ _ (by decide), setLine_same]
  · rw [setLine_same]

theorem ImportOptionsPlayer_other (po : PlayerOptions) (sel : Nat → Int) (line : Nat)
    (h : NUM_PLAYER_OPTIONS_LINES ≤ line) : ImportOptionsPlayer po sel line = sel line := by
  unfold NUM_PLAYER_OPTIONS_LINES at h
  unfold ImportOptionsPlayer
  rw [setLine_other _ PO_DARK _ _ (by unfold PO_DARK; omega),
    setLine_other _ PO_HOLD_NOTES _ _ (by unfold PO_HOLD_NOTES; omega),
    setLine_other _ PO_COLOR _ _ (by unfold PO_COLOR; omega),
    setLine_other _ PO_SCROLL _ _ (by unfold PO_SCROLL; omega),
    setLine_other _ PO_LITTLE _ _ (by unfold PO_LITTLE; omega),
    setLine_other _ PO_TURN _ _ (by unfold PO_TURN; omega),
    setLine_other _ PO_APPEAR _ _ (by unfold PO_APPEAR; omega),
    ImportEffect_other _ _ _ (by unfold PO_EFFECT; omega),
    ImportSpeed_other _ _ _ (by unfold PO_SPEED; omega)]


/-! ### What `ExportOptionsPlayer` leaves in each member -/

theorem ite_speed {c : Prop} [Decidable c] (po X : PlayerOptions) (a b : ℚ)
    (hX : X = { po with m_fArrowScrollSpeed := b }) :
    (if c then { po with m_fArrowScrollSpeed := a } else X) =
      { po with m_fArrowScrollSpeed := if c then a else b } := by
  by_cases h : c
  · rw [if_pos h, if_pos h]
  · rw [if_neg h, if_neg h, hX]

theorem ite_effect {c : Prop} [Decidable c] (po X : PlayerOptions) (a b : EffectType)
    (hX : X = { po with m_EffectType := b }) :
    (if c then { po with m_EffectType := a } else X) =
      { po with m_EffectType := if c then a else b } := by
  by_cases h : c
  · rw [if_pos h, if_pos h]
  · rw [if_neg h, if_neg h, hX]

theorem ExportSpeed_eq (sel : Nat → Int) (po : PlayerOptions) :
    ExportSpeed sel po =
      { po with m_fArrowScrollSpeed :=
          if sel PO_SPEED = 0 then 0.5
          else if sel PO_SPEED = 1 then 0.75
          else if sel PO_SPEED = 2 then 1.0
          else if sel PO_SPEED = 3 then 1.5
          else if sel PO_SPEED = 4 then 2.0
          else if sel PO_SPEED = 5 then 3.0
          else if sel PO_SPEED = 6 then 4.0
          else if sel PO_SPEED = 7 then 5.0
          else if sel PO_SPEED = 8 then 8.0
          else po.m_fArrowScrollSpeed } := by
  unfold ExportSpeed
  repeat' apply ite_speed
  rfl

theorem ExportEffect_eq (sel : Nat → Int) (po : PlayerOptions) :
    ExportEffect sel po =
      { po with m_EffectType :=
          if sel PO_EFFECT = 0 then EFFECT_NONE
          else if sel PO_EFFECT = 1 then EFFECT_BOOST
          else if sel PO_EFFECT = 2 then EFFECT_WAVE
          else if sel PO_EFFECT = 3 then EFFECT_DRUNK
          else if sel PO_EFFECT = 4 then EFFECT_DIZZY
          else if sel PO_EFFECT = 5 then EFFECT_SPACE
          else if sel PO_EFFECT = 6 then EFFECT_MINI
          else po.m_EffectType } := by
  unfold ExportEffect
  repeat' apply ite_effect
  rfl

theorem ExportOptionsPlayer_eq (sel : Nat → Int) (po : PlayerOptions) :
    ExportOptionsPlayer sel po =
      { m_fArrowScrollSpeed :=
          if sel PO_SPEED = 0 then 0.5
          else if sel PO_SPEED = 1 then 0.75
          else if sel PO_SPEED = 2 then 1.0
          else if sel PO_SPEED = 3 then 1.5
          else if sel PO_SPEED = 4 then 2.0
          else if sel PO_SPEED = 5 then 3.0
          else if sel PO_SPEED = 6 then 4.0
          else if sel PO_SPEED = 7 then 5.0
          else if sel PO_SPEED = 8 then 8.0
          else po.m_fArrowScrollSpeed
        m_EffectType :=
          if sel PO_EFFECT = 0 then EFFECT_NONE
          else if sel PO_EFFECT = 1 then EFFECT_BOOST
          else if sel PO_EFFECT = 2 then EFFECT_WAVE
          else if sel PO_EFFECT = 3 then EFFECT_DRUNK
          else if sel PO_EFFECT = 4 then EFFECT_DIZZY
          else if sel PO_EFFECT = 5 then EFFECT_SPACE
          else if sel PO_EFFECT = 6 then EFFECT_MINI
          else po.m_EffectType
        m_AppearanceType := sel PO_APPEAR
        m_TurnType := sel PO_TURN
        m_bLittle := decide (sel PO_LITTLE = 1)
        m_bReverseScroll := decide (sel PO_SCROLL = 1)
        m_ColorType := sel PO_COLOR
        m_bHoldNotes := decide (sel PO_HOLD_NOTES = 1)
        m_bDark := decide (sel PO_DARK = 1) } := by
  unfold ExportOptionsPlayer
  simp only [ExportSpeed_eq, ExportEffect_eq]

/-! ### The two round trips for one player -/

theorem speed_index_roundtrip (v : Int) (h0 : 0 ≤ v) (h8 : v ≤ 8) (old speed : ℚ)
    (hspeed : speed =
      if v = 0 then 0.5 else if v = 1 then 0.75 else if v = 2 then 1.0
      else if v = 3 then 1.5 else if v = 4 then 2.0 else if v = 5 then 3.0
      else if v = 6 then 4.0 else if v = 7 then 5.0 else if v = 8 then 8.0 else old) :
    (if speed = 0.5 then 0 else if speed = 0.75 then 1 else if speed = 1.0 then 2
      else if speed = 1.5 then 3 else if speed = 2.0 then 4 else if speed = 3.0 then 5
      else if speed = 4.0 then 6 else if speed = 5.0 then 7 else if speed = 8.0 then 8
      else (2 : Int)) = v := by
  subst hspeed
  interval_cases v <;> norm_num

theorem effect_index_roundtrip (v : Int) (h0 : 0 ≤ v) (h6 : v ≤ 6) (old : EffectType)
    (fallback : Int) :
    (match (if v = 0 then EFFECT_NONE else if v = 1 then EFFECT_BOOST
        else if v = 2 then EFFECT_WAVE else if v = 3 then EFFECT_DRUNK
        else if v = 4 then EFFECT_DIZZY else if v = 5 then EFFECT_SPACE
        else if v = 6 then EFFECT_MINI else old : EffectType) with
      | EFFECT_NONE => 0
      | EFFECT_BOOST => 1
      | EFFECT_WAVE => 2
      | EFFECT_DRUNK => 3
      | EFFECT_DIZZY => 4
      | EFFECT_SPACE => 5
      | EFFECT_MINI => 6
      | EFFECT_OTHER _ => fallback) = v := by
  interval_cases v <;> rfl

theorem ImportOptionsPlayer_ExportOptionsPlayer (sel : Nat → Int) (po : PlayerOptions)
    (hvalid : ValidSelection sel) (line : Nat) :
    ImportOptionsPlayer (ExportOptionsPlayer sel po) sel line = sel line := by
  obtain ⟨⟨hs0, hs8⟩, ⟨he0, he6⟩, hl, hr, hh, hd⟩ := hvalid
  obtain ⟨h2, h3, h4, h5, h6, h7, h8⟩ :=
    ImportOptionsPlayer_rest (ExportOptionsPlayer sel po) sel
  by_cases hline : NUM_PLAYER_OPTIONS_LINES ≤ line
  · exact ImportOptionsPlayer_other _ _ _ hline
  · unfold NUM_PLAYER_OPTIONS_LINES at hline
    have hlt : line < 9 := by omega
    interval_cases line
    · show ImportOptionsPlayer (ExportOptionsPlayer sel po) sel PO_SPEED = sel PO_SPEED
      rw [ImportOptionsPlayer_speed, ImportSpeed_speed, ExportOptionsPlayer_eq]
      exact speed_index_roundtrip (sel PO_SPEED) hs0 hs8 _ _ rfl
    · show ImportOptionsPlayer (ExportOptionsPlayer sel po) sel PO_EFFECT = sel PO_EFFECT
      rw [ImportOptionsPlayer_effect, ImportEffect_effect, ExportOptionsPlayer_eq]
      exact effect_index_roundtrip (sel PO_EFFECT) he0 he6 _ _
    · show ImportOptionsPlayer (ExportOptionsPlayer sel po) sel PO_APPEAR = sel PO_APPEAR
      rw [h2, ExportOptionsPlayer_eq]
    · show ImportOptionsPlayer (ExportOptionsPlayer sel po) sel PO_TURN = sel PO_TURN
      rw [h3, ExportOptionsPlayer_eq]
    · show ImportOptionsPlayer (ExportOptionsPlayer sel po) sel PO_LITTLE = sel PO_LITTLE
      rw [h4, ExportOptionsPlayer_eq]
      rcases hl with h | h <;> rw [h] <;> rfl
    · show ImportOptionsPlayer (ExportOptionsPlayer sel po) sel PO_SCROLL = sel PO_SCROLL
      rw [h5, ExportOptionsPlayer_eq]
      rcases hr with h | h <;> rw [h] <;> rfl
    · show ImportOptionsPlayer (ExportOptionsPlayer sel po) sel PO_COLOR = sel PO_COLOR
      rw [h6, ExportOptionsPlayer_eq]
    · show ImportOptionsPlayer (ExportOptionsPlayer sel po) sel PO_HOLD_NOTES =
        sel PO_HOLD_NOTES
      rw [h7, ExportOptionsPlayer_eq]
      rcases hh with h | h <;> rw [h] <;> rfl
    · show ImportOptionsPlayer (ExportOptionsPlayer sel po) sel PO_DARK = sel PO_DARK
      rw [h8, ExportOptionsPlayer_eq]
      rcases hd with h | h <;> rw [h] <;> rfl


theorem PlayerOptions_eq_of_members (a b : PlayerOptions)
    (h1 : a.m_fArrowScrollSpeed = b.m_fArrowScrollSpeed) (h2 : a.m_EffectType = b.m_EffectType)
    (h3 : a.m_AppearanceType = b.m_AppearanceType) (h4 : a.m_TurnType = b.m_TurnType)
    (h5 : a.m_bLittle = b.m_bLittle) (h6 : a.m_bReverseScroll = b.m_bReverseScroll)
    (h7 : a.m_ColorType = b.m_ColorType) (h8 : a.m_bHoldNotes = b.m_bHoldNotes)
    (h9 : a.m_bDark = b.m_bDark) : a = b := by
  cases a
  cases b
  simp only [PlayerOptions.mk.injEq]
  exact ⟨h1, h2, h3, h4, h5, h6, h7, h8, h9⟩

theorem speed_roundtrip_known (speed old : ℚ) (hk : KnownSpeed speed) (idx : Int)
    (hidx : idx =
      if speed = 0.5 then 0 else if speed = 0.75 then 1 else if speed = 1.0 then 2
      else if speed = 1.5 then 3 else if speed = 2.0 then 4 else if speed = 3.0 then 5
      else if speed = 4.0 then 6 else if speed = 5.0 then 7 else if speed = 8.0 then 8
      else 2) :
    (if idx = 0 then 0.5 else if idx = 1 then 0.75 else if idx = 2 then 1.0
      else if idx = 3 then 1.5 else if idx = 4 then 2.0 else if idx = 5 then 3.0
      else if idx = 6 then 4.0 else if idx = 7 then 5.0 else if idx = 8 then 8.0
      else old) = speed := by
  subst hidx
  unfold KnownSpeed at hk
  rcases hk with h | h | h | h | h | h | h | h | h <;> subst h <;> norm_num

theorem speed_index_unknown (speed : ℚ) (hk : ¬ KnownSpeed speed) :
    (if speed = 0.5 then 0 else if speed = 0.75 then 1 else if speed = 1.0 then 2
      else if speed = 1.5 then 3 else if speed = 2.0 then 4 else if speed = 3.0 then 5
      else if speed = 4.0 then 6 else if speed = 5.0 then 7 else if speed = 8.0 then 8
      else (2 : Int)) = 2 := by
  unfold KnownSpeed at hk
  simp only [not_or] at hk
  obtain ⟨h1, h2, h3, h4, h5, h6, h7, h8, h9⟩ := hk
  rw [if_neg h1, if_neg h2, if_neg h3, if_neg h4, if_neg h5, if_neg h6, if_neg h7, if_neg h8,
    if_neg h9]

theorem effect_roundtrip_known (effect old : EffectType) (fallback idx : Int)
    (hidx : idx = match effect with
      | EFFECT_NONE => 0
      | EFFECT_BOOST => 1
      | EFFECT_WAVE => 2
      | EFFECT_DRUNK => 3
      | EFFECT_DIZZY => 4
      | EFFECT_SPACE => 5
      | EFFECT_MINI => 6
      | EFFECT_OTHER _ => fallback)
    (hk : KnownEffect effect) :
    (if idx = 0 then EFFECT_NONE else if idx = 1 then EFFECT_BOOST
      else if idx = 2 then EFFECT_WAVE else if idx = 3 then EFFECT_DRUNK
      else if idx = 4 then EFFECT_DIZZY else if idx = 5 then EFFECT_SPACE
      else if idx = 6 then EFFECT_MINI else old) = effect := by
  subst hidx
  unfold KnownEffect at hk
  rcases hk with h | h | h | h | h | h | h <;> subst h <;> rfl

theorem bool_roundtrip (b : Bool) : decide ((if b then (1 : Int) else 0) = 1) = b := by
  cases b <;> rfl

theorem ExportOptionsPlayer_ImportOptionsPlayer (po : PlayerOptions) (sel : Nat → Int)
    (heff : KnownEffect po.m_EffectType) :
    ExportOptionsPlayer (ImportOptionsPlayer po sel) po =
      { po with m_fArrowScrollSpeed :=
          if ImportOptionsPlayer po sel PO_SPEED = 0 then 0.5
          else if ImportOptionsPlayer po sel PO_SPEED = 1 then 0.75
          else if ImportOptionsPlayer po sel PO_SPEED = 2 then 1.0
          else if ImportOptionsPlayer po sel PO_SPEED = 3 then 1.5
          else if ImportOptionsPlayer po sel PO_SPEED = 4 then 2.0
          else if ImportOptionsPlayer po sel PO_SPEED = 5 then 3.0
          else if ImportOptionsPlayer po sel PO_SPEED = 6 then 4.0
          else if ImportOptionsPlayer po sel PO_SPEED = 7 then 5.0
          else if ImportOptionsPlayer po sel PO_SPEED = 8 then 8.0
          else po.m_fArrowScrollSpeed } := by
  obtain ⟨h2, h3, h4, h5, h6, h7, h8⟩ := ImportOptionsPlayer_rest po sel
  rw [ExportOptionsPlayer_eq]
  apply PlayerOptions_eq_of_members
  · rfl
  · show (if ImportOptionsPlayer po sel PO_EFFECT = 0 then EFFECT_NONE
      else if ImportOptionsPlayer po sel PO_EFFECT = 1 then EFFECT_BOOST
      else if ImportOptionsPlayer po sel PO_EFFECT = 2 then EFFECT_WAVE
      else if ImportOptionsPlayer po sel PO_EFFECT = 3 then EFFECT_DRUNK
      else if ImportOptionsPlayer po sel PO_EFFECT = 4 then EFFECT_DIZZY
      else if ImportOptionsPlayer po sel PO_EFFECT = 5 then EFFECT_SPACE
      else if ImportOptionsPlayer po sel PO_EFFECT = 6 then EFFECT_MINI
      else po.m_EffectType) = po.m_EffectType
    rw [ImportOptionsPlayer_effect, ImportEffect_effect]
    exact effect_roundtrip_known po.m_EffectType po.m_EffectType _ _ rfl heff
  · exact h2
  · exact h3
  · show decide (ImportOptionsPlayer po sel PO_LITTLE = 1) = po.m_bLittle
    rw [h4]
    exact bool_roundtrip _
  · show decide (ImportOptionsPlayer po sel PO_SCROLL = 1) = po.m_bReverseScroll
    rw [h5]
    exact bool_roundtrip _
  · exact h6
  · show decide (ImportOptionsPlayer po sel PO_HOLD_NOTES = 1) = po.m_bHoldNotes
    rw [h7]
    exact bool_roundtrip _
  · show decide (ImportOptionsPlayer po sel PO_DARK = 1) = po.m_bDark
    rw [h8]
    exact bool_roundtrip _

theorem ExportOptionsPlayer_ImportOptionsPlayer_known (po : PlayerOptions) (sel : Nat → Int)
    (heff : KnownEffect po.m_EffectType) (hk : KnownSpeed po.m_fArrowScrollSpeed) :
    ExportOptionsPlayer (ImportOptionsPlayer po sel) po = po := by
  rw [ExportOptionsPlayer_ImportOptionsPlayer po sel heff]
  apply PlayerOptions_eq_of_members <;> try rfl
  exact speed_roundtrip_known po.m_fArrowScrollSpeed _ hk _
    ((ImportOptionsPlayer_speed po sel).trans (ImportSpeed_speed po sel))

theorem ExportOptionsPlayer_ImportOptionsPlayer_unknown (po : PlayerOptions)
    (sel : Nat → Int) (heff : KnownEffect po.m_EffectType)
    (hk : ¬ KnownSpeed po.m_fArrowScrollSpeed) :
    ImportOptionsPlayer po sel PO_SPEED = 2 ∧
      ExportOptionsPlayer (ImportOptionsPlayer po sel) po =
        { po with m_fArrowScrollSpeed := 1.0 } := by
  have h2 : ImportOptionsPlayer po sel PO_SPEED = 2 := by
    rw [ImportOptionsPlayer_speed, ImportSpeed_speed]
    exact speed_index_unknown _ hk
  refine ⟨h2, ?_⟩
  rw [ExportOptionsPlayer_ImportOptionsPlayer po sel heff, h2]
  apply PlayerOptions_eq_of_members <;> try rfl

/-- C16: for every table whose rows for the players `0, ..., NUM_PLAYERS - 1` are valid
selections (Speed index in 0..8, Effect index in 0..6, Little, Scroll, Holds and Dark
indices 0 or 1; any Appear, Turn and Color value), and for any player options,
`ExportOptions` followed by `ImportOptions` leaves every `m_iSelectedOption[p][line]` at
its original value. -/
theorem C16_Export_then_Import_keeps_table (NUM_PLAYERS : Nat)
    (options : Nat → PlayerOptions) (table : Nat → Nat → Int)
    (hvalid : ∀ p, p < NUM_PLAYERS → ValidSelection (table p)) (p line : Nat) :
    ImportOptions NUM_PLAYERS (ExportOptions NUM_PLAYERS table options) table p line =
      table p line := by
  rw [ImportOptions_apply]
  by_cases hp : p < NUM_PLAYERS
  · rw [if_pos hp, ExportOptions_apply, if_pos hp]
    exact ImportOptionsPlayer_ExportOptionsPlayer (table p) (options p) (hvalid p hp) line
  · rw [if_neg hp]

/-- Witness of C16: the two rows of `sampleTable` are valid, and the Speed index 7 of
player 1 comes back after `ExportOptions` and `ImportOptions`. -/
theorem C16_Export_then_Import_keeps_table_witness :
    ValidSelection (sampleTable 0) ∧ ValidSelection (sampleTable 1) ∧
      ImportOptions 2 (ExportOptions 2 sampleTable sampleOptions) sampleTable 1 PO_SPEED = 7 :=
  ⟨by decide, by decide,
    C16_Export_then_Import_keeps_table 2 sampleOptions sampleTable
      (by
        intro p hp
        interval_cases p <;> decide) 1 PO_SPEED⟩

/-- C17: for each player `p < NUM_PLAYERS` whose effect type is one of the seven known
effects, after `ImportOptions` followed by `ExportOptions`: if the stored scroll speed is
one of 0.5, 0.75, 1, 1.5, 2, 3, 4, 5, 8, the player's options are unchanged; for any
other speed `ImportOptions` selects Speed index 2 and the round trip replaces the speed
with 1.0 and leaves every other member unchanged. -/
theorem C17_Import_then_Export_normalises_speed (NUM_PLAYERS : Nat)
    (options : Nat → PlayerOptions) (table : Nat → Nat → Int) (p : Nat)
    (hp : p < NUM_PLAYERS) (heff : KnownEffect (options p).m_EffectType) :
    (KnownSpeed (options p).m_fArrowScrollSpeed →
        ExportOptions NUM_PLAYERS (ImportOptions NUM_PLAYERS options table) options p =
          options p) ∧
      (¬ KnownSpeed (options p).m_fArrowScrollSpeed →
        ImportOptions NUM_PLAYERS options table p PO_SPEED = 2 ∧
          ExportOptions NUM_PLAYERS (ImportOptions NUM_PLAYERS options table) options p =
            { options p with m_fArrowScrollSpeed := 1.0 }) := by
  rw [ExportOptions_apply, if_pos hp, ImportOptions_apply, if_pos hp]
  exact ⟨ExportOptionsPlayer_ImportOptionsPlayer_known (options p) (table p) heff,
    ExportOptionsPlayer_ImportOptionsPlayer_unknown (options p) (table p) heff⟩

/-- Witness of C17: player 0 of `sampleOptions` scrolls at x2.5 with the wave effect;
`ImportOptions` selects Speed index 2 and the round trip stores speed 1.0. -/
theorem C17_Import_then_Export_normalises_speed_witness :
    KnownEffect (sampleOptions 0).m_EffectType ∧
      ¬ KnownSpeed (sampleOptions 0).m_fArrowScrollSpeed ∧
      ImportOptions 2 sampleOptions sampleTable 0 PO_SPEED = 2 ∧
      ExportOptions 2 (ImportOptions 2 sampleOptions sampleTable) sampleOptions 0 =
        { sampleOptions 0 with m_fArrowScrollSpeed := 1.0 } := by
  have hk : ¬ KnownSpeed (sampleOptions 0).m_fArrowScrollSpeed := by
    show ¬ KnownSpeed 2.5
    unfold KnownSpeed
    norm_num
  have he : KnownEffect (sampleOptions 0).m_EffectType := Or.inr (Or.inr (Or.inl rfl))
  exact ⟨he, hk,
    (C17_Import_then_Export_normalises_speed 2 sampleOptions sampleTable 0 (by decide) he).2 hk⟩


/-! ### The labels of the Speed and Effect lines -/

theorem speedOfLabel_of_decimal (label : String) (m e : Nat) (q : ℚ)
    (hd : decimalOfLabel label = some (m, e)) (hq : (m : ℚ) / 10 ^ e = q) :
    speedOfLabel label = some q := by
  unfold speedOfLabel
  rw [hd, ← hq]

theorem ExportOptionsPlayer_speed_of_index (sel : Nat → Int) (po : PlayerOptions) :
    (sel PO_SPEED = 0 → (ExportOptionsPlayer sel po).m_fArrowScrollSpeed = 0.5) ∧
    (sel PO_SPEED = 1 → (ExportOptionsPlayer sel po).m_fArrowScrollSpeed = 0.75) ∧
    (sel PO_SPEED = 2 → (ExportOptionsPlayer sel po).m_fArrowScrollSpeed = 1.0) ∧
    (sel PO_SPEED = 3 → (ExportOptionsPlayer sel po).m_fArrowScrollSpeed = 1.5) ∧
    (sel PO_SPEED = 4 → (ExportOptionsPlayer sel po).m_fArrowScrollSpeed = 2.0) ∧
    (sel PO_SPEED = 5 → (ExportOptionsPlayer sel po).m_fArrowScrollSpeed = 3.0) ∧
    (sel PO_SPEED = 6 → (ExportOptionsPlayer sel po).m_fArrowScrollSpeed = 4.0) ∧
    (sel PO_SPEED = 7 → (ExportOptionsPlayer sel po).m_fArrowScrollSpeed = 5.0) ∧
    (sel PO_SPEED = 8 → (ExportOptionsPlayer sel po).m_fArrowScrollSpeed = 8.0) ∧
    ((sel PO_SPEED < 0 ∨ 8 < sel PO_SPEED) →
      (ExportOptionsPlayer sel po).m_fArrowScrollSpeed = po.m_fArrowScrollSpeed) := by
  rw [ExportOptionsPlayer_eq]
  refine ⟨?_, ?_, ?_, ?_, ?_, ?_, ?_, ?_, ?_, ?_⟩
  all_goals intro h
  case refine_10 =>
    show (if sel PO_SPEED = 0 then (0.5 : ℚ) else _) = _
    repeat rw [if_neg (show ¬ sel PO_SPEED = _ by omega)]
  all_goals
    show (if sel PO_SPEED = 0 then (0.5 : ℚ) else _) = _
    rw [h]
    rfl

theorem ExportOptionsPlayer_effect_of_index (sel : Nat → Int) (po : PlayerOptions) :
    (sel PO_EFFECT = 0 → (ExportOptionsPlayer sel po).m_EffectType = EFFECT_NONE) ∧
    (sel PO_EFFECT = 1 → (ExportOptionsPlayer sel po).m_EffectType = EFFECT_BOOST) ∧
    (sel PO_EFFECT = 2 → (ExportOptionsPlayer sel po).m_EffectType = EFFECT_WAVE) ∧
    (sel PO_EFFECT = 3 → (ExportOptionsPlayer sel po).m_EffectType = EFFECT_DRUNK) ∧
    (sel PO_EFFECT = 4 → (ExportOptionsPlayer sel po).m_EffectType = EFFECT_DIZZY) ∧
    (sel PO_EFFECT = 5 → (ExportOptionsPlayer sel po).m_EffectType = EFFECT_SPACE) ∧
    (sel PO_EFFECT = 6 → (ExportOptionsPlayer sel po).m_EffectType = EFFECT_MINI) ∧
    ((sel PO_EFFECT < 0 ∨ 6 < sel PO_EFFECT) →
      (ExportOptionsPlayer sel po).m_EffectType = po.m_EffectType) := by
  rw [ExportOptionsPlayer_eq]
  refine ⟨?_, ?_, ?_, ?_, ?_, ?_, ?_, ?_⟩
  all_goals intro h
  case refine_8 =>
    show (if sel PO_EFFECT = 0 then EFFECT_NONE else _) = _
    repeat rw [if_neg (show ¬ sel PO_EFFECT = _ by omega)]
  all_goals
    show (if sel PO_EFFECT = 0 then EFFECT_NONE else _) = _
    rw [h]
    rfl


theorem HandlesSpeed_iff (v : Int) : HandlesSpeed v ↔ 0 ≤ v ∧ v < 9 := by
  constructor
  · intro h
    by_contra hc
    have hv : v < 0 ∨ 8 < v := by omega
    have h1 := (ExportOptionsPlayer_speed_of_index (fun _ => v) defaultOptions).2.2.2.2.2.2.2.2.2 hv
    have h2 := (ExportOptionsPlayer_speed_of_index (fun _ => v)
      { defaultOptions with m_fArrowScrollSpeed := 2.0 }).2.2.2.2.2.2.2.2.2 hv
    have h3 := h (fun _ => v) defaultOptions { defaultOptions with m_fArrowScrollSpeed := 2.0 } rfl
    rw [h1, h2] at h3
    have h4 : (1.0 : ℚ) = 2.0 := h3
    norm_num at h4
  · rintro ⟨h0, h9⟩ sel po1 po2 hsel
    obtain ⟨a0, a1, a2, a3, a4, a5, a6, a7, a8, -⟩ := ExportOptionsPlayer_speed_of_index sel po1
    obtain ⟨b0, b1, b2, b3, b4, b5, b6, b7, b8, -⟩ := ExportOptionsPlayer_speed_of_index sel po2
    interval_cases v
    · rw [a0 hsel, b0 hsel]
    · rw [a1 hsel, b1 hsel]
    · rw [a2 hsel, b2 hsel]
    · rw [a3 hsel, b3 hsel]
    · rw [a4 hsel, b4 hsel]
    · rw [a5 hsel, b5 hsel]
    · rw [a6 hsel, b6 hsel]
    · rw [a7 hsel, b7 hsel]
    · rw [a8 hsel, b8 hsel]

theorem HandlesEffect_iff (v : Int) : HandlesEffect v ↔ 0 ≤ v ∧ v < 7 := by
  constructor
  · intro h
    by_contra hc
    have hv : v < 0 ∨ 6 < v := by omega
    have h1 := (ExportOptionsPlayer_effect_of_index (fun _ => v) defaultOptions).2.2.2.2.2.2.2 hv
    have h2 := (ExportOptionsPlayer_effect_of_index (fun _ => v)
      { defaultOptions with m_EffectType := EFFECT_MINI }).2.2.2.2.2.2.2 hv
    have h3 := h (fun _ => v) defaultOptions { defaultOptions with m_EffectType := EFFECT_MINI } rfl
    rw [h1, h2] at h3
    exact absurd h3 (by decide)
  · rintro ⟨h0, h9⟩ sel po1 po2 hsel
    obtain ⟨a0, a1, a2, a3, a4, a5, a6, -⟩ := ExportOptionsPlayer_effect_of_index sel po1
    obtain ⟨b0, b1, b2, b3, b4, b5, b6, -⟩ := ExportOptionsPlayer_effect_of_index sel po2
    interval_cases v
    · rw [a0 hsel, b0 hsel]
    · rw [a1 hsel, b1 hsel]
    · rw [a2 hsel, b2 hsel]
    · rw [a3 hsel, b3 hsel]
    · rw [a4 hsel, b4 hsel]
    · rw [a5 hsel, b5 hsel]
    · rw [a6 hsel, b6 hsel]

/-- C18: for every Speed index `i` in 0..8, the scroll speed that `ExportOptions` stores
for selection `i` is the number written after the x in the `i`-th Speed label of
`g_PlayerOptionsLines`; for every Effect index `i` in 0..6, the effect type it stores is
the one named by the `i`-th Effect label; and the declared choice counts of the two lines
(9 and 7) are the numbers of their labels and of the indices that the two `switch`
statements of `ExportOptions` handle, which are exactly the indices from 0 below the
count. -/
theorem C18_labels_agree_with_export :
    (∀ i : Nat, i < 9 → ∀ (sel : Nat → Int) (po : PlayerOptions), sel PO_SPEED = (i : Int) →
      ∃ label, optionLabel PO_SPEED i = some label ∧
        speedOfLabel label = some (ExportOptionsPlayer sel po).m_fArrowScrollSpeed) ∧
    (∀ i : Nat, i < 7 → ∀ (sel : Nat → Int) (po : PlayerOptions), sel PO_EFFECT = (i : Int) →
      ∃ label, optionLabel PO_EFFECT i = some label ∧
        effectOfLabel label = some (ExportOptionsPlayer sel po).m_EffectType) ∧
    (∃ data, g_PlayerOptionsLines[PO_SPEED]? = some data ∧ data.iNumOptions = 9 ∧
      data.szOptionsText.length = 9 ∧
      ∀ v : Int, HandlesSpeed v ↔ 0 ≤ v ∧ v < data.iNumOptions) ∧
    (∃ data, g_PlayerOptionsLines[PO_EFFECT]? = some data ∧ data.iNumOptions = 7 ∧
      data.szOptionsText.length = 7 ∧
      ∀ v : Int, HandlesEffect v ↔ 0 ≤ v ∧ v < data.iNumOptions) := by
  refine ⟨?_, ?_, ?_, ?_⟩
  · intro i hi sel po hsel
    obtain ⟨a0, a1, a2, a3, a4, a5, a6, a7, a8, -⟩ := ExportOptionsPlayer_speed_of_index sel po
    interval_cases i
    · rw [a0 hsel]
      exact ⟨_, rfl, speedOfLabel_of_decimal _ 5 1 _ (by decide) (by norm_num)⟩
    · rw [a1 hsel]
      exact ⟨_, rfl, speedOfLabel_of_decimal _ 75 2 _ (by decide) (by norm_num)⟩
    · rw [a2 hsel]
      exact ⟨_, rfl, speedOfLabel_of_decimal _ 1 0 _ (by decide) (by norm_num)⟩
    · rw [a3 hsel]
      exact ⟨_, rfl, speedOfLabel_of_decimal _ 15 1 _ (by decide) (by norm_num)⟩
    · rw [a4 hsel]
      exact ⟨_, rfl, speedOfLabel_of_decimal _ 2 0 _ (by decide) (by norm_num)⟩
    · rw [a5 hsel]
      exact ⟨_, rfl, speedOfLabel_of_decimal _ 3 0 _ (by decide) (by norm_num)⟩
    · rw [a6 hsel]
      exact ⟨_, rfl, speedOfLabel_of_decimal _ 4 0 _ (by decide) (by norm_num)⟩
    · rw [a7 hsel]
      exact ⟨_, rfl, speedOfLabel_of_decimal _ 5 0 _ (by decide) (by norm_num)⟩
    · rw [a8 hsel]
      exact ⟨_, rfl, speedOfLabel_of_decimal _ 8 0 _ (by decide) (by norm_num)⟩
  · intro i hi sel po hsel
    obtain ⟨a0, a1, a2, a3, a4, a5, a6, -⟩ := ExportOptionsPlayer_effect_of_index sel po
    interval_cases i
    · rw [a0 hsel]
      exact ⟨_, rfl, by decide⟩
    · rw [a1 hsel]
      exact ⟨_, rfl, by decide⟩
    · rw [a2 hsel]
      exact ⟨_, rfl, by decide⟩
    · rw [a3 hsel]
      exact ⟨_, rfl, by decide⟩
    · rw [a4 hsel]
      exact ⟨_, rfl, by decide⟩
    · rw [a5 hsel]
      exact ⟨_, rfl, by decide⟩
    · rw [a6 hsel]
      exact ⟨_, rfl, by decide⟩
  · exact ⟨_, rfl, rfl, rfl, HandlesSpeed_iff⟩
  · exact ⟨_, rfl, rfl, rfl, HandlesEffect_iff⟩

/-- Witness of C18: row 0 of `sampleTable` selects Speed index 3 and Effect index 2; the
labels are x1.5 and WAVE, and they name the speed and the effect type that
`ExportOptions` stores for that row. -/
theorem C18_labels_agree_with_export_witness :
    (∃ label, optionLabel PO_SPEED 3 = some label ∧
      speedOfLabel label =
        some (ExportOptionsPlayer (sampleTable 0) defaultOptions).m_fArrowScrollSpeed) ∧
    optionLabel PO_SPEED 3 = some "x1.5" ∧
    (∃ label, optionLabel PO_EFFECT 2 = some label ∧
      effectOfLabel label =
        some (ExportOptionsPlayer (sampleTable 0) defaultOptions).m_EffectType) ∧
    optionLabel PO_EFFECT 2 = some "WAVE" :=
  ⟨C18_labels_agree_with_export.1 3 (by decide) (sampleTable 0) defaultOptions (by decide),
    by decide,
    C18_labels_agree_with_export.2.1 2 (by decide) (sampleTable 0) defaultOptions (by decide),
    by decide⟩

end ScreenPlayerOptions
